import Mathlib

/-!
Verification development for the tg-ai-agent repository.

Shallow embedding of:
* `src/backend/services/task_manager.py` — the category-concurrency task manager
  (`TaskManager` with per-`TaskType` concurrency limits, FIFO wait queues,
  completion-driven and polled queue draining, cancellation, retention cleanup);
* `src/bot/services/task_manager.py` — the per-user single-flight task manager
  (`queue_task_with_queueing`, `queue_task_single_mode`, `cancel_user_task`);
* `src/backend/api/endpoints.py` `assemblyai_webhook` and
  `src/bot/api/endpoints.py` `send_message_to_user` — the webhook rendezvous
  path with its shared-secret check, correlation-parameter validation,
  delivered-flag short circuit and delivery effects.

The cooperative (asyncio) scheduler is modelled as a labelled transition system:
each synchronous block of Python between suspension points is one atomic step.
Machine integers do not overflow in any modelled quantity, so `Nat`/`Int` are
used directly.  Python `None` is `Option.none`; a Python `dict` is an
association list with in-place value replacement; a Python `set` of strings is
a duplicate-free list.
-/

namespace TgAgent

/-! ## Shared association-list helpers (Python `dict` keyed by `str`) -/

/-- Python dict lookup `d.get(k)`. -/
def dictGet : List (String × Nat) → String → Option Nat
  | [], _ => none
  | (k, v) :: rest, key => if k = key then some v else dictGet rest key

/-- Python dict assignment `d[k] = v`: replaces the value in place if the key
exists, otherwise appends the binding (Python dicts keep insertion order). -/
def dictSet : List (String × Nat) → String → Nat → List (String × Nat)
  | [], key, v => [(key, v)]
  | (k, w) :: rest, key, v =>
    if k = key then (key, v) :: rest else (k, w) :: dictSet rest key v

/-- In-place update of the `i`-th element of a list (used for the object pool:
Python mutates `Task` objects through references). -/
def modifyNth (f : α → α) : List α → Nat → List α
  | [], _ => []
  | a :: rest, 0 => f a :: rest
  | a :: rest, n + 1 => a :: modifyNth f rest n

/-- Python `set.add` on a set of ids modelled as a duplicate-free list. -/
def setAdd (l : List String) (x : String) : List String :=
  if x ∈ l then l else l ++ [x]

namespace Backend

/-! ## `src/backend/services/task_manager.py` -/

/-- `TaskStatus` (line 12).  `NOT_FOUND` is only a lookup result, never stored,
so it is not part of the stored-state enumeration. -/
inductive TaskStatus where
  | queued | pending | running | completed | failed
  deriving DecidableEq, Repr

/-- `TaskType` (line 20). -/
inductive TaskType where
  | transcription | report | default
  deriving DecidableEq, Repr

/-- One `Task` object (class `Task`, lines 25–51).  `result` stands in for the
dict returned by the work coroutine (both work functions of the repository,
`transcribe` and `generate_report_task`, return a non-`None` dict or raise, so
a successful run always stores a non-null result).  `runPhase` is the asyncio
lifecycle of `task.task`: `0` = no asyncio task yet (`task.task is None`),
`1` = created but `run()` not started, `2` = `run()` body executing,
`3` = `run()` body finished; together with `cancelled` it determines
`task.task.done()` (`runPhase = 3` or `cancelled`). -/
structure Task where
  task_id : String
  status : TaskStatus
  task_type : TaskType
  result : Option Nat
  error : Option String
  created_at : Nat
  started_at : Option Nat
  completed_at : Option Nat
  queue_position : Option Nat
  runPhase : Nat
  cancelled : Bool
  deriving DecidableEq, Repr

/-- The `TaskManager` state (lines 67–81).  `objs` is the pool of `Task`
objects (Python object references are indices into it, in creation order, so an
index doubles as the ghost admission stamp); `tasks` is `self.tasks` mapping a
task id to its object; `task_queues` and `running_tasks` are per-type;
`startLog` is a ghost trace of the object indices started by the queue-drain
path (`_process_queue_for_type`), in start order, used to state FIFO. -/
structure TMState where
  objs : List Task
  tasks : List (String × Nat)
  task_queues : TaskType → List String
  running_tasks : TaskType → List String
  concurrency_limits : TaskType → Nat
  retention : Nat
  time : Nat
  startLog : TaskType → List Nat

/-- Update one pooled `Task` object through its reference. -/
def updateObj (s : TMState) (o : Nat) (f : Task → Task) : TMState :=
  { s with objs := modifyNth f s.objs o }

def setQueue (s : TMState) (τ : TaskType) (q : List String) : TMState :=
  { s with task_queues := Function.update s.task_queues τ q }

def setRunning (s : TMState) (τ : TaskType) (r : List String) : TMState :=
  { s with running_tasks := Function.update s.running_tasks τ r }

def pushLog (s : TMState) (τ : TaskType) (o : Nat) : TMState :=
  { s with startLog := Function.update s.startLog τ (s.startLog τ ++ [o]) }

/-- `TaskManager._start_task` (lines 116–125): set status `PENDING`, add the id
to the type's running set, create the asyncio task (`runPhase := 1`). -/
def startTask (s : TMState) (o : Nat) : TMState :=
  match s.objs.get? o with
  | none => s
  | some t =>
    let s1 := updateObj s o fun u => { u with status := .pending, runPhase := 1 }
    setRunning s1 t.task_type (setAdd (s1.running_tasks t.task_type) t.task_id)

/-- The `Task` object constructed by `Task.__init__` (lines 26–37). -/
def newTask (s : TMState) (id : String) (τ : TaskType) : Task :=
  { task_id := id, status := .queued, task_type := τ, result := none,
    error := none, created_at := s.time, started_at := none, completed_at := none,
    queue_position := none, runPhase := 0, cancelled := false }

/-- The state `add_task` reaches right after `self.tasks[task_id] = task`
(line 97): the new object appended to the pool and the dict entry set
(silently replacing any task that already used this id, as the Python dict
assignment does). -/
def addBase (s : TMState) (id : String) (τ : TaskType) : TMState :=
  { s with objs := s.objs ++ [newTask s id τ], tasks := dictSet s.tasks id s.objs.length }

/-- `TaskManager.add_task` (lines 83–114): create and store the `Task` in
status `QUEUED`, then either start it immediately when the running set is
below the type's limit, or append it to the type's wait queue with
`queue_position` = the new queue length. -/
def addTask (s : TMState) (id : String) (τ : TaskType) : TMState :=
  let s1 := addBase s id τ
  if (s1.running_tasks τ).length < s1.concurrency_limits τ then
    startTask s1 s.objs.length
  else
    let s2 := setQueue s1 τ (s1.task_queues τ ++ [id])
    updateObj s2 s.objs.length
      fun u => { u with queue_position := some (s2.task_queues τ).length }

/-- The queue-position renumbering loop
`for i, queued_id in enumerate(queue): tasks.get(queued_id).queue_position = i+1`
(lines 141–143 and 224–226), with `i` starting at `k`. -/
def renumberFrom : TMState → List String → Nat → TMState
  | s, [], _ => s
  | s, id :: rest, i =>
    let s' := match dictGet s.tasks id with
      | some o => updateObj s o fun u => { u with queue_position := some (i + 1) }
      | none => s
    renumberFrom s' rest (i + 1)

/-- `TaskManager._process_queue_for_type` (lines 132–146): pop the queue head;
if it still resolves to a task in status `QUEUED`, renumber the remaining
queue entries and start it (the ghost `pushLog` records the queue-start). -/
def processQueueForType (s : TMState) (τ : TaskType) : TMState :=
  match s.task_queues τ with
  | [] => s
  | next :: rest =>
    let s1 := setQueue s τ rest
    match dictGet s1.tasks next with
    | none => s1
    | some o =>
      match s1.objs.get? o with
      | none => s1
      | some t =>
        if t.status = .queued then
          pushLog (startTask (renumberFrom s1 rest 0) o) τ o
        else s1

/-- `TaskManager._handle_task_completion` (lines 127–130), as run by the
done-callback task.  `running_tasks[...].remove(...)` raises `KeyError` when
the id is absent, which kills the callback task before the drain; that path is
a state no-op.  The callback only fires once the asyncio task is done. -/
def handleTaskCompletion (s : TMState) (o : Nat) : TMState :=
  match s.objs.get? o with
  | none => s
  | some t =>
    if t.runPhase = 3 ∨ t.cancelled then
      if t.task_id ∈ s.running_tasks t.task_type then
        processQueueForType
          (setRunning s t.task_type ((s.running_tasks t.task_type).erase t.task_id))
          t.task_type
      else s
    else s

/-- One iteration of the `_process_queues` polling loop (lines 148–161) for one
task type: drain only when the running set is below the limit. -/
def pollQueues (s : TMState) (τ : TaskType) : TMState :=
  if (s.running_tasks τ).length < s.concurrency_limits τ then
    processQueueForType s τ
  else s

/-- `Task.run` begins executing (line 41–42): status `RUNNING`, `started_at`
set.  The body runs only for a created, not-yet-started, not-cancelled asyncio
task; the Python code sets the status unconditionally. -/
def beginRun (s : TMState) (o : Nat) : TMState :=
  match s.objs.get? o with
  | none => s
  | some t =>
    if t.runPhase = 1 ∧ ¬ t.cancelled then
      updateObj s o fun u => { u with status := .running, started_at := some s.time, runPhase := 2 }
    else s

/-- `Task.run` finishes (lines 43–51): on normal return store the result and
status `COMPLETED`; on a raised exception store the stringified error and
status `FAILED`; `completed_at` is set in the `finally` in both cases. -/
def finishRun (s : TMState) (o : Nat) (out : Except String Nat) : TMState :=
  match s.objs.get? o with
  | none => s
  | some t =>
    if t.runPhase = 2 ∧ ¬ t.cancelled then
      match out with
      | .ok v => updateObj s o fun u =>
          { u with result := some v, status := .completed, completed_at := some s.time, runPhase := 3 }
      | .error e => updateObj s o fun u =>
          { u with error := some e, status := .failed, completed_at := some s.time, runPhase := 3 }
    else s

/-- `TaskManager.cancel_task` (lines 205–245).  A queued task is removed from
its queue (when present), the queue renumbered, and the task failed with the
in-queue cancellation message.  A task whose asyncio task exists and is not
done is cancelled: the `CancelledError` unwinds `run()` (whose `finally` sets
`completed_at`), and the handler in `cancel_task` marks it failed with the
"Task was cancelled" error, sets `completed_at`, and removes the id from the
running set when present.  Anything else returns `False`. -/
def cancelTask (s : TMState) (id : String) : Bool × TMState :=
  match dictGet s.tasks id with
  | none => (false, s)
  | some o =>
    match s.objs.get? o with
    | none => (false, s)
    | some t =>
      if t.status = .queued then
        if id ∈ s.task_queues t.task_type then
          let s1 := setQueue s t.task_type ((s.task_queues t.task_type).erase id)
          let s2 := renumberFrom s1 (s1.task_queues t.task_type) 0
          (true, updateObj s2 o fun u =>
            { u with
              status := .failed,
              error := some "Task was cancelled while in queue",
              completed_at := some s.time })
        else (false, s)
      else
        if t.runPhase ≠ 0 ∧ t.runPhase ≠ 3 ∧ ¬ t.cancelled then
          let s1 := updateObj s o fun u =>
            { u with
              cancelled := true,
              status := .failed,
              error := some "Task was cancelled",
              completed_at := some s.time }
          let r := s1.running_tasks t.task_type
          (true, if id ∈ r then setRunning s1 t.task_type (r.erase id) else s1)
        else (false, s)

/-- The queue-clearing phase of `cancel_all_tasks` (lines 250–256) for one
type: mark every queued id failed with the shutdown message, then clear the
queue. -/
def failQueueEntry (s : TMState) (id : String) : TMState :=
  match dictGet s.tasks id with
  | some o => updateObj s o fun u =>
      { u with
        status := .failed,
        error := some "Task was cancelled during shutdown",
        completed_at := some s.time }
  | none => s

/-- `TaskManager.cancel_all_tasks` (lines 247–266): clear all queues (marking
each entry failed), then `cancel_task` every id in every running set, in the
enum order TRANSCRIPTION, REPORT, DEFAULT. -/
def cancelAllTasks (s : TMState) : TMState :=
  let mark := fun (st : TMState) (τ : TaskType) =>
    setQueue ((st.task_queues τ).foldl failQueueEntry st) τ []
  let s1 := mark (mark (mark s .transcription) .report) .default
  let ids := s1.running_tasks .transcription ++ s1.running_tasks .report ++
    s1.running_tasks .default
  ids.foldl (fun st id => (cancelTask st id).2) s1

/-- One sweep of `_cleanup_old_tasks` (lines 268–292): delete from `self.tasks`
every entry whose task has a `completed_at` older than the retention window. -/
def cleanupOldTasks (s : TMState) : TMState :=
  { s with tasks := s.tasks.filter fun p =>
      match s.objs.get? p.2 with
      | some t =>
        match t.completed_at with
        | some c => !(decide (s.retention < s.time - c))
        | none => true
      | none => true }

/-- The observable manager operations and scheduler events. -/
inductive Act where
  | addTask (id : String) (τ : TaskType)
  | beginRun (o : Nat)
  | finishRun (o : Nat) (out : Except String Nat)
  | handleCompletion (o : Nat)
  | poll (τ : TaskType)
  | cancelTask (id : String)
  | cancelAll
  | cleanup

/-- One atomic step of the cooperative scheduler; the logical clock advances
with every step. -/
def stepAct (s : TMState) : Act → TMState
  | .addTask id τ => { addTask s id τ with time := s.time + 1 }
  | .beginRun o => { beginRun s o with time := s.time + 1 }
  | .finishRun o out => { finishRun s o out with time := s.time + 1 }
  | .handleCompletion o => { handleTaskCompletion s o with time := s.time + 1 }
  | .poll τ => { pollQueues s τ with time := s.time + 1 }
  | .cancelTask id => { (cancelTask s id).2 with time := s.time + 1 }
  | .cancelAll => { cancelAllTasks s with time := s.time + 1 }
  | .cleanup => { cleanupOldTasks s with time := s.time + 1 }

/-- `TaskManager.__init__` (lines 68–81). -/
def initTM (limits : TaskType → Nat) (ret : Nat) : TMState :=
  { objs := [], tasks := [], task_queues := fun _ => [], running_tasks := fun _ => [],
    concurrency_limits := limits, retention := ret, time := 0, startLog := fun _ => [] }

/-- Task identifiers are unique in the spec's data model ("Identity: opaque
unique identifier"): generated ids are `uuid4` and distinct.  `FreshOk`
expresses that an `addTask` step uses an id no existing task object carries. -/
def FreshOk (s : TMState) : Act → Prop
  | .addTask id _ => ∀ t ∈ s.objs, t.task_id ≠ id
  | _ => True

instance (s : TMState) (a : Act) : Decidable (FreshOk s a) := by
  cases a <;> simp only [FreshOk] <;> infer_instance

/-- States reachable by arbitrary interleavings of manager operations and
scheduler events (duplicate caller-supplied ids allowed, as the Python code
allows them). -/
inductive Reach (L : TaskType → Nat) (R : Nat) : TMState → Prop where
  | init : Reach L R (initTM L R)
  | step {s} (a : Act) : Reach L R s → Reach L R (stepAct s a)

/-- Reachability under the spec's unique-task-identity discipline: every
admitted id is fresh. -/
inductive FreshReach (L : TaskType → Nat) (R : Nat) : TMState → Prop where
  | init : FreshReach L R (initTM L R)
  | step {s} (a : Act) (hf : FreshOk s a) : FreshReach L R s → FreshReach L R (stepAct s a)

/-- Number of tasks of a type currently stored by the manager in status
`PENDING` or `RUNNING`. -/
def prCount (s : TMState) (τ : TaskType) : Nat :=
  (s.tasks.filter fun p =>
    match s.objs.get? p.2 with
    | some t => decide (t.task_type = τ) &&
        (decide (t.status = .pending) || decide (t.status = .running))
    | none => false).length

/-- Object references of the entries of a type's wait queue, in queue order. -/
def queueObjs (s : TMState) (τ : TaskType) : List Nat :=
  (s.task_queues τ).filterMap (dictGet s.tasks)

end Backend

namespace Bot

/-! ## `src/bot/services/task_manager.py`

The per-user single-flight manager.  A wrapped-task closure is identified by a
ghost admission stamp (`Nat`, increasing in admission order); the module-level
dicts become functions from the user key. -/

/-- A handle stored in `user_running_tasks`: the asyncio task of a wrapped
closure, carrying its admission stamp and its `done()` flag. -/
structure BotTask where
  adm : Nat
  done : Bool
  deriving DecidableEq, Repr

/-- The module-level state (lines 8–13): `user_running_tasks`,
`user_task_queues` (deques of wrapped closures, by admission stamp),
`user_cancel_messages`.  `phantom` is a ghost set of closures that are still
executing but are no longer referenced from `user_running_tasks` (this happens
when a `finally` block or `cancel_user_task` pops a dict entry that belongs to
a different task); `logU` is the ghost trace of admission stamps started from a
user's queue by the drain in `wrapped_task`'s `finally`, in start order. -/
structure BotState where
  user_running_tasks : String → Option BotTask
  user_task_queues : String → List Nat
  user_cancel_messages : String → Option (Nat × Nat)
  phantom : String → List Nat
  nextAdm : Nat
  logU : String → List Nat

/-- `is_task_running` (lines 181–191): `user_id in user_running_tasks and not
user_running_tasks[user_id].done()`. -/
def isActive (b : BotState) (u : String) : Bool :=
  match b.user_running_tasks u with
  | some t => !t.done
  | none => false

/-- `queue_task_single_mode` (lines 88–129): if a not-done task is tracked for
the user, return `-1` without queuing or starting anything; otherwise create
and start the wrapped task and return `0`. -/
def queueTaskSingleMode (b : BotState) (u : String) : Int × BotState :=
  if isActive b u then (-1, b)
  else
    (0, { b with
      user_running_tasks := Function.update b.user_running_tasks u (some ⟨b.nextAdm, false⟩),
      nextAdm := b.nextAdm + 1 })

/-- `queue_task_with_queueing` (lines 40–86): start immediately when no
not-done task is tracked for the user (return `0`), else append the wrapped
closure to the user's deque and return the new queue length. -/
def queueTaskWithQueueing (b : BotState) (u : String) : Nat × BotState :=
  if !(isActive b u) then
    (0, { b with
      user_running_tasks := Function.update b.user_running_tasks u (some ⟨b.nextAdm, false⟩),
      nextAdm := b.nextAdm + 1 })
  else
    let q := b.user_task_queues u ++ [b.nextAdm]
    ((q.length, { b with
      user_task_queues := Function.update b.user_task_queues u q,
      nextAdm := b.nextAdm + 1 }))

/-- The `finally` block of the queue-mode `wrapped_task` (lines 66–76):
`user_running_tasks.pop(user_id, None)`, then pop the left end of the user's
deque (if non-empty) and install its asyncio task in `user_running_tasks`
(ghost-logged as a queue start); an empty deque is discarded. -/
def drainUser (b : BotState) (u : String) : BotState :=
  match b.user_task_queues u with
  | h :: rest =>
    { b with
      user_task_queues := Function.update b.user_task_queues u rest,
      user_running_tasks := Function.update b.user_running_tasks u (some ⟨h, false⟩),
      logU := Function.update b.logU u (b.logU u ++ [h]) }
  | [] => { b with user_running_tasks := Function.update b.user_running_tasks u none }

/-- The `user_running_tasks.pop(user_id, None)` performed by a phantom
closure's `finally` block: a tracked, still-active task whose dict entry is
popped keeps executing as a phantom. -/
def phantomRetrack (b1 : BotState) (u : String) (r : Option BotTask) : BotState :=
  match r with
  | some t =>
    if !t.done then
      { b1 with phantom := Function.update b1.phantom u (b1.phantom u ++ [t.adm]) }
    else b1
  | none => b1

/-- A phantom closure's `finally` block runs: it pops whatever entry
`user_running_tasks` currently holds for the user (turning a still-active
tracked task into a phantom) and then drains the user's queue. -/
def phantomFinish (b : BotState) (u : String) (a : Nat) : BotState :=
  if a ∈ b.phantom u then
    drainUser
      (phantomRetrack
        { b with phantom := Function.update b.phantom u ((b.phantom u).erase a) }
        u (b.user_running_tasks u)) u
  else b

/-- `cancel_user_task` (lines 131–156): when a not-done task is tracked,
cancel it and await it — during the await the task's `finally` runs
(`drainUser`: pop itself, start the next queued closure) — and then
`user_running_tasks.pop(user_id, None)` removes whichever entry is now
tracked, so a freshly started next task keeps running untracked (phantom). -/
def cancelUserTask (b : BotState) (u : String) : Bool × BotState :=
  if isActive b u then
    let b1 := drainUser b u
    let b2 : BotState :=
      match b1.user_running_tasks u with
      | some t =>
        { b1 with
          phantom := Function.update b1.phantom u (b1.phantom u ++ [t.adm]),
          user_running_tasks := Function.update b1.user_running_tasks u none }
      | none => b1
    (true, b2)
  else (false, b)

/-- `set_cancel_message` (lines 158–167). -/
def setCancelMessage (b : BotState) (u : String) (messageId taskMessageId : Nat) : BotState :=
  { b with user_cancel_messages :=
      Function.update b.user_cancel_messages u (some (messageId, taskMessageId)) }

/-- Observable operations and scheduler events of the bot task manager. -/
inductive BAct where
  | queueTask (u : String)
  | singleTask (u : String)
  | finishTask (u : String)
  | finishSingle (u : String)
  | phantomFinish (u : String) (a : Nat)
  | cancelUser (u : String)
  | setCancelMsg (u : String) (m tm : Nat)

/-- One atomic cooperative step.  `finishTask` is the tracked queue-mode task's
body ending (its `finally` pops it and drains); `finishSingle` is the
single-mode `finally` (lines 123–125), which only pops. -/
def bstep (b : BotState) : BAct → BotState
  | .queueTask u => (queueTaskWithQueueing b u).2
  | .singleTask u => (queueTaskSingleMode b u).2
  | .finishTask u => if isActive b u then drainUser b u else b
  | .finishSingle u =>
    if isActive b u then
      { b with user_running_tasks := Function.update b.user_running_tasks u none }
    else b
  | .phantomFinish u a => phantomFinish b u a
  | .cancelUser u => (cancelUserTask b u).2
  | .setCancelMsg u m tm => setCancelMessage b u m tm

/-- The module's initial state: empty dicts. -/
def initBot : BotState :=
  { user_running_tasks := fun _ => none, user_task_queues := fun _ => [],
    user_cancel_messages := fun _ => none, phantom := fun _ => [],
    nextAdm := 0, logU := fun _ => [] }

/-- Reachable states of the bot task manager. -/
inductive BotReach : BotState → Prop where
  | init : BotReach initBot
  | step {b} (a : BAct) : BotReach b → BotReach (bstep b a)

/-- Retracking a phantom touches only the phantom ghost set. -/
theorem phantomRetrack_frame (b1 : BotState) (u : String) (r : Option BotTask) :
    (phantomRetrack b1 u r).user_task_queues = b1.user_task_queues ∧
    (phantomRetrack b1 u r).logU = b1.logU ∧
    (phantomRetrack b1 u r).nextAdm = b1.nextAdm := by
  cases r with
  | none => exact ⟨rfl, rfl, rfl⟩
  | some t =>
    simp only [phantomRetrack]
    by_cases hb : (!t.done) = true
    · rw [if_pos hb]
      exact ⟨rfl, rfl, rfl⟩
    · rw [if_neg hb]
      exact ⟨rfl, rfl, rfl⟩
/-- FIFO invariant of the per-user single-flight manager: each user's deque
holds admission stamps in strictly increasing (admission) order, the ghost
start log of queue-drained closures is strictly increasing, every logged start
precedes every still-queued closure, and all stamps are below the admission
counter. -/
structure BotInv (b : BotState) : Prop where
  qSorted : ∀ u, (b.user_task_queues u).Pairwise (· < ·)
  logSorted : ∀ u, (b.logU u).Pairwise (· < ·)
  logLtQueue : ∀ u, ∀ l ∈ b.logU u, ∀ q ∈ b.user_task_queues u, l < q
  qLtNext : ∀ u, ∀ q ∈ b.user_task_queues u, q < b.nextAdm
  logLtNext : ∀ u, ∀ l ∈ b.logU u, l < b.nextAdm

/-- The FIFO invariant only reads the queues, the start log and the admission
counter; the counter may grow. -/
theorem botInv_of_eq {b b' : BotState} (h : BotInv b)
    (hq : b'.user_task_queues = b.user_task_queues) (hl : b'.logU = b.logU)
    (hn : b.nextAdm ≤ b'.nextAdm) : BotInv b' := by
  refine ⟨?_, ?_, ?_, ?_, ?_⟩
  · intro u
    rw [hq]
    exact h.qSorted u
  · intro u
    rw [hl]
    exact h.logSorted u
  · intro u l hlm q hqm
    rw [hl] at hlm
    rw [hq] at hqm
    exact h.logLtQueue u l hlm q hqm
  · intro u q hqm
    rw [hq] at hqm
    exact Nat.lt_of_lt_of_le (h.qLtNext u q hqm) hn
  · intro u l hlm
    rw [hl] at hlm
    exact Nat.lt_of_lt_of_le (h.logLtNext u l hlm) hn

/-- Draining one user's deque preserves the FIFO invariant: the popped head is
larger than everything already logged and smaller than everything left. -/
theorem botInv_drain {b : BotState} (h : BotInv b) (u : String) :
    BotInv (drainUser b u) := by
  cases hq0 : b.user_task_queues u with
  | nil =>
    simp only [drainUser, hq0]
    exact botInv_of_eq h rfl rfl (Nat.le_refl _)
  | cons hd rest =>
    have hhd : hd ∈ b.user_task_queues u := by
      rw [hq0]
      exact List.mem_cons_self _ _
    have hrest : ∀ q ∈ rest, q ∈ b.user_task_queues u := by
      intro q hm
      rw [hq0]
      exact List.mem_cons_of_mem _ hm
    have hsorted := h.qSorted u
    rw [hq0] at hsorted
    have hhdlt : ∀ q ∈ rest, hd < q := fun q hm => List.rel_of_pairwise_cons hsorted hm
    have hQ2 : ∀ u', (drainUser b u).user_task_queues u' =
        if u' = u then rest else b.user_task_queues u' := by
      intro u'
      simp only [drainUser, hq0]
      by_cases hu : u' = u
      · rw [if_pos hu, hu, Function.update_same]
      · rw [if_neg hu, Function.update_noteq hu]
    have hL2 : ∀ u', (drainUser b u).logU u' =
        if u' = u then b.logU u ++ [hd] else b.logU u' := by
      intro u'
      simp only [drainUser, hq0]
      by_cases hu : u' = u
      · rw [if_pos hu, hu, Function.update_same]
      · rw [if_neg hu, Function.update_noteq hu]
    have hN : (drainUser b u).nextAdm = b.nextAdm := by
      simp only [drainUser, hq0]
    refine ⟨?_, ?_, ?_, ?_, ?_⟩
    · intro u'
      rw [hQ2]
      by_cases hu : u' = u
      · rw [if_pos hu]
        exact (List.pairwise_cons.mp hsorted).2
      · rw [if_neg hu]
        exact h.qSorted u'
    · intro u'
      rw [hL2]
      by_cases hu : u' = u
      · rw [if_pos hu]
        rw [List.pairwise_append]
        refine ⟨h.logSorted u, List.pairwise_singleton _ _, ?_⟩
        intro l hlm x hx
        rw [List.eq_of_mem_singleton hx]
        exact h.logLtQueue u l hlm hd hhd
      · rw [if_neg hu]
        exact h.logSorted u'
    · intro u' l hlm q hqm
      rw [hL2] at hlm
      rw [hQ2] at hqm
      by_cases hu : u' = u
      · rw [if_pos hu] at hlm hqm
        rcases List.mem_append.mp hlm with hl1 | hl1
        · exact h.logLtQueue u l hl1 q (hrest q hqm)
        · rw [List.eq_of_mem_singleton hl1]
          exact hhdlt q hqm
      · rw [if_neg hu] at hlm hqm
        exact h.logLtQueue u' l hlm q hqm
    · intro u' q hqm
      rw [hQ2] at hqm
      rw [hN]
      by_cases hu : u' = u
      · rw [if_pos hu] at hqm
        exact h.qLtNext u q (hrest q hqm)
      · rw [if_neg hu] at hqm
        exact h.qLtNext u' q hqm
    · intro u' l hlm
      rw [hL2] at hlm
      rw [hN]
      by_cases hu : u' = u
      · rw [if_pos hu] at hlm
        rcases List.mem_append.mp hlm with hl1 | hl1
        · exact h.logLtNext u l hl1
        · rw [List.eq_of_mem_singleton hl1]
          exact h.qLtNext u hd hhd
      · rw [if_neg hu] at hlm
        exact h.logLtNext u' l hlm

/-- Every bot-manager step preserves the FIFO invariant. -/
theorem botInv_step {b : BotState} (h : BotInv b) (a : BAct) : BotInv (bstep b a) := by
  cases a with
  | queueTask u =>
    show BotInv (queueTaskWithQueueing b u).2
    by_cases hact : isActive b u = true
    · have hneg : (!(isActive b u)) = false := by
        rw [hact]
        rfl
      have hQ2 : ∀ u', ((queueTaskWithQueueing b u).2).user_task_queues u' =
          if u' = u then b.user_task_queues u ++ [b.nextAdm] else b.user_task_queues u' := by
        intro u'
        simp only [queueTaskWithQueueing, hneg, Bool.false_eq_true, if_false]
        by_cases hu : u' = u
        · rw [if_pos hu, hu, Function.update_same]
        · rw [if_neg hu, Function.update_noteq hu]
      have hL : ((queueTaskWithQueueing b u).2).logU = b.logU := by
        simp only [queueTaskWithQueueing, hneg, Bool.false_eq_true, if_false]
      have hN : ((queueTaskWithQueueing b u).2).nextAdm = b.nextAdm + 1 := by
        simp only [queueTaskWithQueueing, hneg, Bool.false_eq_true, if_false]
      refine ⟨?_, ?_, ?_, ?_, ?_⟩
      · intro u'
        rw [hQ2]
        by_cases hu : u' = u
        · rw [if_pos hu]
          rw [List.pairwise_append]
          refine ⟨h.qSorted u, List.pairwise_singleton _ _, ?_⟩
          intro q hqm x hx
          rw [List.eq_of_mem_singleton hx]
          exact h.qLtNext u q hqm
        · rw [if_neg hu]
          exact h.qSorted u'
      · intro u'
        rw [hL]
        exact h.logSorted u'
      · intro u' l hlm q hqm
        rw [hL] at hlm
        rw [hQ2] at hqm
        by_cases hu : u' = u
        · rw [if_pos hu] at hqm
          rcases List.mem_append.mp hqm with hq1 | hq1
          · rw [hu] at hlm
            exact h.logLtQueue u l hlm q hq1
          · rw [List.eq_of_mem_singleton hq1]
            exact h.logLtNext u' l hlm
        · rw [if_neg hu] at hqm
          exact h.logLtQueue u' l hlm q hqm
      · intro u' q hqm
        rw [hQ2] at hqm
        rw [hN]
        by_cases hu : u' = u
        · rw [if_pos hu] at hqm
          rcases List.mem_append.mp hqm with hq1 | hq1
          · exact Nat.lt_succ_of_lt (h.qLtNext u q hq1)
          · rw [List.eq_of_mem_singleton hq1]
            exact Nat.lt_succ_self _
        · rw [if_neg hu] at hqm
          exact Nat.lt_succ_of_lt (h.qLtNext u' q hqm)
      · intro u' l hlm
        rw [hL] at hlm
        rw [hN]
        exact Nat.lt_succ_of_lt (h.logLtNext u' l hlm)
    · have hneg : (!(isActive b u)) = true := by
        cases hb0 : isActive b u
        · rfl
        · exact absurd hb0 hact
      simp only [queueTaskWithQueueing, hneg, if_true]
      exact botInv_of_eq h rfl rfl (Nat.le_succ _)
  | singleTask u =>
    show BotInv (queueTaskSingleMode b u).2
    by_cases hact : isActive b u = true
    · simp only [queueTaskSingleMode, hact, if_true]
      exact h
    · have hneg : isActive b u = false := by
        cases hb0 : isActive b u
        · rfl
        · exact absurd hb0 hact
      simp only [queueTaskSingleMode, hneg, Bool.false_eq_true, if_false]
      exact botInv_of_eq h rfl rfl (Nat.le_succ _)
  | finishTask u =>
    show BotInv (if isActive b u then drainUser b u else b)
    by_cases hact : isActive b u = true
    · rw [if_pos hact]
      exact botInv_drain h u
    · rw [if_neg hact]
      exact h
  | finishSingle u =>
    show BotInv (if isActive b u then
      { b with user_running_tasks := Function.update b.user_running_tasks u none } else b)
    by_cases hact : isActive b u = true
    · rw [if_pos hact]
      exact botInv_of_eq h rfl rfl (Nat.le_refl _)
    · rw [if_neg hact]
      exact h
  | phantomFinish u a =>
    show BotInv (phantomFinish b u a)
    by_cases hmem : a ∈ b.phantom u
    · rw [phantomFinish, if_pos hmem]
      refine botInv_drain (botInv_of_eq h ?_ ?_ ?_) u
      · exact (phantomRetrack_frame _ u _).1
      · exact (phantomRetrack_frame _ u _).2.1
      · rw [(phantomRetrack_frame _ u _).2.2]
    · rw [phantomFinish, if_neg hmem]
      exact h
  | cancelUser u =>
    show BotInv (cancelUserTask b u).2
    by_cases hact : isActive b u = true
    · simp only [cancelUserTask, hact, if_true]
      cases hr : (drainUser b u).user_running_tasks u with
      | none =>
        simp only [hr]
        exact botInv_drain h u
      | some t =>
        simp only [hr]
        exact botInv_of_eq (botInv_drain h u) rfl rfl (Nat.le_refl _)
    · simp only [cancelUserTask, hact, Bool.false_eq_true, if_false]
      exact h
  | setCancelMsg u m tm =>
    show BotInv (setCancelMessage b u m tm)
    exact botInv_of_eq h rfl rfl (Nat.le_refl _)

/-- Every reachable state of the bot manager satisfies the FIFO invariant. -/
theorem botReach_botInv {b : BotState} (h : BotReach b) : BotInv b := by
  induction h with
  | init =>
    refine ⟨?_, ?_, ?_, ?_, ?_⟩
    · intro u
      exact List.Pairwise.nil
    · intro u
      exact List.Pairwise.nil
    · intro u l hl
      exact absurd hl (List.not_mem_nil l)
    · intro u q hq
      exact absurd hq (List.not_mem_nil q)
    · intro u l hl
      exact absurd hl (List.not_mem_nil l)
  | step a _ ih => exact botInv_step ih a

end Bot

namespace Webhook

/-! ## The webhook rendezvous

`assemblyai_webhook` in `src/backend/api/endpoints.py` (lines 315–588) and the
delivery endpoint `send_message_to_user` in `src/bot/api/endpoints.py`
(lines 33–112).  The handler is a function of the request, the configuration
and the persisted record store; outbound HTTP calls (provider result fetch,
sends to the bot, agent processing) are collected as effect traces. -/

/-- Python truthiness of an optional string (`None` and `""` are falsy). -/
def pyFalsyOpt : Option String → Bool
  | none => true
  | some s => s = ""

/-- Value of a digit run, `none` if empty or any non-digit. -/
def digitsVal (cs : List Char) : Option Nat :=
  if cs = [] then none
  else if cs.all Char.isDigit then
    some (cs.foldl (fun acc c => acc * 10 + (c.toNat - '0'.toNat)) 0)
  else none

/-- Python `int(s)` on a decimal string: optional surrounding whitespace,
optional sign, a non-empty digit run; anything else raises `ValueError`. -/
def pyParseInt (s : String) : Option Int :=
  match ((s.data.dropWhile Char.isWhitespace).reverse.dropWhile Char.isWhitespace).reverse with
  | [] => none
  | c :: cs =>
    if c = '-' then (digitsVal cs).map fun n => -(n : Int)
    else if c = '+' then (digitsVal cs).map fun n => (n : Int)
    else (digitsVal (c :: cs)).map fun n => (n : Int)

/-- One row of the `stt_files` table, restricted to the fields the webhook
path reads or writes. -/
structure STTRecord where
  status : String
  transcript : Option String
  error : Option String
  processed_at : Option Nat
  delivered_to_user : Bool
  transcript_docx_path : Option String
  model_used : Option String
  detected_language : Option String
  deriving DecidableEq, Repr

/-- The record store, by record id (`stt_files.id`). -/
def Db := String → STTRecord

/-- An `update_data` dict passed to `supabase.update_stt_record`: present keys
only. -/
structure UpdateData where
  status : Option String := none
  transcript : Option String := none
  error : Option String := none
  processed_at : Option Nat := none
  delivered_to_user : Option Bool := none
  transcription_docx : Option String := none
  model_used : Option String := none
  detected_language : Option String := none
  deriving DecidableEq, Repr

/-- `supabase_client.update_stt_record`: merge the present keys into the row;
a `transcription_docx` payload is uploaded to storage and its path stored in
`transcript_docx_path`. -/
def applyUpdate (r : STTRecord) (u : UpdateData) : STTRecord :=
  { status := u.status.getD r.status,
    transcript := match u.transcript with | some t => some t | none => r.transcript,
    error := match u.error with | some e => some e | none => r.error,
    processed_at := match u.processed_at with | some p => some p | none => r.processed_at,
    delivered_to_user := u.delivered_to_user.getD r.delivered_to_user,
    transcript_docx_path :=
      match u.transcription_docx with | some d => some d | none => r.transcript_docx_path,
    model_used := match u.model_used with | some m => some m | none => r.model_used,
    detected_language :=
      match u.detected_language with | some l => some l | none => r.detected_language }

def dbUpdate (db : Db) (id : String) (u : UpdateData) : Db :=
  fun id' => if id' = id then applyUpdate (db id) u else db id'

/-- The `metadata` object of a delivery payload. -/
structure MsgMetadata where
  stt_record_id : Option String := none
  stt_transcript_id : Option String := none
  deriving DecidableEq, Repr

/-- A JSON payload POSTed to the bot's `/send_message_to_user`. -/
structure SendPayload where
  chat_id : Int
  db_thread_id : Option String := none
  message_id : Option String := none
  temp_msg_id : Option String := none
  message : String
  metadata : Option MsgMetadata := none
  file_url : Option String := none
  file_type : Option String := none
  file_name : Option String := none
  deriving DecidableEq, Repr

/-- The result payload `get_transcript_result` produces for a transcript id
(provider fetch plus best-effort enrichment, abstracted as an oracle). -/
structure ProviderResult where
  text : String
  summary : Option String := none
  model_used : Option String := none
  detected_language : Option String := none
  transcription_docx : Option String := none

/-- Environment and collaborator configuration of the webhook handler. -/
structure Cfg where
  our_secret_token : Option String
  tagent_local_url : Option String
  getTranscript : String → ProviderResult
  sendOk : Bool
  now : Nat

/-- The inbound webhook request: shared-secret header, correlation query
parameters, JSON body (`none` when `request.json()` raises). -/
structure WRequest where
  xWebhookSecret : Option String := none
  t_id : Option String := none
  chat_id : Option String := none
  db_thread_id : Option String := none
  message_id : Option String := none
  temp_msg_id : Option String := none
  bodyTranscriptId : Option String := none
  bodyStatus : Option String := none
  bodyOk : Bool := true

/-- The handler's HTTP response. -/
inductive WResp where
  | okAlreadyDelivered
  | okProcessed
  | noneResp
  | unauthorized
  | badRequest (msg : String)
  | serverError
  deriving DecidableEq, Repr

/-- Observable outcome of one webhook invocation: the response, the record
store after the handler's own updates, and the outbound calls in order. -/
structure WOut where
  resp : WResp
  db : Db
  deliveryChecks : List String
  fetches : List String
  sends : List SendPayload
  agentMsgs : List String

/-- The authentication rejection condition (lines 325–333): a secret is
configured (truthy env var) and the header is absent or differs. -/
def authRejects (cfg : Cfg) (req : WRequest) : Bool :=
  match cfg.our_secret_token with
  | none => false
  | some sec =>
    if sec = "" then false
    else pyFalsyOpt req.xWebhookSecret || decide (req.xWebhookSecret ≠ some sec)

/-- Truthiness of the outbound configuration (lines 459, 556):
`if not TAGENT_LOCAL_URL or not OUR_SECRET_TOKEN`. -/
def outboundConfigured (cfg : Cfg) : Bool :=
  !(pyFalsyOpt cfg.tagent_local_url) && !(pyFalsyOpt cfg.our_secret_token)

/-- `text if len(text) <= 1000 else text[:1000] + "..."` (line 454). -/
def truncate1000 (text : String) : String :=
  if text.length ≤ 1000 then text else (text.take 1000) ++ "..."

/-- The `status == "completed"` branch (lines 395–532): fetch the full result,
persist it on the record (no `delivered_to_user` key), then — when the
outbound env is configured — send the formatted message (with the
`stt_record_id` correlation metadata and optional document attachment) to the
user, and on a successful send forward the transcript to the agent. -/
def completedBranch (cfg : Cfg) (req : WRequest) (db : Db)
    (t_id transcript_id : String) (chatId : Int) : WOut :=
  let result := cfg.getTranscript transcript_id
  let transcript_text := result.text
  let upd : UpdateData :=
    { status := some "completed", transcript := some transcript_text,
      model_used := result.model_used, detected_language := result.detected_language,
      processed_at := some cfg.now, transcription_docx := result.transcription_docx }
  let db1 := dbUpdate db t_id upd
  let docx_path := (db1 t_id).transcript_docx_path
  if !(outboundConfigured cfg) then
    { resp := .noneResp, db := db1, deliveryChecks := [t_id],
      fetches := [transcript_id], sends := [], agentMsgs := [] }
  else
    let text := match result.summary with
      | some sm => if sm = "" then transcript_text else sm
      | none => transcript_text
    let truncated := truncate1000 text
    let user_message :=
      match result.summary with
      | some sm =>
        if sm = "" then "_" ++ truncated ++ "_"
        else "**Summary**" ++ "\n" ++ "_" ++ truncated ++ "_"
      | none => "_" ++ truncated ++ "_"
    let basePayload : SendPayload :=
      { chat_id := chatId, db_thread_id := req.db_thread_id,
        message_id := req.message_id, temp_msg_id := req.temp_msg_id,
        message := user_message,
        metadata := some { stt_record_id := some t_id, stt_transcript_id := some transcript_id } }
    let payload := match docx_path with
      | some p =>
        { basePayload with
          file_url := some p, file_type := some "document", file_name := some "stt.docx" }
      | none => basePayload
    if cfg.sendOk then
      { resp := .okProcessed, db := db1, deliveryChecks := [t_id],
        fetches := [transcript_id], sends := [payload], agentMsgs := [transcript_text] }
    else
      { resp := .okProcessed, db := db1, deliveryChecks := [t_id],
        fetches := [transcript_id], sends := [payload], agentMsgs := [] }

/-- The `status == "error"` branch (lines 534–580): persist the error status
(no `delivered_to_user` key) and — when the outbound env is configured — send
the plain failure notice, whose payload has only `chat_id` and `message` and
in particular no metadata. -/
def errorBranch (cfg : Cfg) (db : Db) (t_id : String) (chatId : Int) : WOut :=
  let upd : UpdateData :=
    { status := some "error", error := some "Transcription failed at AssemblyAI",
      processed_at := some cfg.now }
  let db1 := dbUpdate db t_id upd
  if !(outboundConfigured cfg) then
    { resp := .okProcessed, db := db1, deliveryChecks := [t_id],
      fetches := [], sends := [], agentMsgs := [] }
  else
    let payload : SendPayload :=
      { chat_id := chatId,
        message := "Sorry, there was an error processing your audio transcription." }
    { resp := .okProcessed, db := db1, deliveryChecks := [t_id],
      fetches := [], sends := [payload], agentMsgs := [] }

/-- `assemblyai_webhook` (lines 315–588): authenticate, validate the
correlation parameters, parse `chat_id`, consult the record's
`delivered_to_user` flag (short-circuiting with a success acknowledgement when
already true), parse the JSON body, and branch on the reported status.  An
unparseable body propagates to the outer handler, which answers 500. -/
def assemblyaiWebhook (cfg : Cfg) (req : WRequest) (db : Db) : WOut :=
  if authRejects cfg req then
    { resp := .unauthorized, db := db, deliveryChecks := [], fetches := [],
      sends := [], agentMsgs := [] }
  else if pyFalsyOpt req.t_id then
    { resp := .badRequest "Missing t_id parameter", db := db, deliveryChecks := [],
      fetches := [], sends := [], agentMsgs := [] }
  else if pyFalsyOpt req.chat_id then
    { resp := .badRequest "Missing chat_id parameter", db := db, deliveryChecks := [],
      fetches := [], sends := [], agentMsgs := [] }
  else if pyFalsyOpt req.db_thread_id then
    { resp := .badRequest "Missing db_thread_id parameter", db := db, deliveryChecks := [],
      fetches := [], sends := [], agentMsgs := [] }
  else
    let t_id := req.t_id.getD ""
    match pyParseInt (req.chat_id.getD "") with
    | none =>
      { resp := .badRequest "Invalid chat_id format", db := db, deliveryChecks := [],
        fetches := [], sends := [], agentMsgs := [] }
    | some chatId =>
      if (db t_id).delivered_to_user then
        { resp := .okAlreadyDelivered, db := db, deliveryChecks := [t_id],
          fetches := [], sends := [], agentMsgs := [] }
      else if !req.bodyOk then
        { resp := .serverError, db := db, deliveryChecks := [t_id],
          fetches := [], sends := [], agentMsgs := [] }
      else if pyFalsyOpt req.bodyTranscriptId || pyFalsyOpt req.bodyStatus then
        { resp := .badRequest "Missing required fields", db := db,
          deliveryChecks := [t_id], fetches := [], sends := [], agentMsgs := [] }
      else
        let transcript_id := req.bodyTranscriptId.getD ""
        if req.bodyStatus = some "completed" then
          completedBranch cfg req db t_id transcript_id chatId
        else if req.bodyStatus = some "error" then
          errorBranch cfg db t_id chatId
        else
          { resp := .okProcessed, db := db, deliveryChecks := [t_id],
            fetches := [], sends := [], agentMsgs := [] }

/-- `send_message_to_user` in `src/bot/api/endpoints.py` (lines 33–112),
restricted to its validation and persistence effects: a falsy `chat_id` or
`message` raises `ValidationError` (caught: failure result, no update); the
chat-transport calls are abstracted as `tgOk`; after a successful send, when
the payload metadata carries an `stt_record_id`, the record's
`delivered_to_user` is set to true (lines 98–105), and only then. -/
def sendMessageToUser (tgOk : Bool) (data : SendPayload) (db : Db) : Bool × Db :=
  if data.chat_id = 0 then (false, db)
  else if data.message = "" then (false, db)
  else if !tgOk then (false, db)
  else
    match data.metadata with
    | some m =>
      match m.stt_record_id with
      | some rid => (true, dbUpdate db rid { delivered_to_user := some true })
      | none => (true, db)
    | none => (true, db)

/-- Processing of a webhook's outbound sends by the bot service, in order. -/
def deliverSends (tgOk : Bool) (sends : List SendPayload) (db : Db) : Db :=
  sends.foldl (fun d p => (sendMessageToUser tgOk p d).2) db

end Webhook

/-! ## Helper lemmas about the Python-container models -/

theorem dictGet_eq_some_mem : ∀ {l : List (String × Nat)} {k : String} {v : Nat},
    dictGet l k = some v → (k, v) ∈ l := by
  intro l
  induction l with
  | nil => intro k v h; exact absurd h (by simp [dictGet])
  | cons p rest ih =>
    obtain ⟨k1, v1⟩ := p
    intro k v h
    rw [dictGet] at h
    by_cases hk : k1 = k
    · rw [if_pos hk] at h
      injection h with h2
      subst hk; subst h2
      exact List.mem_cons_self _ _
    · rw [if_neg hk] at h
      exact List.mem_cons_of_mem _ (ih h)

theorem mem_keys_of_dictGet {l : List (String × Nat)} {k : String} {v : Nat}
    (h : dictGet l k = some v) : k ∈ l.map Prod.fst :=
  List.mem_map.mpr ⟨(k, v), dictGet_eq_some_mem h, rfl⟩

theorem dictGet_eq_none_of_not_mem : ∀ {l : List (String × Nat)} {k : String},
    k ∉ l.map Prod.fst → dictGet l k = none := by
  intro l
  induction l with
  | nil => intro k _; rfl
  | cons p rest ih =>
    obtain ⟨k1, v1⟩ := p
    intro k hk
    have h1 : k1 ≠ k := by
      intro he
      exact hk (by rw [← he]; simp)
    rw [dictGet, if_neg h1]
    exact ih fun hm => hk (by simp [hm])

theorem dictGet_of_mem_keysNodup : ∀ {l : List (String × Nat)},
    (l.map Prod.fst).Nodup → ∀ {k v}, (k, v) ∈ l → dictGet l k = some v := by
  intro l
  induction l with
  | nil => intro _ k v h; exact absurd h (by simp)
  | cons p rest ih =>
    obtain ⟨k1, v1⟩ := p
    intro hnd k v h
    rw [List.map_cons] at hnd
    have hnd1 := List.nodup_cons.mp hnd
    rw [dictGet]
    rcases List.mem_cons.mp h with h1 | h1
    · injection h1 with e1 e2
      subst e1; subst e2
      rw [if_pos rfl]
    · have hne : k1 ≠ k := by
        intro he
        subst he
        exact hnd1.1 (List.mem_map.mpr ⟨(k1, v), h1, rfl⟩)
      rw [if_neg hne]
      exact ih hnd1.2 h1

theorem dictSet_fresh : ∀ {l : List (String × Nat)} {k : String} (v : Nat),
    k ∉ l.map Prod.fst → dictSet l k v = l ++ [(k, v)] := by
  intro l
  induction l with
  | nil => intro k v _; rfl
  | cons p rest ih =>
    obtain ⟨k1, v1⟩ := p
    intro k v h
    have h1 : k1 ≠ k := by
      intro he
      exact h (by rw [← he]; simp)
    rw [dictSet, if_neg h1, List.cons_append]
    rw [ih v fun hm => h (by simp [hm])]

theorem dictGet_append_right : ∀ {l : List (String × Nat)} {k : String},
    k ∉ l.map Prod.fst → ∀ l', dictGet (l ++ l') k = dictGet l' k := by
  intro l
  induction l with
  | nil => intro k _ l'; rfl
  | cons p rest ih =>
    obtain ⟨k1, v1⟩ := p
    intro k h l'
    have h1 : k1 ≠ k := by
      intro he
      exact h (by rw [← he]; simp)
    rw [List.cons_append, dictGet, if_neg h1]
    exact ih (fun hm => h (by simp [hm])) l'

theorem dictGet_append_left : ∀ {l : List (String × Nat)} {k : String} {v : Nat},
    dictGet l k = some v → ∀ l', dictGet (l ++ l') k = some v := by
  intro l
  induction l with
  | nil => intro k v h; exact absurd h (by simp [dictGet])
  | cons p rest ih =>
    obtain ⟨k1, v1⟩ := p
    intro k v h l'
    rw [dictGet] at h
    rw [List.cons_append, dictGet]
    by_cases hk : k1 = k
    · rwa [if_pos hk] at h ⊢
    · rw [if_neg hk] at h ⊢
      exact ih h l'

theorem dictGet_filter : ∀ {l : List (String × Nat)} {p : String × Nat → Bool}
    {k : String} {v : Nat}, dictGet l k = some v → p (k, v) = true →
    dictGet (l.filter p) k = some v := by
  intro l
  induction l with
  | nil => intro p k v h _; exact absurd h (by simp [dictGet])
  | cons q rest ih =>
    obtain ⟨k1, v1⟩ := q
    intro p k v h hp
    rw [dictGet] at h
    by_cases hk : k1 = k
    · rw [if_pos hk] at h
      injection h with h2
      subst hk; subst h2
      rw [List.filter_cons, if_pos hp]
      rw [dictGet, if_pos rfl]
    · rw [if_neg hk] at h
      rw [List.filter_cons]
      by_cases hq : p (k1, v1) = true
      · rw [if_pos hq, dictGet, if_neg hk]
        exact ih h hp
      · rw [if_neg hq]
        exact ih h hp

theorem modifyNth_length (f : α → α) : ∀ (l : List α) (n : Nat),
    (modifyNth f l n).length = l.length := by
  intro l
  induction l with
  | nil => intro n; rfl
  | cons a rest ih =>
    intro n
    cases n with
    | zero => rfl
    | succ m => simp [modifyNth, ih]

theorem get?_modifyNth_self (f : α → α) : ∀ {l : List α} {n : Nat} {t : α},
    l.get? n = some t → (modifyNth f l n).get? n = some (f t) := by
  intro l
  induction l with
  | nil => intro n t h; exact absurd h (by simp)
  | cons a rest ih =>
    intro n t h
    cases n with
    | zero =>
      rw [List.get?_cons_zero] at h
      injection h with h2
      subst h2
      rfl
    | succ m =>
      rw [List.get?_cons_succ] at h
      exact ih h

theorem get?_modifyNth_ne (f : α → α) : ∀ (l : List α) {n m : Nat}, n ≠ m →
    (modifyNth f l n).get? m = l.get? m := by
  intro l
  induction l with
  | nil => intro n m _; rfl
  | cons a rest ih =>
    intro n m hnm
    cases n with
    | zero =>
      cases m with
      | zero => exact absurd rfl hnm
      | succ k => rfl
    | succ j =>
      cases m with
      | zero => rfl
      | succ k => exact ih fun he => hnm (by rw [he])

theorem mem_setAdd_iff {l : List String} {x y : String} :
    y ∈ setAdd l x ↔ y ∈ l ∨ y = x := by
  unfold setAdd
  by_cases h : x ∈ l
  · rw [if_pos h]
    constructor
    · exact Or.inl
    · rintro (hy | hy)
      · exact hy
      · rw [hy]; exact h
  · rw [if_neg h]
    simp [List.mem_append]

theorem setAdd_nodup {l : List String} {x : String} (h : l.Nodup) :
    (setAdd l x).Nodup := by
  unfold setAdd
  by_cases hx : x ∈ l
  · rwa [if_pos hx]
  · rw [if_neg hx]
    refine List.Nodup.append h (by simp) ?_
    intro a ha hb
    rw [List.mem_singleton] at hb
    exact hx (hb ▸ ha)

theorem setAdd_length_le (l : List String) (x : String) :
    (setAdd l x).length ≤ l.length + 1 := by
  unfold setAdd
  by_cases hx : x ∈ l <;> simp [hx]

theorem dictGet_dictSet_self : ∀ (l : List (String × Nat)) (k : String) (v : Nat),
    dictGet (dictSet l k v) k = some v := by
  intro l
  induction l with
  | nil => intro k v; simp [dictSet, dictGet]
  | cons p rest ih =>
    obtain ⟨k1, v1⟩ := p
    intro k v
    rw [dictSet]
    by_cases hk : k1 = k
    · rw [if_pos hk, dictGet, if_pos rfl]
    · rw [if_neg hk, dictGet, if_neg hk]
      exact ih k v

theorem dictGet_dictSet_ne : ∀ (l : List (String × Nat)) (k : String) (v : Nat)
    (k' : String), k' ≠ k → dictGet (dictSet l k v) k' = dictGet l k' := by
  intro l
  induction l with
  | nil =>
    intro k v k' hne
    show dictGet [(k, v)] k' = none
    rw [dictGet, if_neg (Ne.symm hne)]
    rfl
  | cons p rest ih =>
    obtain ⟨k1, v1⟩ := p
    intro k v k' hne
    rw [dictSet]
    by_cases hk : k1 = k
    · rw [if_pos hk]
      have h2 : k1 ≠ k' := fun he => hne (he ▸ hk)
      rw [dictGet, dictGet, if_neg (Ne.symm hne), if_neg h2]
    · rw [if_neg hk, dictGet, dictGet]
      by_cases hk' : k1 = k'
      · rw [if_pos hk', if_pos hk']
      · rw [if_neg hk', if_neg hk']
        exact ih k v k' hne

theorem filterMap_congr' {f g : α → Option β} : ∀ {l : List α},
    (∀ a ∈ l, f a = g a) → l.filterMap f = l.filterMap g := by
  intro l
  induction l with
  | nil => intro _; rfl
  | cons x rest ih =>
    intro h
    rw [List.filterMap_cons, List.filterMap_cons, h x (List.mem_cons_self _ _),
      ih fun a ha => h a (List.mem_cons_of_mem _ ha)]

theorem get?_concat_cases {l : List α} {a : α} {i : Nat} {x : α}
    (h : (l ++ [a]).get? i = some x) :
    (i < l.length ∧ l.get? i = some x) ∨ (i = l.length ∧ x = a) := by
  by_cases hi : i < l.length
  · rw [List.get?_append hi] at h
    exact Or.inl ⟨hi, h⟩
  · have hlen : i < l.length + 1 := by
      by_contra hcon
      rw [List.get?_eq_none.mpr (by simp; omega)] at h
      exact absurd h (by simp)
    have hieq : i = l.length := by omega
    subst hieq
    rw [List.get?_concat_length] at h
    injection h with h
    exact Or.inr ⟨rfl, h.symm⟩

theorem modifyNth_eq_of_get?_none (f : α → α) : ∀ {l : List α} {n : Nat},
    l.get? n = none → modifyNth f l n = l := by
  intro l
  induction l with
  | nil => intro n _; rfl
  | cons a rest ih =>
    intro n h
    cases n with
    | zero => exact absurd h (by simp)
    | succ m =>
      rw [List.get?_cons_succ] at h
      rw [modifyNth, ih h]

namespace Backend

/-! ## Invariants of the category-concurrency manager -/

/-- Per-object lifecycle coherence: how a `Task` object's status constrains
its result, error, `completed_at` and asyncio lifecycle fields. -/
def ObjInv (t : Task) : Prop :=
  (t.status = .queued → t.result = none ∧ t.error = none ∧ t.completed_at = none ∧
    t.runPhase = 0 ∧ t.cancelled = false) ∧
  (t.status = .pending → t.result = none ∧ t.error = none ∧ t.completed_at = none ∧
    t.runPhase = 1 ∧ t.cancelled = false) ∧
  (t.status = .running → t.result = none ∧ t.error = none ∧ t.completed_at = none ∧
    t.runPhase = 2 ∧ t.cancelled = false) ∧
  (t.status = .completed → (∃ v, t.result = some v) ∧ t.error = none ∧
    (∃ c, t.completed_at = some c) ∧ t.runPhase = 3 ∧ t.cancelled = false) ∧
  (t.status = .failed → t.result = none ∧ (∃ e, t.error = some e) ∧
    (∃ c, t.completed_at = some c) ∧
    (t.runPhase = 0 ∨ t.runPhase = 3 ∨ t.cancelled = true))

/-- The manager invariant, proved for every state reachable under the spec's
unique-task-identity discipline. -/
structure Inv (s : TMState) : Prop where
  dictValid : ∀ p ∈ s.tasks, ∃ t, s.objs.get? p.2 = some t ∧ t.task_id = p.1
  keysNodup : (s.tasks.map Prod.fst).Nodup
  idUnique : ∀ i j ti tj, s.objs.get? i = some ti → s.objs.get? j = some tj →
    ti.task_id = tj.task_id → i = j
  objInv : ∀ t ∈ s.objs, ObjInv t
  prInRunning : ∀ p ∈ s.tasks, ∀ t, s.objs.get? p.2 = some t →
    t.status = .pending ∨ t.status = .running → p.1 ∈ s.running_tasks t.task_type
  runningBound : ∀ τ, (s.running_tasks τ).length ≤ s.concurrency_limits τ
  runningNodup : ∀ τ, (s.running_tasks τ).Nodup
  queueValid : ∀ τ i id, (s.task_queues τ).get? i = some id →
    ∃ o t, dictGet s.tasks id = some o ∧ s.objs.get? o = some t ∧
      t.status = .queued ∧ t.task_type = τ ∧ t.queue_position = some (i + 1)
  queuedInQueue : ∀ p ∈ s.tasks, ∀ t, s.objs.get? p.2 = some t → t.status = .queued →
    p.1 ∈ s.task_queues t.task_type
  queueSorted : ∀ τ, (queueObjs s τ).Pairwise (· < ·)
  logSorted : ∀ τ, (s.startLog τ).Pairwise (· < ·)
  logLtQueue : ∀ τ, ∀ l ∈ s.startLog τ, ∀ q ∈ queueObjs s τ, l < q
  queueLtLen : ∀ τ, ∀ q ∈ queueObjs s τ, q < s.objs.length
  logLtLen : ∀ τ, ∀ l ∈ s.startLog τ, l < s.objs.length

/-! State-accessor facts for the update helpers. -/

@[simp] theorem updateObj_tasks (s : TMState) (o : Nat) (f : Task → Task) :
    (updateObj s o f).tasks = s.tasks := rfl

@[simp] theorem updateObj_queues (s : TMState) (o : Nat) (f : Task → Task) :
    (updateObj s o f).task_queues = s.task_queues := rfl

@[simp] theorem updateObj_running (s : TMState) (o : Nat) (f : Task → Task) :
    (updateObj s o f).running_tasks = s.running_tasks := rfl

@[simp] theorem updateObj_limits (s : TMState) (o : Nat) (f : Task → Task) :
    (updateObj s o f).concurrency_limits = s.concurrency_limits := rfl

@[simp] theorem updateObj_startLog (s : TMState) (o : Nat) (f : Task → Task) :
    (updateObj s o f).startLog = s.startLog := rfl

@[simp] theorem updateObj_objs_length (s : TMState) (o : Nat) (f : Task → Task) :
    (updateObj s o f).objs.length = s.objs.length := modifyNth_length f s.objs o

theorem updateObj_objs_get (s : TMState) (o : Nat) (f : Task → Task) (m : Nat) :
    (updateObj s o f).objs.get? m =
      if o = m then (s.objs.get? m).map f else s.objs.get? m := by
  by_cases h : o = m
  · subst h
    rw [if_pos rfl]
    show (modifyNth f s.objs o).get? o = (s.objs.get? o).map f
    cases hg : s.objs.get? o with
    | none =>
      rw [modifyNth_eq_of_get?_none f hg, hg]
      rfl
    | some t =>
      rw [get?_modifyNth_self f hg]
      rfl
  · rw [if_neg h]
    exact get?_modifyNth_ne f s.objs h

@[simp] theorem setQueue_tasks (s : TMState) (τ : TaskType) (q : List String) :
    (setQueue s τ q).tasks = s.tasks := rfl

@[simp] theorem setQueue_objs (s : TMState) (τ : TaskType) (q : List String) :
    (setQueue s τ q).objs = s.objs := rfl

@[simp] theorem setQueue_running (s : TMState) (τ : TaskType) (q : List String) :
    (setQueue s τ q).running_tasks = s.running_tasks := rfl

@[simp] theorem setQueue_limits (s : TMState) (τ : TaskType) (q : List String) :
    (setQueue s τ q).concurrency_limits = s.concurrency_limits := rfl

@[simp] theorem setQueue_startLog (s : TMState) (τ : TaskType) (q : List String) :
    (setQueue s τ q).startLog = s.startLog := rfl

@[simp] theorem setQueue_queues (s : TMState) (τ : TaskType) (q : List String) :
    (setQueue s τ q).task_queues = Function.update s.task_queues τ q := rfl

@[simp] theorem setRunning_tasks (s : TMState) (τ : TaskType) (r : List String) :
    (setRunning s τ r).tasks = s.tasks := rfl

@[simp] theorem setRunning_objs (s : TMState) (τ : TaskType) (r : List String) :
    (setRunning s τ r).objs = s.objs := rfl

@[simp] theorem setRunning_queues (s : TMState) (τ : TaskType) (r : List String) :
    (setRunning s τ r).task_queues = s.task_queues := rfl

@[simp] theorem setRunning_limits (s : TMState) (τ : TaskType) (r : List String) :
    (setRunning s τ r).concurrency_limits = s.concurrency_limits := rfl

@[simp] theorem setRunning_startLog (s : TMState) (τ : TaskType) (r : List String) :
    (setRunning s τ r).startLog = s.startLog := rfl

@[simp] theorem setRunning_running (s : TMState) (τ : TaskType) (r : List String) :
    (setRunning s τ r).running_tasks = Function.update s.running_tasks τ r := rfl

@[simp] theorem pushLog_tasks (s : TMState) (τ : TaskType) (o : Nat) :
    (pushLog s τ o).tasks = s.tasks := rfl

@[simp] theorem pushLog_objs (s : TMState) (τ : TaskType) (o : Nat) :
    (pushLog s τ o).objs = s.objs := rfl

@[simp] theorem pushLog_queues (s : TMState) (τ : TaskType) (o : Nat) :
    (pushLog s τ o).task_queues = s.task_queues := rfl

@[simp] theorem pushLog_running (s : TMState) (τ : TaskType) (o : Nat) :
    (pushLog s τ o).running_tasks = s.running_tasks := rfl

@[simp] theorem pushLog_limits (s : TMState) (τ : TaskType) (o : Nat) :
    (pushLog s τ o).concurrency_limits = s.concurrency_limits := rfl

@[simp] theorem pushLog_startLog (s : TMState) (τ : TaskType) (o : Nat) :
    (pushLog s τ o).startLog = Function.update s.startLog τ (s.startLog τ ++ [o]) := rfl

@[simp] theorem addBase_running (s : TMState) (id : String) (τ : TaskType) :
    (addBase s id τ).running_tasks = s.running_tasks := rfl

@[simp] theorem addBase_limits (s : TMState) (id : String) (τ : TaskType) :
    (addBase s id τ).concurrency_limits = s.concurrency_limits := rfl

@[simp] theorem addBase_queues (s : TMState) (id : String) (τ : TaskType) :
    (addBase s id τ).task_queues = s.task_queues := rfl

@[simp] theorem addBase_startLog (s : TMState) (id : String) (τ : TaskType) :
    (addBase s id τ).startLog = s.startLog := rfl

theorem addBase_tasks (s : TMState) (id : String) (τ : TaskType) :
    (addBase s id τ).tasks = dictSet s.tasks id s.objs.length := rfl

theorem addBase_objs (s : TMState) (id : String) (τ : TaskType) :
    (addBase s id τ).objs = s.objs ++ [newTask s id τ] := rfl

@[simp] theorem queueObjs_updateObj (s : TMState) (o : Nat) (f : Task → Task) (τ : TaskType) :
    queueObjs (updateObj s o f) τ = queueObjs s τ := rfl

@[simp] theorem queueObjs_setRunning (s : TMState) (τ' : TaskType) (r : List String)
    (τ : TaskType) : queueObjs (setRunning s τ' r) τ = queueObjs s τ := rfl

@[simp] theorem queueObjs_pushLog (s : TMState) (τ' : TaskType) (o : Nat)
    (τ : TaskType) : queueObjs (pushLog s τ' o) τ = queueObjs s τ := rfl

/-! Frame and pointwise facts for the renumbering loop. -/

theorem renumberFrom_frame : ∀ (ids : List String) (k : Nat) (s : TMState),
    (renumberFrom s ids k).tasks = s.tasks ∧
    (renumberFrom s ids k).task_queues = s.task_queues ∧
    (renumberFrom s ids k).running_tasks = s.running_tasks ∧
    (renumberFrom s ids k).concurrency_limits = s.concurrency_limits ∧
    (renumberFrom s ids k).startLog = s.startLog ∧
    (renumberFrom s ids k).objs.length = s.objs.length := by
  intro ids
  induction ids with
  | nil => intro k s; exact ⟨rfl, rfl, rfl, rfl, rfl, rfl⟩
  | cons id rest ih =>
    intro k s
    rw [renumberFrom]
    cases hd : dictGet s.tasks id with
    | none => simpa [hd] using ih (k + 1) s
    | some o =>
      have h := ih (k + 1) (updateObj s o fun u => { u with queue_position := some (k + 1) })
      simpa [hd] using h

theorem renumberFrom_get_notin : ∀ (ids : List String) (k : Nat) (s : TMState) (o : Nat),
    (∀ id ∈ ids, dictGet s.tasks id ≠ some o) →
    (renumberFrom s ids k).objs.get? o = s.objs.get? o := by
  intro ids
  induction ids with
  | nil => intro k s o _; rfl
  | cons id rest ih =>
    intro k s o hno
    rw [renumberFrom]
    cases hd : dictGet s.tasks id with
    | none =>
      simp only [hd]
      exact ih (k + 1) s o fun id' h' => hno id' (List.mem_cons_of_mem _ h')
    | some o0 =>
      have ho0 : o0 ≠ o := by
        intro he
        exact hno id (List.mem_cons_self _ _) (he ▸ hd)
      simp only [hd]
      refine Eq.trans (ih (k + 1) _ o fun id' h' => hno id' (List.mem_cons_of_mem _ h')) ?_
      rw [updateObj_objs_get, if_neg ho0]

theorem renumberFrom_objs_shape : ∀ (ids : List String) (k : Nat) (s : TMState) (o : Nat),
    (renumberFrom s ids k).objs.get? o = s.objs.get? o ∨
    ∃ t p, s.objs.get? o = some t ∧
      (renumberFrom s ids k).objs.get? o = some { t with queue_position := some p } := by
  intro ids
  induction ids with
  | nil => intro k s o; exact Or.inl rfl
  | cons id rest ih =>
    intro k s o
    rw [renumberFrom]
    cases hd : dictGet s.tasks id with
    | none =>
      simp only [hd]
      exact ih (k + 1) s o
    | some o0 =>
      simp only [hd]
      set s' := updateObj s o0 fun u => { u with queue_position := some (k + 1) } with hs'
      rcases ih (k + 1) s' o with h | ⟨t', p, ht', hfin⟩
      · rw [h, hs', updateObj_objs_get]
        by_cases ho : o0 = o
        · subst ho
          rw [if_pos rfl]
          cases hg : s.objs.get? o0 with
          | none => exact Or.inl rfl
          | some t => exact Or.inr ⟨t, k + 1, rfl, rfl⟩
        · rw [if_neg ho]
          exact Or.inl rfl
      · rw [hs', updateObj_objs_get] at ht'
        by_cases ho : o0 = o
        · subst ho
          rw [if_pos rfl] at ht'
          cases hg : s.objs.get? o0 with
          | none =>
            rw [hg] at ht'
            exact absurd ht' (by simp)
          | some t =>
            rw [hg, Option.map_some'] at ht'
            injection ht' with he
            refine Or.inr ⟨t, p, rfl, ?_⟩
            rw [hfin, ← he]
        · rw [if_neg ho] at ht'
          exact Or.inr ⟨t', p, ht', hfin⟩

theorem renumberFrom_get_at : ∀ (ids : List String) (k : Nat) (s : TMState),
    ids.Nodup →
    (∀ id1 id2, id1 ∈ ids → id2 ∈ ids → ∀ o', dictGet s.tasks id1 = some o' →
      dictGet s.tasks id2 = some o' → id1 = id2) →
    ∀ j id o t, ids.get? j = some id → dictGet s.tasks id = some o →
      s.objs.get? o = some t →
      (renumberFrom s ids k).objs.get? o =
        some { t with queue_position := some (k + j + 1) } := by
  intro ids
  induction ids with
  | nil => intro k s _ _ j id o t hj; exact absurd hj (by simp)
  | cons id0 rest ih =>
    intro k s hnd hinj j id o t hj hd hget
    have hnd' := List.nodup_cons.mp hnd
    rw [renumberFrom]
    cases j with
    | zero =>
      rw [List.get?_cons_zero] at hj
      injection hj with hj
      subst hj
      rw [hd]
      set s' := updateObj s o fun u => { u with queue_position := some (k + 1) } with hs'
      have hrest : ∀ id' ∈ rest, dictGet s'.tasks id' ≠ some o := by
        intro id' h' he
        have : id' = id0 :=
          hinj id' id0 (List.mem_cons_of_mem _ h') (List.mem_cons_self _ _) o
            (by simpa [hs'] using he) hd
        exact hnd'.1 (this ▸ h')
      rw [renumberFrom_get_notin rest (k + 1) s' o hrest]
      rw [hs', updateObj_objs_get, if_pos rfl, hget]
      simp
    | succ j' =>
      rw [List.get?_cons_succ] at hj
      have hmem : id ∈ rest := by
        rcases List.get?_eq_some.mp hj with ⟨hlt, hg⟩
        exact hg ▸ List.get_mem rest _ _
      cases hd0 : dictGet s.tasks id0 with
      | none =>
        simp only [hd0]
        have := ih (k + 1) s hnd'.2
          (fun i1 i2 m1 m2 o' d1 d2 =>
            hinj i1 i2 (List.mem_cons_of_mem _ m1) (List.mem_cons_of_mem _ m2) o' d1 d2)
          j' id o t hj hd hget
        rw [this]
        have harith : k + 1 + j' + 1 = k + (j' + 1) + 1 := by omega
        rw [harith]
      | some o0 =>
        have ho0 : o0 ≠ o := by
          intro he
          subst he
          have : id0 = id :=
            hinj id0 id (List.mem_cons_self _ _) (List.mem_cons_of_mem _ hmem) o0 hd0 hd
          exact hnd'.1 (this ▸ hmem)
        simp only [hd0]
        set s' := updateObj s o0 fun u => { u with queue_position := some (k + 1) } with hs'
        have hget' : s'.objs.get? o = some t := by
          rw [hs', updateObj_objs_get, if_neg ho0]
          exact hget
        have := ih (k + 1) s' hnd'.2
          (fun i1 i2 m1 m2 o' d1 d2 =>
            hinj i1 i2 (List.mem_cons_of_mem _ m1) (List.mem_cons_of_mem _ m2) o'
              (by simpa [hs'] using d1) (by simpa [hs'] using d2))
          j' id o t hj (by simpa [hs'] using hd) hget'
        rw [this]
        have harith : k + 1 + j' + 1 = k + (j' + 1) + 1 := by omega
        rw [harith]

/-! Small derived facts. -/

theorem nodup_of_get?_inj : ∀ {l : List α},
    (∀ i j a, l.get? i = some a → l.get? j = some a → i = j) → l.Nodup := by
  intro l
  induction l with
  | nil => intro _; exact List.nodup_nil
  | cons x rest ih =>
    intro h
    refine List.nodup_cons.mpr ⟨?_, ih ?_⟩
    · intro hmem
      rcases List.mem_iff_get?.mp hmem with ⟨n, hn⟩
      exact absurd (h 0 (n + 1) x rfl hn) (by omega)
    · intro i j a hi hj
      have := h (i + 1) (j + 1) a hi hj
      omega

theorem mem_modifyNth {f : α → α} : ∀ {l : List α} {n : Nat} {a : α},
    a ∈ modifyNth f l n → a ∈ l ∨ ∃ b, l.get? n = some b ∧ a = f b := by
  intro l
  induction l with
  | nil => intro n a h; exact absurd h (by simp [modifyNth])
  | cons x rest ih =>
    intro n a h
    cases n with
    | zero =>
      rcases List.mem_cons.mp h with h1 | h1
      · exact Or.inr ⟨x, rfl, h1⟩
      · exact Or.inl (List.mem_cons_of_mem _ h1)
    | succ m =>
      rcases List.mem_cons.mp h with h1 | h1
      · exact Or.inl (h1 ▸ List.mem_cons_self _ _)
      · rcases ih h1 with h2 | ⟨b, hb, he⟩
        · exact Or.inl (List.mem_cons_of_mem _ h2)
        · exact Or.inr ⟨b, hb, he⟩

theorem updateObj_get_cases {s : TMState} {o : Nat} (f : Task → Task) {m : Nat} {t' : Task}
    (h : (updateObj s o f).objs.get? m = some t') :
    (o ≠ m ∧ s.objs.get? m = some t') ∨ (o = m ∧ ∃ u, s.objs.get? m = some u ∧ t' = f u) := by
  rw [updateObj_objs_get] at h
  by_cases ho : o = m
  · rw [if_pos ho] at h
    cases hg : s.objs.get? m with
    | none => rw [hg] at h; exact absurd h (by simp)
    | some u =>
      rw [hg, Option.map_some'] at h
      injection h with h
      exact Or.inr ⟨ho, u, rfl, h.symm⟩
  · rw [if_neg ho] at h
    exact Or.inl ⟨ho, h⟩

/-- Two task ids resolving to the same object are equal (each dict entry's
object carries its key as `task_id`). -/
theorem dictInj_of_dictValid {s : TMState}
    (hdv : ∀ p ∈ s.tasks, ∃ t, s.objs.get? p.2 = some t ∧ t.task_id = p.1)
    {id1 id2 : String} {o : Nat}
    (h1 : dictGet s.tasks id1 = some o) (h2 : dictGet s.tasks id2 = some o) :
    id1 = id2 := by
  obtain ⟨t1, hg1, hid1⟩ := hdv _ (dictGet_eq_some_mem h1)
  obtain ⟨t2, hg2, hid2⟩ := hdv _ (dictGet_eq_some_mem h2)
  rw [hg1] at hg2
  injection hg2 with he
  have e1 : t1.task_id = id1 := hid1
  have e2 : t2.task_id = id2 := hid2
  rw [← e1, ← e2, he]

theorem Inv.dictInj {s : TMState} (hInv : Inv s) {id1 id2 : String} {o : Nat}
    (h1 : dictGet s.tasks id1 = some o) (h2 : dictGet s.tasks id2 = some o) :
    id1 = id2 :=
  dictInj_of_dictValid hInv.dictValid h1 h2

/-- Each wait queue has no duplicate ids. -/
theorem Inv.queueNodup {s : TMState} (hInv : Inv s) (τ : TaskType) :
    (s.task_queues τ).Nodup := by
  refine nodup_of_get?_inj ?_
  intro i j id hi hj
  obtain ⟨o1, t1, hd1, hg1, _, _, hp1⟩ := hInv.queueValid τ i id hi
  obtain ⟨o2, t2, hd2, hg2, _, _, hp2⟩ := hInv.queueValid τ j id hj
  rw [hd1] at hd2
  injection hd2 with he
  subst he
  rw [hg1] at hg2
  injection hg2 with he2
  subst he2
  rw [hp1] at hp2
  injection hp2 with hp
  omega

/-- The manager invariant with `queuedInQueue` weakened to except one
designated object — the state right after `add_task` has stored a new `Task`
(still `QUEUED`, not yet queued or started) satisfies this for the new
object. -/
structure InvExcept (s : TMState) (o : Nat) : Prop where
  dictValid : ∀ p ∈ s.tasks, ∃ t, s.objs.get? p.2 = some t ∧ t.task_id = p.1
  keysNodup : (s.tasks.map Prod.fst).Nodup
  idUnique : ∀ i j ti tj, s.objs.get? i = some ti → s.objs.get? j = some tj →
    ti.task_id = tj.task_id → i = j
  objInv : ∀ t ∈ s.objs, ObjInv t
  prInRunning : ∀ p ∈ s.tasks, ∀ t, s.objs.get? p.2 = some t →
    t.status = .pending ∨ t.status = .running → p.1 ∈ s.running_tasks t.task_type
  runningBound : ∀ τ, (s.running_tasks τ).length ≤ s.concurrency_limits τ
  runningNodup : ∀ τ, (s.running_tasks τ).Nodup
  queueValid : ∀ τ i id, (s.task_queues τ).get? i = some id →
    ∃ o t, dictGet s.tasks id = some o ∧ s.objs.get? o = some t ∧
      t.status = .queued ∧ t.task_type = τ ∧ t.queue_position = some (i + 1)
  queuedInQueue : ∀ p ∈ s.tasks, ∀ t, s.objs.get? p.2 = some t → t.status = .queued →
    p.1 ∈ s.task_queues t.task_type ∨ p.2 = o
  queueSorted : ∀ τ, (queueObjs s τ).Pairwise (· < ·)
  logSorted : ∀ τ, (s.startLog τ).Pairwise (· < ·)
  logLtQueue : ∀ τ, ∀ l ∈ s.startLog τ, ∀ q ∈ queueObjs s τ, l < q
  queueLtLen : ∀ τ, ∀ q ∈ queueObjs s τ, q < s.objs.length
  logLtLen : ∀ τ, ∀ l ∈ s.startLog τ, l < s.objs.length

theorem Inv.except {s : TMState} (hInv : Inv s) (o : Nat) : InvExcept s o :=
  ⟨hInv.dictValid, hInv.keysNodup, hInv.idUnique, hInv.objInv, hInv.prInRunning,
    hInv.runningBound, hInv.runningNodup, hInv.queueValid,
    fun p hp t ht hq => Or.inl (hInv.queuedInQueue p hp t ht hq),
    hInv.queueSorted, hInv.logSorted, hInv.logLtQueue, hInv.queueLtLen, hInv.logLtLen⟩

/-- `_start_task` restores the full invariant when applied to a currently
queued object whose id resolves to it, is in no wait queue, and whose type
has a free slot. -/
theorem inv_startTask {s : TMState} {o : Nat} {t : Task} (hInv : InvExcept s o)
    (hget : s.objs.get? o = some t) (hq : t.status = .queued)
    (hdict : dictGet s.tasks t.task_id = some o)
    (hlen : (s.running_tasks t.task_type).length < s.concurrency_limits t.task_type)
    (hnq : ∀ τ, t.task_id ∉ s.task_queues τ) :
    Inv (startTask s o) := by
  rw [startTask, hget]
  set f : Task → Task := fun u => { u with status := .pending, runPhase := 1 } with hf
  have hfid : ∀ u, (f u).task_id = u.task_id := fun u => rfl
  have hfty : ∀ u, (f u).task_type = u.task_type := fun u => rfl
  set s1 := updateObj s o f with hs1
  set rt := setAdd (s1.running_tasks t.task_type) t.task_id with hrt
  -- the modified object resolves as before
  have hoget : ∀ {m t'}, s1.objs.get? m = some t' →
      (o ≠ m ∧ s.objs.get? m = some t') ∨ (o = m ∧ t' = f t) := by
    intro m t' h
    rcases updateObj_get_cases f h with h1 | ⟨ho, u, hu, he⟩
    · exact Or.inl h1
    · subst ho
      rw [hget] at hu
      injection hu with hu
      subst hu
      exact Or.inr ⟨rfl, he⟩
  have hnewget : s1.objs.get? o = some (f t) := by
    rw [hs1, updateObj_objs_get, if_pos rfl, hget, Option.map_some']
  refine ⟨?_, ?_, ?_, ?_, ?_, ?_, ?_, ?_, ?_, ?_, ?_, ?_, ?_, ?_⟩
  · -- dictValid
    intro p hp
    obtain ⟨u, hu, hid⟩ := hInv.dictValid p hp
    by_cases ho : o = p.2
    · subst ho
      rw [hget] at hu
      injection hu with hu
      subst hu
      refine ⟨f t, hnewget, ?_⟩
      rw [hfid]
      exact hid
    · refine ⟨u, ?_, hid⟩
      show s1.objs.get? p.2 = some u
      rw [hs1, updateObj_objs_get, if_neg ho]
      exact hu
  · -- keysNodup
    exact hInv.keysNodup
  · -- idUnique
    intro i j ti tj hi hj hij
    rcases hoget hi with ⟨_, h1⟩ | ⟨ho1, he1⟩ <;> rcases hoget hj with ⟨_, h2⟩ | ⟨ho2, he2⟩
    · exact hInv.idUnique i j ti tj h1 h2 hij
    · subst ho2
      refine hInv.idUnique i o ti t h1 hget ?_
      rw [hij, he2, hfid]
    · subst ho1
      refine hInv.idUnique o j t tj hget h2 ?_
      rw [← hij, he1, hfid]
    · rw [← ho1, ← ho2]
  · -- objInv
    intro u hu
    have hu' : u ∈ s1.objs := hu
    rcases mem_modifyNth hu' with h1 | ⟨b, hb, he⟩
    · exact hInv.objInv u h1
    · rw [hget] at hb
      injection hb with hb
      subst hb
      subst he
      have hto := hInv.objInv t (List.get?_mem hget)
      obtain ⟨hq', _, _, _, _⟩ := hto
      obtain ⟨hr, herr, hc, hph, hcn⟩ := hq' hq
      refine ⟨?_, ?_, ?_, ?_, ?_⟩
      · intro hcon
        exact absurd hcon (by simp [hf])
      · intro _
        exact ⟨hr, herr, hc, rfl, hcn⟩
      · intro hcon
        exact absurd hcon (by simp [hf])
      · intro hcon
        exact absurd hcon (by simp [hf])
      · intro hcon
        exact absurd hcon (by simp [hf])
  · -- prInRunning
    intro p hp u hu hpr
    rcases hoget hu with ⟨_, h1⟩ | ⟨ho, he⟩
    · have hmem := hInv.prInRunning p hp u h1 hpr
      show p.1 ∈ Function.update s.running_tasks t.task_type rt u.task_type
      by_cases hτ : u.task_type = t.task_type
      · rw [hτ, Function.update_same]
        rw [hrt]
        exact mem_setAdd_iff.mpr (Or.inl (hτ ▸ hmem))
      · rw [Function.update_noteq hτ]
        exact hmem
    · subst ho
      obtain ⟨u', hu', hid⟩ := hInv.dictValid p hp
      rw [hget] at hu'
      injection hu' with hu'
      subst hu'
      subst he
      show p.1 ∈ Function.update s.running_tasks t.task_type rt (f t).task_type
      rw [hfty, Function.update_same, hrt, ← hid]
      exact mem_setAdd_iff.mpr (Or.inr rfl)
  · -- runningBound
    intro τ
    show (Function.update s.running_tasks t.task_type rt τ).length ≤ s.concurrency_limits τ
    by_cases hτ : τ = t.task_type
    · rw [hτ, Function.update_same, hrt]
      calc (setAdd (s.running_tasks t.task_type) t.task_id).length
          ≤ (s.running_tasks t.task_type).length + 1 := setAdd_length_le _ _
        _ ≤ s.concurrency_limits t.task_type := hlen
    · rw [Function.update_noteq hτ]
      exact hInv.runningBound τ
  · -- runningNodup
    intro τ
    show (Function.update s.running_tasks t.task_type rt τ).Nodup
    by_cases hτ : τ = t.task_type
    · rw [hτ, Function.update_same, hrt]
      exact setAdd_nodup (hInv.runningNodup _)
    · rw [Function.update_noteq hτ]
      exact hInv.runningNodup τ
  · -- queueValid
    intro τ i id hi
    obtain ⟨o', t', hd', hg', hst', hty', hp'⟩ := hInv.queueValid τ i id hi
    have hido' : o' ≠ o := by
      intro he
      subst he
      have : id = t.task_id := dictInj_of_dictValid hInv.dictValid hd' hdict
      subst this
      exact hnq τ (List.get?_mem hi)
    refine ⟨o', t', hd', ?_, hst', hty', hp'⟩
    show s1.objs.get? o' = some t'
    rw [hs1, updateObj_objs_get, if_neg (Ne.symm hido')]
    exact hg'
  · -- queuedInQueue
    intro p hp u hu hqu
    rcases hoget hu with ⟨hne, h1⟩ | ⟨ho, he⟩
    · rcases hInv.queuedInQueue p hp u h1 hqu with hin | ho2
      · exact hin
      · exact absurd ho2.symm hne
    · subst he
      exact absurd hqu (by simp [hf])
  · -- queueSorted
    intro τ
    exact hInv.queueSorted τ
  · -- logSorted
    intro τ
    exact hInv.logSorted τ
  · -- logLtQueue
    intro τ
    exact hInv.logLtQueue τ
  · -- queueLtLen
    intro τ q hqm
    have : (updateObj s o f).objs.length = s.objs.length := updateObj_objs_length s o f
    rw [show (setRunning s1 t.task_type rt).objs.length = s1.objs.length from rfl, hs1, this]
    exact hInv.queueLtLen τ q hqm
  · -- logLtLen
    intro τ l hlm
    rw [show (setRunning s1 t.task_type rt).objs.length = s1.objs.length from rfl, hs1,
      updateObj_objs_length]
    exact hInv.logLtLen τ l hlm

/-- A fresh id is not a key of the task dict. -/
theorem fresh_key {s : TMState} {id : String} (hInv : Inv s)
    (hfresh : ∀ t ∈ s.objs, t.task_id ≠ id) : id ∉ s.tasks.map Prod.fst := by
  intro hmem
  rcases List.mem_map.mp hmem with ⟨p, hp, hpe⟩
  obtain ⟨t, ht, hid⟩ := hInv.dictValid p hp
  exact hfresh t (List.get?_mem ht) (by rw [hid, hpe])

/-- A fresh id is in no wait queue. -/
theorem fresh_notin_queue {s : TMState} {id : String} (hInv : Inv s)
    (hfresh : ∀ t ∈ s.objs, t.task_id ≠ id) : ∀ τ', id ∉ s.task_queues τ' := by
  intro τ' hmem
  rcases List.mem_iff_get?.mp hmem with ⟨i, hi⟩
  obtain ⟨o', t', hd', _, _, _, _⟩ := hInv.queueValid τ' i id hi
  exact fresh_key hInv hfresh (mem_keys_of_dictGet hd')

/-- After `add_task` stores the fresh task object, the invariant holds with
the new object excepted from `queuedInQueue`. -/
theorem invExcept_addBase {s : TMState} {id : String} {τ : TaskType} (hInv : Inv s)
    (hfresh : ∀ t ∈ s.objs, t.task_id ≠ id) :
    InvExcept (addBase s id τ) s.objs.length := by
  have hkey := fresh_key hInv hfresh
  have hqid := fresh_notin_queue hInv hfresh
  have htasks : (addBase s id τ).tasks = s.tasks ++ [(id, s.objs.length)] := by
    rw [addBase_tasks, dictSet_fresh _ hkey]
  have hget : ∀ {m t'}, (addBase s id τ).objs.get? m = some t' →
      (m < s.objs.length ∧ s.objs.get? m = some t') ∨
      (m = s.objs.length ∧ t' = newTask s id τ) := by
    intro m t' h
    rw [addBase_objs] at h
    exact get?_concat_cases h
  have hgetn : (addBase s id τ).objs.get? s.objs.length = some (newTask s id τ) := by
    rw [addBase_objs]
    exact List.get?_concat_length _ _
  have hgetold : ∀ {m}, m < s.objs.length →
      (addBase s id τ).objs.get? m = s.objs.get? m := by
    intro m hm
    rw [addBase_objs]
    exact List.get?_append hm
  have hqres : ∀ τ' id', id' ∈ s.task_queues τ' →
      dictGet (addBase s id τ).tasks id' = dictGet s.tasks id' := by
    intro τ' id' hmem
    rw [addBase_tasks]
    refine dictGet_dictSet_ne _ _ _ _ ?_
    intro he
    subst he
    exact hqid τ' hmem
  have hqObjs : ∀ τ', queueObjs (addBase s id τ) τ' = queueObjs s τ' := by
    intro τ'
    unfold queueObjs
    rw [addBase_queues]
    exact filterMap_congr' fun a ha => hqres τ' a ha
  have holt : ∀ {p : String × Nat}, p ∈ s.tasks → p.2 < s.objs.length := by
    intro p hp
    obtain ⟨t, ht, _⟩ := hInv.dictValid p hp
    rcases List.get?_eq_some.mp ht with ⟨h1, _⟩
    exact h1
  refine ⟨?_, ?_, ?_, ?_, ?_, ?_, ?_, ?_, ?_, ?_, ?_, ?_, ?_, ?_⟩
  · -- dictValid
    intro p hp
    rw [htasks] at hp
    rcases List.mem_append.mp hp with hp1 | hp1
    · obtain ⟨t, ht, hid⟩ := hInv.dictValid p hp1
      have hlt : p.2 < s.objs.length := by
        rcases List.get?_eq_some.mp ht with ⟨h1, _⟩
        exact h1
      exact ⟨t, by rw [hgetold hlt]; exact ht, hid⟩
    · rw [List.mem_singleton] at hp1
      subst hp1
      exact ⟨newTask s id τ, hgetn, rfl⟩
  · -- keysNodup
    rw [htasks, List.map_append]
    refine List.Nodup.append hInv.keysNodup (by simp) ?_
    intro a ha hb
    rw [List.map_singleton, List.mem_singleton] at hb
    subst hb
    exact hkey ha
  · -- idUnique
    intro i j ti tj hi hj hij
    rcases hget hi with ⟨hlt1, h1⟩ | ⟨he1, hv1⟩ <;> rcases hget hj with ⟨hlt2, h2⟩ | ⟨he2, hv2⟩
    · exact hInv.idUnique i j ti tj h1 h2 hij
    · subst hv2
      exact absurd hij (hfresh ti (List.get?_mem h1))
    · subst hv1
      exact absurd hij.symm (hfresh tj (List.get?_mem h2))
    · rw [he1, he2]
  · -- objInv
    intro u hu
    rw [addBase_objs] at hu
    rcases List.mem_append.mp hu with h1 | h1
    · exact hInv.objInv u h1
    · rw [List.mem_singleton] at h1
      subst h1
      exact ⟨fun _ => ⟨rfl, rfl, rfl, rfl, rfl⟩,
        fun h => absurd h (by simp [newTask]),
        fun h => absurd h (by simp [newTask]),
        fun h => absurd h (by simp [newTask]),
        fun h => absurd h (by simp [newTask])⟩
  · -- prInRunning
    intro p hp u hu hpr
    rw [htasks] at hp
    rcases List.mem_append.mp hp with hp1 | hp1
    · have hlt := holt hp1
      rw [hgetold hlt] at hu
      exact hInv.prInRunning p hp1 u hu hpr
    · rw [List.mem_singleton] at hp1
      subst hp1
      have hu' : (addBase s id τ).objs.get? s.objs.length = some u := hu
      rw [hgetn] at hu'
      injection hu' with hu'
      subst hu'
      rcases hpr with h | h <;> exact absurd h (by simp [newTask])
  · -- runningBound
    exact hInv.runningBound
  · -- runningNodup
    exact hInv.runningNodup
  · -- queueValid
    intro τ' i id' hi
    obtain ⟨o', t', hd', hg', hst, hty, hp'⟩ := hInv.queueValid τ' i id' hi
    have hlt : o' < s.objs.length := by
      rcases List.get?_eq_some.mp hg' with ⟨h1, _⟩
      exact h1
    refine ⟨o', t', ?_, ?_, hst, hty, hp'⟩
    · rw [hqres τ' id' (List.get?_mem hi)]
      exact hd'
    · rw [hgetold hlt]
      exact hg'
  · -- queuedInQueue, excepting the new object
    intro p hp u hu hqu
    rw [htasks] at hp
    rcases List.mem_append.mp hp with hp1 | hp1
    · have hlt := holt hp1
      rw [hgetold hlt] at hu
      exact Or.inl (hInv.queuedInQueue p hp1 u hu hqu)
    · rw [List.mem_singleton] at hp1
      subst hp1
      exact Or.inr rfl
  · -- queueSorted
    intro τ'
    rw [hqObjs]
    exact hInv.queueSorted τ'
  · -- logSorted
    exact hInv.logSorted
  · -- logLtQueue
    intro τ' l hl q hq
    rw [hqObjs] at hq
    exact hInv.logLtQueue τ' l hl q hq
  · -- queueLtLen
    intro τ' q hq
    rw [hqObjs] at hq
    have := hInv.queueLtLen τ' q hq
    rw [addBase_objs, List.length_append]
    omega
  · -- logLtLen
    intro τ' l hl
    have := hInv.logLtLen τ' l hl
    rw [addBase_objs, List.length_append]
    omega

/-- `add_task` with a fresh id preserves the manager invariant. -/
theorem inv_addTask_fresh {s : TMState} {id : String} {τ : TaskType} (hInv : Inv s)
    (hfresh : ∀ t ∈ s.objs, t.task_id ≠ id) : Inv (addTask s id τ) := by
  have hX := invExcept_addBase (τ := τ) hInv hfresh
  have hqid := fresh_notin_queue hInv hfresh
  have hgetn : (addBase s id τ).objs.get? s.objs.length = some (newTask s id τ) := by
    rw [addBase_objs]
    exact List.get?_concat_length _ _
  have hdictid : dictGet (addBase s id τ).tasks id = some s.objs.length := by
    rw [addBase_tasks]
    exact dictGet_dictSet_self _ _ _
  simp only [addTask]
  by_cases hlt :
      ((addBase s id τ).running_tasks τ).length < (addBase s id τ).concurrency_limits τ
  · rw [if_pos hlt]
    exact inv_startTask hX hgetn rfl hdictid hlt hqid
  · rw [if_neg hlt]
    simp only [setQueue_queues, addBase_queues, Function.update_same]
    set B := addBase s id τ with hB
    set n := s.objs.length with hn
    set ql : List String := s.task_queues τ ++ [id] with hql
    set f3 : Task → Task := fun u => { u with queue_position := some ql.length } with hf3
    have hf3id : ∀ u, (f3 u).task_id = u.task_id := fun u => rfl
    set S3 := updateObj (setQueue B τ ql) n f3 with hS3
    have hS3objs : ∀ m, S3.objs.get? m =
        if n = m then (B.objs.get? m).map f3 else B.objs.get? m := by
      intro m
      rw [hS3]
      exact updateObj_objs_get _ n f3 m
    have hS3get : ∀ {m t'}, S3.objs.get? m = some t' →
        (n ≠ m ∧ B.objs.get? m = some t') ∨ (m = n ∧ t' = f3 (newTask s id τ)) := by
      intro m t' h
      rcases updateObj_get_cases f3 h with ⟨hne, h1⟩ | ⟨he, u, hu, hv⟩
      · exact Or.inl ⟨hne, h1⟩
      · subst he
        have hu' : B.objs.get? n = some u := hu
        rw [hgetn] at hu'
        injection hu' with hu'
        subst hu'
        exact Or.inr ⟨rfl, hv⟩
    have hS3getn : S3.objs.get? n = some (f3 (newTask s id τ)) := by
      rw [hS3objs, if_pos rfl]
      have hBn : B.objs.get? n = some (newTask s id τ) := hgetn
      rw [hBn, Option.map_some']
    have hS3getold : ∀ {m}, m ≠ n → S3.objs.get? m = B.objs.get? m := by
      intro m hm
      rw [hS3objs, if_neg (Ne.symm hm)]
    have hBgetold : ∀ {m}, m < n → B.objs.get? m = s.objs.get? m := by
      intro m hm
      rw [hB, addBase_objs]
      exact List.get?_append hm
    have hqresB : ∀ τ' id', id' ∈ s.task_queues τ' →
        dictGet B.tasks id' = dictGet s.tasks id' := by
      intro τ' id' hmem
      rw [hB, addBase_tasks]
      refine dictGet_dictSet_ne _ _ _ _ ?_
      intro he
      subst he
      exact hqid τ' hmem
    have hquτ : S3.task_queues τ = ql := by
      rw [hS3]
      show (setQueue B τ ql).task_queues τ = ql
      rw [setQueue_queues, Function.update_same]
    have hquNe : ∀ {τ'}, τ' ≠ τ → S3.task_queues τ' = s.task_queues τ' := by
      intro τ' hτ
      rw [hS3]
      show (setQueue B τ ql).task_queues τ' = s.task_queues τ'
      rw [setQueue_queues, Function.update_noteq hτ, hB, addBase_queues]
    have hqObjsτ : queueObjs S3 τ = queueObjs s τ ++ [n] := by
      show (S3.task_queues τ).filterMap (dictGet S3.tasks) = _
      rw [hquτ, hql, List.filterMap_append]
      congr 1
      · exact filterMap_congr' fun a ha => hqresB τ a ha
      · have hdictid3 : dictGet S3.tasks id = some n := hdictid
        show List.filterMap (dictGet S3.tasks) [id] = [n]
        rw [List.filterMap_cons, hdictid3]
        rfl
    have hqObjsNe : ∀ {τ'}, τ' ≠ τ → queueObjs S3 τ' = queueObjs s τ' := by
      intro τ' hτ
      show (S3.task_queues τ').filterMap (dictGet S3.tasks) = _
      rw [hquNe hτ]
      exact filterMap_congr' fun a ha => hqresB τ' a ha
    have hS3len : S3.objs.length = n + 1 := by
      rw [hS3, updateObj_objs_length]
      show B.objs.length = n + 1
      rw [hB, addBase_objs, List.length_append, List.length_singleton]
    refine ⟨?_, hX.keysNodup, ?_, ?_, ?_, hX.runningBound, hX.runningNodup, ?_, ?_, ?_,
      hX.logSorted, ?_, ?_, ?_⟩
    · -- dictValid
      intro p hp
      obtain ⟨t, ht, hid⟩ := hX.dictValid p hp
      by_cases hpn : p.2 = n
      · rw [hpn, hgetn] at ht
        injection ht with ht
        subst ht
        refine ⟨f3 (newTask s id τ), ?_, hid⟩
        rw [hpn]
        exact hS3getn
      · refine ⟨t, ?_, hid⟩
        rw [hS3getold hpn]
        exact ht
    · -- idUnique
      intro i j ti tj hi hj hij
      rcases hS3get hi with ⟨hne1, h1⟩ | ⟨he1, hv1⟩ <;>
        rcases hS3get hj with ⟨hne2, h2⟩ | ⟨he2, hv2⟩
      · exact hX.idUnique i j ti tj h1 h2 hij
      · subst he2
        refine hX.idUnique i n ti (newTask s id τ) h1 hgetn ?_
        rw [hij, hv2, hf3id]
      · subst he1
        refine hX.idUnique n j (newTask s id τ) tj hgetn h2 ?_
        rw [← hij, hv1, hf3id]
      · rw [he1, he2]
    · -- objInv
      intro u hu
      have hu' : u ∈ modifyNth f3 B.objs n := hu
      rcases mem_modifyNth hu' with h1 | ⟨b, hb, he⟩
      · exact hX.objInv u h1
      · have hb' : B.objs.get? n = some b := hb
        rw [hgetn] at hb'
        injection hb' with hb'
        subst hb'
        subst he
        exact ⟨fun _ => ⟨rfl, rfl, rfl, rfl, rfl⟩,
          fun h => absurd h (by simp [hf3, newTask]),
          fun h => absurd h (by simp [hf3, newTask]),
          fun h => absurd h (by simp [hf3, newTask]),
          fun h => absurd h (by simp [hf3, newTask])⟩
    · -- prInRunning
      intro p hp u hu hpr
      rcases hS3get hu with ⟨hne, h1⟩ | ⟨he, hv⟩
      · exact hX.prInRunning p hp u h1 hpr
      · subst hv
        rcases hpr with h | h <;> exact absurd h (by simp [hf3, newTask])
    · -- queueValid
      intro τ' i id' hi
      by_cases hτ : τ' = τ
      · subst hτ
        rw [hquτ] at hi
        rcases get?_concat_cases hi with ⟨hlt2, hold⟩ | ⟨hieq, hide⟩
        · obtain ⟨o', t', hd', hg', hst, hty, hp'⟩ := hInv.queueValid τ' i id' hold
          have hltn : o' < n := by
            rcases List.get?_eq_some.mp hg' with ⟨h1, _⟩
            exact h1
          refine ⟨o', t', ?_, ?_, hst, hty, hp'⟩
          · show dictGet B.tasks id' = some o'
            rw [hqresB τ' id' (List.get?_mem hold)]
            exact hd'
          · rw [hS3getold (by omega), hBgetold hltn]
            exact hg'
        · subst hide
          refine ⟨n, f3 (newTask s id' τ'), hdictid, hS3getn, rfl, rfl, ?_⟩
          show some ql.length = some (i + 1)
          rw [hql, List.length_append, List.length_singleton, hieq]
      · rw [hquNe hτ] at hi
        obtain ⟨o', t', hd', hg', hst, hty, hp'⟩ := hInv.queueValid τ' i id' hi
        have hltn : o' < n := by
          rcases List.get?_eq_some.mp hg' with ⟨h1, _⟩
          exact h1
        refine ⟨o', t', ?_, ?_, hst, hty, hp'⟩
        · show dictGet B.tasks id' = some o'
          rw [hqresB τ' id' (List.get?_mem hi)]
          exact hd'
        · rw [hS3getold (by omega), hBgetold hltn]
          exact hg'
    · -- queuedInQueue
      intro p hp u hu hqu
      rcases hS3get hu with ⟨hne, h1⟩ | ⟨he, hv⟩
      · rcases hX.queuedInQueue p hp u h1 hqu with hin | ho2
        · by_cases hτ : u.task_type = τ
          · show p.1 ∈ S3.task_queues u.task_type
            rw [hτ, hquτ, hql]
            exact List.mem_append_left _ (by rw [← hτ]; exact hin)
          · show p.1 ∈ S3.task_queues u.task_type
            rw [hquNe hτ]
            exact hin
        · exact absurd ho2 hne.symm
      · subst hv
        obtain ⟨t'', ht'', hid''⟩ := hX.dictValid p hp
        rw [he, hgetn] at ht''
        injection ht'' with ht''
        subst ht''
        have hpid : p.1 = id := hid''.symm
        show p.1 ∈ S3.task_queues (f3 (newTask s id τ)).task_type
        have hty3 : (f3 (newTask s id τ)).task_type = τ := rfl
        rw [hty3, hquτ, hpid, hql]
        exact List.mem_append_right _ (List.mem_singleton.mpr rfl)
    · -- queueSorted
      intro τ'
      by_cases hτ : τ' = τ
      · subst hτ
        rw [hqObjsτ]
        refine List.pairwise_append.mpr ⟨hInv.queueSorted τ', by simp, ?_⟩
        intro a ha b hb
        rw [List.mem_singleton] at hb
        subst hb
        exact hInv.queueLtLen τ' a ha
      · rw [hqObjsNe hτ]
        exact hInv.queueSorted τ'
    · -- logLtQueue
      intro τ' l hl q hq
      by_cases hτ : τ' = τ
      · subst hτ
        rw [hqObjsτ] at hq
        rcases List.mem_append.mp hq with h1 | h1
        · exact hInv.logLtQueue τ' l hl q h1
        · rw [List.mem_singleton] at h1
          subst h1
          exact hInv.logLtLen τ' l hl
      · rw [hqObjsNe hτ] at hq
        exact hInv.logLtQueue τ' l hl q hq
    · -- queueLtLen
      intro τ' q hq
      rw [hS3len]
      by_cases hτ : τ' = τ
      · subst hτ
        rw [hqObjsτ] at hq
        rcases List.mem_append.mp hq with h1 | h1
        · have := hInv.queueLtLen τ' q h1
          omega
        · rw [List.mem_singleton] at h1
          omega
      · rw [hqObjsNe hτ] at hq
        have := hInv.queueLtLen τ' q hq
        omega
    · -- logLtLen
      intro τ' l hl
      rw [hS3len]
      have := hInv.logLtLen τ' l hl
      omega

/-- `ObjInv` only depends on the non-position fields. -/
theorem objInv_transfer {a b : Task} (hst : a.status = b.status) (hr : a.result = b.result)
    (he : a.error = b.error) (hc : a.completed_at = b.completed_at)
    (hph : a.runPhase = b.runPhase) (hcn : a.cancelled = b.cancelled)
    (h : ObjInv b) : ObjInv a := by
  unfold ObjInv at h ⊢
  rw [hst, hr, he, hc, hph, hcn]
  exact h

/-- Appending a ghost queue-start record preserves the invariant when the
started object is above the log and below every remaining queued object. -/
theorem inv_pushLog {s : TMState} (hInv : Inv s) {τ : TaskType} {o : Nat}
    (h1 : ∀ l ∈ s.startLog τ, l < o)
    (h2 : ∀ q ∈ queueObjs s τ, o < q)
    (h3 : o < s.objs.length) :
    Inv (pushLog s τ o) := by
  refine ⟨hInv.dictValid, hInv.keysNodup, hInv.idUnique, hInv.objInv, hInv.prInRunning,
    hInv.runningBound, hInv.runningNodup, hInv.queueValid, hInv.queuedInQueue,
    hInv.queueSorted, ?_, ?_, hInv.queueLtLen, ?_⟩
  · -- logSorted
    intro τ'
    show (Function.update s.startLog τ (s.startLog τ ++ [o]) τ').Pairwise (· < ·)
    by_cases hτ : τ' = τ
    · rw [hτ, Function.update_same]
      refine List.pairwise_append.mpr ⟨hInv.logSorted τ, by simp, ?_⟩
      intro a ha b hb
      rw [List.mem_singleton] at hb
      subst hb
      exact h1 a ha
    · rw [Function.update_noteq hτ]
      exact hInv.logSorted τ'
  · -- logLtQueue
    intro τ' l hl q hq
    have hq' : q ∈ queueObjs s τ' := hq
    show l < q
    by_cases hτ : τ' = τ
    · subst hτ
      have hl' : l ∈ Function.update s.startLog τ' (s.startLog τ' ++ [o]) τ' := hl
      rw [Function.update_same] at hl'
      rcases List.mem_append.mp hl' with hm | hm
      · exact hInv.logLtQueue τ' l hm q hq'
      · rw [List.mem_singleton] at hm
        subst hm
        exact h2 q hq'
    · have hl' : l ∈ Function.update s.startLog τ (s.startLog τ ++ [o]) τ' := hl
      rw [Function.update_noteq hτ] at hl'
      exact hInv.logLtQueue τ' l hl' q hq'
  · -- logLtLen
    intro τ' l hl
    show l < s.objs.length
    by_cases hτ : τ' = τ
    · subst hτ
      have hl' : l ∈ Function.update s.startLog τ' (s.startLog τ' ++ [o]) τ' := hl
      rw [Function.update_same] at hl'
      rcases List.mem_append.mp hl' with hm | hm
      · exact hInv.logLtLen τ' l hm
      · rw [List.mem_singleton] at hm
        subst hm
        exact h3
    · have hl' : l ∈ Function.update s.startLog τ (s.startLog τ ++ [o]) τ' := hl
      rw [Function.update_noteq hτ] at hl'
      exact hInv.logLtLen τ' l hl'

/-- Unfolding of `_start_task` at a resolved object. -/
theorem startTask_eq {s : TMState} {o : Nat} {t : Task} (h : s.objs.get? o = some t) :
    startTask s o =
      setRunning (updateObj s o fun u => { u with status := .pending, runPhase := 1 })
        t.task_type (setAdd (s.running_tasks t.task_type) t.task_id) := by
  rw [startTask, h]
  rfl

/-- After `_process_queue_for_type` pops the head of a queue and renumbers
the remainder, the invariant holds except that the popped object (still
`QUEUED`) is in no queue. -/
theorem invExcept_afterPop {s : TMState} (hInv : Inv s) {τ : TaskType}
    {next : String} {rest : List String} {o : Nat} {t : Task}
    (hq0 : s.task_queues τ = next :: rest)
    (hd : dictGet s.tasks next = some o) (hg : s.objs.get? o = some t) :
    InvExcept (renumberFrom (setQueue s τ rest) rest 0) o := by
  set s1 := setQueue s τ rest with hs1
  set s2 := renumberFrom s1 rest 0 with hs2
  obtain ⟨hfr_tasks, hfr_queues, hfr_running, hfr_limits, hfr_log, hfr_len⟩ :=
    renumberFrom_frame rest 0 s1
  have hs2tasks : s2.tasks = s.tasks := hfr_tasks
  have hs2running : s2.running_tasks = s.running_tasks := hfr_running
  have hs2log : s2.startLog = s.startLog := hfr_log
  have hs2len : s2.objs.length = s.objs.length := hfr_len
  have hs2queues : ∀ τ', s2.task_queues τ' = if τ' = τ then rest else s.task_queues τ' := by
    intro τ'
    rw [hfr_queues]
    show Function.update s.task_queues τ rest τ' = _
    by_cases hτ : τ' = τ
    · rw [if_pos hτ, hτ, Function.update_same]
    · rw [if_neg hτ, Function.update_noteq hτ]
  have hqnodup := hInv.queueNodup τ
  rw [hq0, List.nodup_cons] at hqnodup
  obtain ⟨hnextnotin, hrestNodup⟩ := hqnodup
  have hinj : ∀ id1 id2, id1 ∈ rest → id2 ∈ rest → ∀ o', dictGet s1.tasks id1 = some o' →
      dictGet s1.tasks id2 = some o' → id1 = id2 := by
    intro id1 id2 _ _ o' h1 h2
    exact hInv.dictInj h1 h2
  have honotres : ∀ id' ∈ rest, dictGet s1.tasks id' ≠ some o := by
    intro id' hmem he
    have hide : id' = next := hInv.dictInj he hd
    exact hnextnotin (hide ▸ hmem)
  have hget2 : s2.objs.get? o = some t := by
    rw [hs2, renumberFrom_get_notin rest 0 s1 o honotres]
    exact hg
  have hshape : ∀ m, s2.objs.get? m = s.objs.get? m ∨
      ∃ t' p, s.objs.get? m = some t' ∧
        s2.objs.get? m = some { t' with queue_position := some p } :=
    fun m => renumberFrom_objs_shape rest 0 s1 m
  have hids : ∀ {m tm}, s2.objs.get? m = some tm → ∃ t0, s.objs.get? m = some t0 ∧
      tm.task_id = t0.task_id ∧ tm.task_type = t0.task_type ∧ tm.status = t0.status ∧
      tm.result = t0.result ∧ tm.error = t0.error ∧ tm.completed_at = t0.completed_at ∧
      tm.runPhase = t0.runPhase ∧ tm.cancelled = t0.cancelled := by
    intro m tm h
    rcases hshape m with heq | ⟨t', p, ht', hfin⟩
    · rw [heq] at h
      exact ⟨tm, h, rfl, rfl, rfl, rfl, rfl, rfl, rfl, rfl⟩
    · rw [hfin] at h
      injection h with h
      subst h
      exact ⟨t', ht', rfl, rfl, rfl, rfl, rfl, rfl, rfl, rfl⟩
  have hrenum : ∀ j id' o' t', rest.get? j = some id' → dictGet s.tasks id' = some o' →
      s.objs.get? o' = some t' →
      s2.objs.get? o' = some { t' with queue_position := some (j + 1) } := by
    intro j id' o' t' hj hd' hg'
    have := renumberFrom_get_at rest 0 s1 hrestNodup hinj j id' o' t' hj hd' hg'
    rwa [Nat.zero_add] at this
  refine ⟨?_, ?_, ?_, ?_, ?_, ?_, ?_, ?_, ?_, ?_, ?_, ?_, ?_, ?_⟩
  · -- dictValid
    intro p hp
    have hp' : p ∈ s.tasks := by rwa [hs2tasks] at hp
    obtain ⟨tp, htp, hid⟩ := hInv.dictValid p hp'
    rcases hshape p.2 with heq | ⟨t', pp, ht', hfin⟩
    · exact ⟨tp, by rw [heq]; exact htp, hid⟩
    · rw [htp] at ht'
      injection ht' with ht'
      subst ht'
      exact ⟨{ tp with queue_position := some pp }, hfin, hid⟩
  · -- keysNodup
    rw [hs2tasks]
    exact hInv.keysNodup
  · -- idUnique
    intro i j ti tj hi hj hij
    obtain ⟨t0i, h0i, hidi, _, _, _, _, _, _, _⟩ := hids hi
    obtain ⟨t0j, h0j, hidj, _, _, _, _, _, _, _⟩ := hids hj
    exact hInv.idUnique i j t0i t0j h0i h0j (by rw [← hidi, ← hidj, hij])
  · -- objInv
    intro u hu
    rcases List.mem_iff_get?.mp hu with ⟨m, hm⟩
    obtain ⟨t0, h0, _, _, hst0, hr0, he0, hc0, hph0, hcn0⟩ := hids hm
    exact objInv_transfer hst0 hr0 he0 hc0 hph0 hcn0 (hInv.objInv t0 (List.get?_mem h0))
  · -- prInRunning
    intro p hp u hu hpr
    have hp' : p ∈ s.tasks := by rwa [hs2tasks] at hp
    obtain ⟨t0, h0, _, hty0, hst0, _, _, _, _, _⟩ := hids hu
    have hpr0 : t0.status = .pending ∨ t0.status = .running := by
      rcases hpr with h | h
      · exact Or.inl (by rw [← hst0, h])
      · exact Or.inr (by rw [← hst0, h])
    have := hInv.prInRunning p hp' t0 h0 hpr0
    rw [show s2.running_tasks u.task_type = s.running_tasks t0.task_type by
      rw [hs2running, hty0]]
    exact this
  · -- runningBound
    intro τ'
    rw [hs2running, hfr_limits]
    exact hInv.runningBound τ'
  · -- runningNodup
    intro τ'
    rw [hs2running]
    exact hInv.runningNodup τ'
  · -- queueValid
    intro τ' i id' hi
    rw [hs2queues] at hi
    by_cases hτ : τ' = τ
    · rw [if_pos hτ] at hi
      subst hτ
      have hcons : (s.task_queues τ').get? (i + 1) = some id' := by
        rw [hq0]
        exact hi
      obtain ⟨o', t', hd', hg', hst', hty', _⟩ := hInv.queueValid τ' (i + 1) id' hcons
      refine ⟨o', { t' with queue_position := some (i + 1) }, ?_, ?_, ?_, ?_, rfl⟩
      · rw [hs2tasks]
        exact hd'
      · exact hrenum i id' o' t' hi hd' hg'
      · exact hst'
      · exact hty'
    · rw [if_neg hτ] at hi
      obtain ⟨o', t', hd', hg', hst', hty', hp'⟩ := hInv.queueValid τ' i id' hi
      have hnores : ∀ id'' ∈ rest, dictGet s1.tasks id'' ≠ some o' := by
        intro id'' hmem he
        have hide : id'' = id' := hInv.dictInj he hd'
        subst hide
        rcases List.mem_iff_get?.mp hmem with ⟨j, hj⟩
        have hcons : (s.task_queues τ).get? (j + 1) = some id'' := by
          rw [hq0]
          exact hj
        obtain ⟨o3, t3, hd3, hg3, _, hty3, _⟩ := hInv.queueValid τ (j + 1) id'' hcons
        rw [hd'] at hd3
        injection hd3 with hd3
        subst hd3
        rw [hg'] at hg3
        injection hg3 with hg3
        subst hg3
        rw [hty'] at hty3
        exact hτ hty3
      refine ⟨o', t', ?_, ?_, hst', hty', hp'⟩
      · rw [hs2tasks]
        exact hd'
      · rw [hs2, renumberFrom_get_notin rest 0 s1 o' hnores]
        exact hg'
  · -- queuedInQueue, excepting the popped object
    intro p hp u hu hqu
    have hp' : p ∈ s.tasks := by rwa [hs2tasks] at hp
    obtain ⟨t0, h0, hid0, hty0, hst0, _, _, _, _, _⟩ := hids hu
    have hq0' : t0.status = .queued := by rw [← hst0, hqu]
    have hin := hInv.queuedInQueue p hp' t0 h0 hq0'
    rw [hs2queues, hty0]
    by_cases hτ : t0.task_type = τ
    · rw [if_pos hτ]
      rw [hτ, hq0] at hin
      rcases List.mem_cons.mp hin with he | he
      · -- p is the dict entry of the popped head
        right
        obtain ⟨tp, htp, hidp⟩ := hInv.dictValid p hp'
        have : dictGet s.tasks p.1 = some p.2 :=
          dictGet_of_mem_keysNodup hInv.keysNodup (by
            have : p = (p.1, p.2) := rfl
            rw [← this]
            exact hp')
        rw [he] at this
        rw [hd] at this
        injection this with this
        exact this.symm
      · exact Or.inl he
    · rw [if_neg hτ]
      exact Or.inl hin
  · -- queueSorted
    intro τ'
    have hqs : queueObjs s τ = o :: List.filterMap (dictGet s.tasks) rest := by
      unfold queueObjs
      rw [hq0, List.filterMap_cons, hd]
    by_cases hτ : τ' = τ
    · subst hτ
      have : queueObjs s2 τ' = List.filterMap (dictGet s.tasks) rest := by
        unfold queueObjs
        rw [hs2queues, if_pos rfl, hs2tasks]
      rw [this]
      have := hInv.queueSorted τ'
      rw [hqs] at this
      exact (List.pairwise_cons.mp this).2
    · have : queueObjs s2 τ' = queueObjs s τ' := by
        unfold queueObjs
        rw [hs2queues, if_neg hτ, hs2tasks]
      rw [this]
      exact hInv.queueSorted τ'
  · -- logSorted
    intro τ'
    rw [hs2log]
    exact hInv.logSorted τ'
  · -- logLtQueue
    intro τ' l hl q hq
    have hl' : l ∈ s.startLog τ' := by rwa [hs2log] at hl
    by_cases hτ : τ' = τ
    · subst hτ
      have hqq : q ∈ List.filterMap (dictGet s.tasks) rest := by
        have : queueObjs s2 τ' = List.filterMap (dictGet s.tasks) rest := by
          unfold queueObjs
          rw [hs2queues, if_pos rfl, hs2tasks]
        rwa [this] at hq
      refine hInv.logLtQueue τ' l hl' q ?_
      have hqs : queueObjs s τ' = o :: List.filterMap (dictGet s.tasks) rest := by
        unfold queueObjs
        rw [hq0, List.filterMap_cons, hd]
      rw [hqs]
      exact List.mem_cons_of_mem _ hqq
    · have : queueObjs s2 τ' = queueObjs s τ' := by
        unfold queueObjs
        rw [hs2queues, if_neg hτ, hs2tasks]
      rw [this] at hq
      exact hInv.logLtQueue τ' l hl' q hq
  · -- queueLtLen
    intro τ' q hq
    rw [hs2len]
    by_cases hτ : τ' = τ
    · subst hτ
      have : queueObjs s2 τ' = List.filterMap (dictGet s.tasks) rest := by
        unfold queueObjs
        rw [hs2queues, if_pos rfl, hs2tasks]
      rw [this] at hq
      refine hInv.queueLtLen τ' q ?_
      have hqs : queueObjs s τ' = o :: List.filterMap (dictGet s.tasks) rest := by
        unfold queueObjs
        rw [hq0, List.filterMap_cons, hd]
      rw [hqs]
      exact List.mem_cons_of_mem _ hq
    · have : queueObjs s2 τ' = queueObjs s τ' := by
        unfold queueObjs
        rw [hs2queues, if_neg hτ, hs2tasks]
      rw [this] at hq
      exact hInv.queueLtLen τ' q hq
  · -- logLtLen
    intro τ' l hl
    rw [hs2len]
    have hl' : l ∈ s.startLog τ' := by rwa [hs2log] at hl
    exact hInv.logLtLen τ' l hl'

/-- `_process_queue_for_type` preserves the invariant whenever a slot is
free in the type's running set. -/
theorem inv_processQueueForType {s : TMState} (hInv : Inv s) (τ : TaskType)
    (hlen : (s.running_tasks τ).length < s.concurrency_limits τ) :
    Inv (processQueueForType s τ) := by
  cases hq0 : s.task_queues τ with
  | nil =>
    simp only [processQueueForType, hq0]
    exact hInv
  | cons next rest =>
    have h0 : (s.task_queues τ).get? 0 = some next := by rw [hq0]; rfl
    obtain ⟨o, t, hd, hg, hst, hty, hp1⟩ := hInv.queueValid τ 0 next h0
    have hd1 : dictGet (setQueue s τ rest).tasks next = some o := hd
    have hg1 : (setQueue s τ rest).objs.get? o = some t := hg
    simp only [processQueueForType, hq0, hd1, hg1, hst, if_pos]
    -- facts carried over the renumbering
    set s1 := setQueue s τ rest with hs1
    set s2 := renumberFrom s1 rest 0 with hs2
    obtain ⟨hfr_tasks, hfr_queues, hfr_running, hfr_limits, hfr_log, hfr_len⟩ :=
      renumberFrom_frame rest 0 s1
    have hqnodup := hInv.queueNodup τ
    rw [hq0, List.nodup_cons] at hqnodup
    obtain ⟨hnextnotin, hrestNodup⟩ := hqnodup
    have honotres : ∀ id' ∈ rest, dictGet s1.tasks id' ≠ some o := by
      intro id' hmem he
      have hide : id' = next := hInv.dictInj he hd
      exact hnextnotin (hide ▸ hmem)
    have hget2 : s2.objs.get? o = some t := by
      rw [hs2, renumberFrom_get_notin rest 0 s1 o honotres]
      exact hg
    have hX := invExcept_afterPop hInv hq0 hd hg
    have htid : t.task_id = next := by
      obtain ⟨t', ht', hid'⟩ := hInv.dictValid (next, o) (dictGet_eq_some_mem hd)
      have ht'' : s.objs.get? o = some t' := ht'
      rw [hg] at ht''
      injection ht'' with ht''
      rw [ht'']
      exact hid'
    have hdict2 : dictGet s2.tasks t.task_id = some o := by
      rw [hfr_tasks, htid]
      exact hd
    have hlen2 : (s2.running_tasks t.task_type).length < s2.concurrency_limits t.task_type := by
      rw [hfr_running, hfr_limits, hty]
      exact hlen
    have hnq2 : ∀ τ', t.task_id ∉ s2.task_queues τ' := by
      intro τ' hmem
      rw [hfr_queues] at hmem
      by_cases hτ : τ' = τ
      · subst hτ
        have : t.task_id ∈ rest := by
          have hq' : Function.update s.task_queues τ' rest τ' = rest := by
            rw [Function.update_same]
          rwa [show s1.task_queues = Function.update s.task_queues τ' rest from rfl, hq']
            at hmem
        rw [htid] at this
        exact hnextnotin this
      · have hmem' : t.task_id ∈ s.task_queues τ' := by
          rwa [show s1.task_queues = Function.update s.task_queues τ rest from rfl,
            Function.update_noteq hτ] at hmem
        rcases List.mem_iff_get?.mp hmem' with ⟨j, hj⟩
        obtain ⟨o3, t3, hd3, hg3, _, hty3, _⟩ := hInv.queueValid τ' j t.task_id hj
        rw [htid] at hd3
        rw [hd] at hd3
        injection hd3 with hd3
        subst hd3
        rw [hg] at hg3
        injection hg3 with hg3
        subst hg3
        exact hτ (hty3.symm.trans hty)
    have hInvStart : Inv (startTask s2 o) := inv_startTask hX hget2 hst hdict2 hlen2 hnq2
    -- the ghost log append
    have hqsObjs : queueObjs s τ = o :: List.filterMap (dictGet s.tasks) rest := by
      unfold queueObjs
      rw [hq0, List.filterMap_cons, hd]
    have hstq : ∀ τ', queueObjs (startTask s2 o) τ' = queueObjs s2 τ' := by
      intro τ'
      rw [startTask_eq hget2]
      rfl
    have hstlog : (startTask s2 o).startLog = s2.startLog := by
      rw [startTask_eq hget2]
      rfl
    have hstlen : (startTask s2 o).objs.length = s2.objs.length := by
      rw [startTask_eq hget2, setRunning_objs, updateObj_objs_length]
    have hq2τ : queueObjs s2 τ = List.filterMap (dictGet s.tasks) rest := by
      unfold queueObjs
      have hqq : s2.task_queues τ = rest := by
        rw [hfr_queues]
        show Function.update s.task_queues τ rest τ = rest
        rw [Function.update_same]
      rw [hqq, hfr_tasks]
      rfl
    refine inv_pushLog hInvStart ?_ ?_ ?_
    · intro l hl
      have hl' : l ∈ s.startLog τ := by
        rw [hstlog, hfr_log] at hl
        exact hl
      refine hInv.logLtQueue τ l hl' o ?_
      rw [hqsObjs]
      exact List.mem_cons_self _ _
    · intro q hq
      rw [hstq, hq2τ] at hq
      have := hInv.queueSorted τ
      rw [hqsObjs] at this
      exact (List.pairwise_cons.mp this).1 q hq
    · rw [hstlen, hfr_len]
      show o < s1.objs.length
      refine hInv.queueLtLen τ o ?_
      rw [hqsObjs]
      exact List.mem_cons_self _ _


/-- Status determined by asyncio phase 1 (created, not started, not
cancelled): the object is `PENDING`. -/
theorem status_of_phase1 {t : Task} (h : ObjInv t) (hp : t.runPhase = 1)
    (hc : t.cancelled = false) : t.status = .pending := by
  obtain ⟨h1, h2, h3, h4, h5⟩ := h
  cases hs : t.status
  · obtain ⟨_, _, _, hph, _⟩ := h1 hs
    rw [hp] at hph
    exact absurd hph (by decide)
  · rfl
  · obtain ⟨_, _, _, hph, _⟩ := h3 hs
    rw [hp] at hph
    exact absurd hph (by decide)
  · obtain ⟨_, _, _, hph, _⟩ := h4 hs
    rw [hp] at hph
    exact absurd hph (by decide)
  · obtain ⟨_, _, _, hph⟩ := h5 hs
    rcases hph with hph | hph | hph
    · rw [hp] at hph
      exact absurd hph (by decide)
    · rw [hp] at hph
      exact absurd hph (by decide)
    · rw [hc] at hph
      exact absurd hph (by decide)

/-- Status determined by asyncio phase 2 (body executing, not cancelled):
the object is `RUNNING`. -/
theorem status_of_phase2 {t : Task} (h : ObjInv t) (hp : t.runPhase = 2)
    (hc : t.cancelled = false) : t.status = .running := by
  obtain ⟨h1, h2, h3, h4, h5⟩ := h
  cases hs : t.status
  · obtain ⟨_, _, _, hph, _⟩ := h1 hs
    rw [hp] at hph
    exact absurd hph (by decide)
  · obtain ⟨_, _, _, hph, _⟩ := h2 hs
    rw [hp] at hph
    exact absurd hph (by decide)
  · rfl
  · obtain ⟨_, _, _, hph, _⟩ := h4 hs
    rw [hp] at hph
    exact absurd hph (by decide)
  · obtain ⟨_, _, _, hph⟩ := h5 hs
    rcases hph with hph | hph | hph
    · rw [hp] at hph
      exact absurd hph (by decide)
    · rw [hp] at hph
      exact absurd hph (by decide)
    · rw [hc] at hph
      exact absurd hph (by decide)

/-- Updating one non-queued object, preserving its identity and type and its
own `ObjInv`, preserves the invariant (the new status must not be `QUEUED`,
and may be pending/running only if it already was). -/
theorem inv_updateObj_nonqueue {s : TMState} {o : Nat} {t : Task} {f : Task → Task}
    (hInv : Inv s) (hget : s.objs.get? o = some t)
    (hnq : t.status ≠ .queued)
    (hid : (f t).task_id = t.task_id) (hty : (f t).task_type = t.task_type)
    (hobj : ObjInv (f t))
    (hpr : (f t).status = .pending ∨ (f t).status = .running →
      t.status = .pending ∨ t.status = .running)
    (hnq2 : (f t).status ≠ .queued) :
    Inv (updateObj s o f) := by
  have hoget : ∀ {m t'}, (updateObj s o f).objs.get? m = some t' →
      (o ≠ m ∧ s.objs.get? m = some t') ∨ (o = m ∧ t' = f t) := by
    intro m t' h
    rcases updateObj_get_cases f h with h1 | ⟨he, u, hu, hv⟩
    · exact Or.inl h1
    · subst he
      rw [hget] at hu
      injection hu with hu
      subst hu
      exact Or.inr ⟨rfl, hv⟩
  have hnewget : (updateObj s o f).objs.get? o = some (f t) := by
    rw [updateObj_objs_get, if_pos rfl, hget, Option.map_some']
  refine ⟨?_, hInv.keysNodup, ?_, ?_, ?_, hInv.runningBound, hInv.runningNodup, ?_, ?_,
    hInv.queueSorted, hInv.logSorted, hInv.logLtQueue, ?_, ?_⟩
  · -- dictValid
    intro p hp
    obtain ⟨u, hu, hidp⟩ := hInv.dictValid p hp
    by_cases ho : o = p.2
    · subst ho
      rw [hget] at hu
      injection hu with hu
      subst hu
      refine ⟨f t, hnewget, ?_⟩
      rw [hid]
      exact hidp
    · refine ⟨u, ?_, hidp⟩
      rw [updateObj_objs_get, if_neg ho]
      exact hu
  · -- idUnique
    intro i j ti tj hi hj hij
    rcases hoget hi with ⟨_, h1⟩ | ⟨ho1, hv1⟩ <;> rcases hoget hj with ⟨_, h2⟩ | ⟨ho2, hv2⟩
    · exact hInv.idUnique i j ti tj h1 h2 hij
    · subst ho2
      refine hInv.idUnique i o ti t h1 hget ?_
      rw [hij, hv2, hid]
    · subst ho1
      refine hInv.idUnique o j t tj hget h2 ?_
      rw [← hij, hv1, hid]
    · rw [← ho1, ← ho2]
  · -- objInv
    intro u hu
    rcases mem_modifyNth hu with h1 | ⟨b, hb, he⟩
    · exact hInv.objInv u h1
    · rw [hget] at hb
      injection hb with hb
      subst hb
      subst he
      exact hobj
  · -- prInRunning
    intro p hp u hu hpru
    rcases hoget hu with ⟨_, h1⟩ | ⟨ho, hv⟩
    · exact hInv.prInRunning p hp u h1 hpru
    · subst hv
      have hprt := hpr hpru
      obtain ⟨u', hu', hidp⟩ := hInv.dictValid p hp
      rw [← ho, hget] at hu'
      injection hu' with hu'
      subst hu'
      have := hInv.prInRunning p hp t (ho ▸ hget) hprt
      rw [show (f t).task_type = t.task_type from hty]
      exact this
  · -- queueValid
    intro τ' i id' hi
    obtain ⟨o', t', hd', hg', hst', hty', hp'⟩ := hInv.queueValid τ' i id' hi
    have ho' : o ≠ o' := by
      intro he
      subst he
      rw [hget] at hg'
      injection hg' with hg'
      subst hg'
      exact hnq hst'
    refine ⟨o', t', hd', ?_, hst', hty', hp'⟩
    rw [updateObj_objs_get, if_neg ho']
    exact hg'
  · -- queuedInQueue
    intro p hp u hu hqu
    rcases hoget hu with ⟨_, h1⟩ | ⟨ho, hv⟩
    · exact hInv.queuedInQueue p hp u h1 hqu
    · subst hv
      exact absurd hqu hnq2
  · -- queueLtLen
    intro τ' q hq
    rw [updateObj_objs_length]
    exact hInv.queueLtLen τ' q hq
  · -- logLtLen
    intro τ' l hl
    rw [updateObj_objs_length]
    exact hInv.logLtLen τ' l hl

/-- `Task.run` starting preserves the invariant. -/
theorem inv_beginRun {s : TMState} (hInv : Inv s) (o : Nat) : Inv (beginRun s o) := by
  cases hg : s.objs.get? o with
  | none =>
    simp only [beginRun, hg]
    exact hInv
  | some t =>
    simp only [beginRun, hg]
    by_cases hc : t.runPhase = 1 ∧ ¬ t.cancelled
    · rw [if_pos hc]
      have hobj := hInv.objInv t (List.get?_mem hg)
      have hcf : t.cancelled = false := by
        cases hcc : t.cancelled
        · rfl
        · exact absurd hcc (by simpa using hc.2)
      have hpend := status_of_phase1 hobj hc.1 hcf
      obtain ⟨_, h2, _, _, _⟩ := hobj
      obtain ⟨hr, he, hco, _, _⟩ := h2 hpend
      refine inv_updateObj_nonqueue hInv hg (by rw [hpend]; decide) rfl rfl ?_ ?_
        (fun h => nomatch h)
      · refine ⟨?_, ?_, fun _ => ⟨hr, he, hco, rfl, hcf⟩, ?_, ?_⟩ <;>
          · intro h
            exact nomatch h
      · intro _
        exact Or.inl hpend
    · rw [if_neg hc]
      exact hInv

/-- `Task.run` finishing (normal return or raised exception) preserves the
invariant. -/
theorem inv_finishRun {s : TMState} (hInv : Inv s) (o : Nat) (out : Except String Nat) :
    Inv (finishRun s o out) := by
  cases hg : s.objs.get? o with
  | none =>
    simp only [finishRun, hg]
    exact hInv
  | some t =>
    simp only [finishRun, hg]
    by_cases hc : t.runPhase = 2 ∧ ¬ t.cancelled
    · rw [if_pos hc]
      have hobj := hInv.objInv t (List.get?_mem hg)
      have hcf : t.cancelled = false := by
        cases hcc : t.cancelled
        · rfl
        · exact absurd hcc (by simpa using hc.2)
      have hrun := status_of_phase2 hobj hc.1 hcf
      obtain ⟨_, _, h3, _, _⟩ := hobj
      obtain ⟨hr, he, hco, _, _⟩ := h3 hrun
      cases out with
      | ok v =>
        refine inv_updateObj_nonqueue hInv hg (by rw [hrun]; decide) rfl rfl ?_
          (fun h => by rcases h with h | h <;> exact nomatch h) (fun h => nomatch h)
        refine ⟨?_, ?_, ?_, fun _ => ⟨⟨v, rfl⟩, he, ⟨s.time, rfl⟩, rfl, hcf⟩, ?_⟩ <;>
          · intro h
            exact nomatch h
      | error e =>
        refine inv_updateObj_nonqueue hInv hg (by rw [hrun]; decide) rfl rfl ?_
          (fun h => by rcases h with h | h <;> exact nomatch h) (fun h => nomatch h)
        refine ⟨?_, ?_, ?_, ?_, fun _ => ⟨hr, ⟨e, rfl⟩, ⟨s.time, rfl⟩, Or.inr (Or.inl rfl)⟩⟩ <;>
          · intro h
            exact nomatch h
    · rw [if_neg hc]
      exact hInv

/-- Removing an id from a running set preserves the invariant, provided the
id's own dict entry (if any) is not pending/running. -/
theorem inv_removeRunning {s : TMState} (hInv : Inv s) (τ : TaskType) (id : String)
    (hsafe : ∀ o' t', dictGet s.tasks id = some o' → s.objs.get? o' = some t' →
      ¬(t'.status = .pending ∨ t'.status = .running)) :
    Inv (setRunning s τ ((s.running_tasks τ).erase id)) := by
  refine ⟨hInv.dictValid, hInv.keysNodup, hInv.idUnique, hInv.objInv, ?_, ?_, ?_,
    hInv.queueValid, hInv.queuedInQueue, hInv.queueSorted, hInv.logSorted,
    hInv.logLtQueue, hInv.queueLtLen, hInv.logLtLen⟩
  · -- prInRunning
    intro p hp u hu hpru
    have hmem := hInv.prInRunning p hp u hu hpru
    show p.1 ∈ Function.update s.running_tasks τ ((s.running_tasks τ).erase id) u.task_type
    by_cases hτ : u.task_type = τ
    · rw [hτ, Function.update_same]
      have hne : p.1 ≠ id := by
        intro he
        subst he
        have hdp : dictGet s.tasks p.1 = some p.2 :=
          dictGet_of_mem_keysNodup hInv.keysNodup (by
            have hpp : p = (p.1, p.2) := rfl
            rw [← hpp]
            exact hp)
        exact hsafe p.2 u hdp hu hpru
      exact List.mem_erase_of_ne hne |>.mpr (hτ ▸ hmem)
    · rw [Function.update_noteq hτ]
      exact hmem
  · -- runningBound
    intro τ'
    show (Function.update s.running_tasks τ ((s.running_tasks τ).erase id) τ').length ≤ _
    by_cases hτ : τ' = τ
    · rw [hτ, Function.update_same]
      calc ((s.running_tasks τ).erase id).length
          ≤ (s.running_tasks τ).length := (List.erase_sublist _ _).length_le
        _ ≤ s.concurrency_limits τ := hInv.runningBound τ
    · rw [Function.update_noteq hτ]
      exact hInv.runningBound τ'
  · -- runningNodup
    intro τ'
    show (Function.update s.running_tasks τ ((s.running_tasks τ).erase id) τ').Nodup
    by_cases hτ : τ' = τ
    · rw [hτ, Function.update_same]
      exact (hInv.runningNodup τ).erase id
    · rw [Function.update_noteq hτ]
      exact hInv.runningNodup τ'

/-- `_handle_task_completion` preserves the invariant. -/
theorem inv_handleTaskCompletion {s : TMState} (hInv : Inv s) (o : Nat) :
    Inv (handleTaskCompletion s o) := by
  cases hg : s.objs.get? o with
  | none =>
    simp only [handleTaskCompletion, hg]
    exact hInv
  | some t =>
    simp only [handleTaskCompletion, hg]
    by_cases hdone : t.runPhase = 3 ∨ t.cancelled
    · rw [if_pos hdone]
      by_cases hmem : t.task_id ∈ s.running_tasks t.task_type
      · rw [if_pos hmem]
        have hsafe : ∀ o' t', dictGet s.tasks t.task_id = some o' →
            s.objs.get? o' = some t' → ¬(t'.status = .pending ∨ t'.status = .running) := by
          intro o' t' hd' hg' hpr'
          obtain ⟨u, hu, hidu⟩ := hInv.dictValid _ (dictGet_eq_some_mem hd')
          have hu' : s.objs.get? o' = some u := hu
          rw [hg'] at hu'
          injection hu' with hu'
          subst hu'
          have : o' = o := hInv.idUnique o' o t' t hg' hg hidu
          subst this
          rw [hg'] at hg
          injection hg with hg
          subst hg
          obtain ⟨h1, h2, h3, _, _⟩ := hInv.objInv t' (List.get?_mem hg')
          rcases hpr' with hp | hp
          · obtain ⟨_, _, _, hph, hcn⟩ := h2 hp
            rcases hdone with hd3 | hd3
            · rw [hph] at hd3
              exact absurd hd3 (by decide)
            · rw [hcn] at hd3
              exact absurd hd3 (by decide)
          · obtain ⟨_, _, _, hph, hcn⟩ := h3 hp
            rcases hdone with hd3 | hd3
            · rw [hph] at hd3
              exact absurd hd3 (by decide)
            · rw [hcn] at hd3
              exact absurd hd3 (by decide)
        have hInv1 := inv_removeRunning hInv t.task_type t.task_id hsafe
        refine inv_processQueueForType hInv1 t.task_type ?_
        show (Function.update s.running_tasks t.task_type
          ((s.running_tasks t.task_type).erase t.task_id) t.task_type).length < _
        rw [Function.update_same]
        have h1 : ((s.running_tasks t.task_type).erase t.task_id).length =
            (s.running_tasks t.task_type).length - 1 := List.length_erase_of_mem hmem
        have h2 : 0 < (s.running_tasks t.task_type).length := List.length_pos_of_mem hmem
        have h3 := hInv.runningBound t.task_type
        show ((s.running_tasks t.task_type).erase t.task_id).length <
          s.concurrency_limits t.task_type
        omega
      · rw [if_neg hmem]
        exact hInv
    · rw [if_neg hdone]
      exact hInv

/-- One polling iteration of `_process_queues` preserves the invariant. -/
theorem inv_pollQueues {s : TMState} (hInv : Inv s) (τ : TaskType) :
    Inv (pollQueues s τ) := by
  rw [pollQueues]
  by_cases hc : (s.running_tasks τ).length < s.concurrency_limits τ
  · rw [if_pos hc]
    exact inv_processQueueForType hInv τ hc
  · rw [if_neg hc]
    exact hInv


/-- After `cancel_task` removes a queued id from its queue and renumbers, the
invariant holds except that the removed object (still `QUEUED` at this point)
is in no queue. -/
theorem invExcept_afterErase {s : TMState} (hInv : Inv s) {τ : TaskType}
    {rid : String} {o : Nat} {t : Task}
    (hmem : rid ∈ s.task_queues τ)
    (hd : dictGet s.tasks rid = some o) (hg : s.objs.get? o = some t) :
    InvExcept (renumberFrom (setQueue s τ ((s.task_queues τ).erase rid))
      ((s.task_queues τ).erase rid) 0) o := by
  set e := (s.task_queues τ).erase rid with he
  set s1 := setQueue s τ e with hs1
  set s2 := renumberFrom s1 e 0 with hs2
  obtain ⟨hfr_tasks, hfr_queues, hfr_running, hfr_limits, hfr_log, hfr_len⟩ :=
    renumberFrom_frame e 0 s1
  have hs2tasks : s2.tasks = s.tasks := hfr_tasks
  have hs2running : s2.running_tasks = s.running_tasks := hfr_running
  have hs2log : s2.startLog = s.startLog := hfr_log
  have hs2len : s2.objs.length = s.objs.length := hfr_len
  have hs2queues : ∀ τ', s2.task_queues τ' = if τ' = τ then e else s.task_queues τ' := by
    intro τ'
    rw [hfr_queues]
    show Function.update s.task_queues τ e τ' = _
    by_cases hτ : τ' = τ
    · rw [if_pos hτ, hτ, Function.update_same]
    · rw [if_neg hτ, Function.update_noteq hτ]
  have hsub : List.Sublist e (s.task_queues τ) := List.erase_sublist rid (s.task_queues τ)
  have henodup : e.Nodup := (hInv.queueNodup τ).erase rid
  have hridnot : rid ∉ e := (hInv.queueNodup τ).not_mem_erase
  have hqfacts : ∀ id' ∈ s.task_queues τ, ∃ o' t', dictGet s.tasks id' = some o' ∧
      s.objs.get? o' = some t' ∧ t'.status = .queued ∧ t'.task_type = τ := by
    intro id' hm
    rcases List.mem_iff_get?.mp hm with ⟨i, hi⟩
    obtain ⟨o', t', h1, h2, h3, h4, _⟩ := hInv.queueValid τ i id' hi
    exact ⟨o', t', h1, h2, h3, h4⟩
  have hinj : ∀ id1 id2, id1 ∈ e → id2 ∈ e → ∀ o', dictGet s1.tasks id1 = some o' →
      dictGet s1.tasks id2 = some o' → id1 = id2 := by
    intro id1 id2 _ _ o' h1 h2
    exact hInv.dictInj h1 h2
  have honotres : ∀ id' ∈ e, dictGet s1.tasks id' ≠ some o := by
    intro id' hm hcon
    have hide : id' = rid := hInv.dictInj hcon hd
    exact hridnot (hide ▸ hm)
  have hget2 : s2.objs.get? o = some t := by
    rw [hs2, renumberFrom_get_notin e 0 s1 o honotres]
    exact hg
  have hshape : ∀ m, s2.objs.get? m = s.objs.get? m ∨
      ∃ t' p, s.objs.get? m = some t' ∧
        s2.objs.get? m = some { t' with queue_position := some p } :=
    fun m => renumberFrom_objs_shape e 0 s1 m
  have hids : ∀ {m tm}, s2.objs.get? m = some tm → ∃ t0, s.objs.get? m = some t0 ∧
      tm.task_id = t0.task_id ∧ tm.task_type = t0.task_type ∧ tm.status = t0.status ∧
      tm.result = t0.result ∧ tm.error = t0.error ∧ tm.completed_at = t0.completed_at ∧
      tm.runPhase = t0.runPhase ∧ tm.cancelled = t0.cancelled := by
    intro m tm h
    rcases hshape m with heq | ⟨t', p, ht', hfin⟩
    · rw [heq] at h
      exact ⟨tm, h, rfl, rfl, rfl, rfl, rfl, rfl, rfl, rfl⟩
    · rw [hfin] at h
      injection h with h
      subst h
      exact ⟨t', ht', rfl, rfl, rfl, rfl, rfl, rfl, rfl, rfl⟩
  have hrenum : ∀ j id' o' t', e.get? j = some id' → dictGet s.tasks id' = some o' →
      s.objs.get? o' = some t' →
      s2.objs.get? o' = some { t' with queue_position := some (j + 1) } := by
    intro j id' o' t' hj hd' hg'
    have := renumberFrom_get_at e 0 s1 henodup hinj j id' o' t' hj hd' hg'
    rwa [Nat.zero_add] at this
  refine ⟨?_, ?_, ?_, ?_, ?_, ?_, ?_, ?_, ?_, ?_, ?_, ?_, ?_, ?_⟩
  · -- dictValid
    intro p hp
    have hp' : p ∈ s.tasks := by rwa [hs2tasks] at hp
    obtain ⟨tp, htp, hid⟩ := hInv.dictValid p hp'
    rcases hshape p.2 with heq | ⟨t', pp, ht', hfin⟩
    · exact ⟨tp, by rw [heq]; exact htp, hid⟩
    · rw [htp] at ht'
      injection ht' with ht'
      subst ht'
      exact ⟨{ tp with queue_position := some pp }, hfin, hid⟩
  · -- keysNodup
    rw [hs2tasks]
    exact hInv.keysNodup
  · -- idUnique
    intro i j ti tj hi hj hij
    obtain ⟨t0i, h0i, hidi, _, _, _, _, _, _, _⟩ := hids hi
    obtain ⟨t0j, h0j, hidj, _, _, _, _, _, _, _⟩ := hids hj
    exact hInv.idUnique i j t0i t0j h0i h0j (by rw [← hidi, ← hidj, hij])
  · -- objInv
    intro u hu
    rcases List.mem_iff_get?.mp hu with ⟨m, hm⟩
    obtain ⟨t0, h0, _, _, hst0, hr0, he0, hc0, hph0, hcn0⟩ := hids hm
    exact objInv_transfer hst0 hr0 he0 hc0 hph0 hcn0 (hInv.objInv t0 (List.get?_mem h0))
  · -- prInRunning
    intro p hp u hu hpr
    have hp' : p ∈ s.tasks := by rwa [hs2tasks] at hp
    obtain ⟨t0, h0, _, hty0, hst0, _, _, _, _, _⟩ := hids hu
    have hpr0 : t0.status = .pending ∨ t0.status = .running := by
      rcases hpr with h | h
      · exact Or.inl (by rw [← hst0, h])
      · exact Or.inr (by rw [← hst0, h])
    have := hInv.prInRunning p hp' t0 h0 hpr0
    rw [show s2.running_tasks u.task_type = s.running_tasks t0.task_type by
      rw [hs2running, hty0]]
    exact this
  · -- runningBound
    intro τ'
    rw [hs2running, hfr_limits]
    exact hInv.runningBound τ'
  · -- runningNodup
    intro τ'
    rw [hs2running]
    exact hInv.runningNodup τ'
  · -- queueValid
    intro τ' i id' hi
    rw [hs2queues] at hi
    by_cases hτ : τ' = τ
    · rw [if_pos hτ] at hi
      subst hτ
      have hm' : id' ∈ s.task_queues τ' := hsub.subset (List.get?_mem hi)
      obtain ⟨o', t', hd', hg', hst', hty'⟩ := hqfacts id' hm'
      refine ⟨o', { t' with queue_position := some (i + 1) }, ?_, ?_, ?_, ?_, rfl⟩
      · rw [hs2tasks]
        exact hd'
      · exact hrenum i id' o' t' hi hd' hg'
      · exact hst'
      · exact hty'
    · rw [if_neg hτ] at hi
      obtain ⟨o', t', hd', hg', hst', hty', hp'⟩ := hInv.queueValid τ' i id' hi
      have hnores : ∀ id'' ∈ e, dictGet s1.tasks id'' ≠ some o' := by
        intro id'' hm2 hcon
        have hide : id'' = id' := hInv.dictInj hcon hd'
        subst hide
        have hm3 : id'' ∈ s.task_queues τ := hsub.subset hm2
        obtain ⟨o3, t3, hd3, hg3, _, hty3⟩ := hqfacts id'' hm3
        rw [hd'] at hd3
        injection hd3 with hd3
        subst hd3
        rw [hg'] at hg3
        injection hg3 with hg3
        subst hg3
        rw [hty'] at hty3
        exact hτ hty3
      refine ⟨o', t', ?_, ?_, hst', hty', hp'⟩
      · rw [hs2tasks]
        exact hd'
      · rw [hs2, renumberFrom_get_notin e 0 s1 o' hnores]
        exact hg'
  · -- queuedInQueue, excepting the removed object
    intro p hp u hu hqu
    have hp' : p ∈ s.tasks := by rwa [hs2tasks] at hp
    obtain ⟨t0, h0, hid0, hty0, hst0, _, _, _, _, _⟩ := hids hu
    have hq0' : t0.status = .queued := by rw [← hst0, hqu]
    have hin := hInv.queuedInQueue p hp' t0 h0 hq0'
    rw [hs2queues, hty0]
    by_cases hτ : t0.task_type = τ
    · rw [if_pos hτ]
      rw [hτ] at hin
      by_cases hpe : p.1 = rid
      · right
        have hdp : dictGet s.tasks p.1 = some p.2 :=
          dictGet_of_mem_keysNodup hInv.keysNodup (by
            have hpp : p = (p.1, p.2) := rfl
            rw [← hpp]
            exact hp')
        rw [hpe, hd] at hdp
        injection hdp with hdp
        exact hdp.symm
      · left
        exact (List.mem_erase_of_ne hpe).mpr hin
    · rw [if_neg hτ]
      exact Or.inl hin
  · -- queueSorted
    intro τ'
    by_cases hτ : τ' = τ
    · subst hτ
      have heq : queueObjs s2 τ' = List.filterMap (dictGet s.tasks) e := by
        unfold queueObjs
        rw [hs2queues, if_pos rfl, hs2tasks]
      rw [heq]
      have hsubf : List.Sublist (List.filterMap (dictGet s.tasks) e) (queueObjs s τ') :=
        hsub.filterMap (dictGet s.tasks)
      exact (hInv.queueSorted τ').sublist hsubf
    · have heq : queueObjs s2 τ' = queueObjs s τ' := by
        unfold queueObjs
        rw [hs2queues, if_neg hτ, hs2tasks]
      rw [heq]
      exact hInv.queueSorted τ'
  · -- logSorted
    intro τ'
    rw [hs2log]
    exact hInv.logSorted τ'
  · -- logLtQueue
    intro τ' l hl q hq
    have hl' : l ∈ s.startLog τ' := by rwa [hs2log] at hl
    by_cases hτ : τ' = τ
    · subst hτ
      have heq : queueObjs s2 τ' = List.filterMap (dictGet s.tasks) e := by
        unfold queueObjs
        rw [hs2queues, if_pos rfl, hs2tasks]
      rw [heq] at hq
      have hsubf : List.Sublist (List.filterMap (dictGet s.tasks) e) (queueObjs s τ') :=
        hsub.filterMap (dictGet s.tasks)
      exact hInv.logLtQueue τ' l hl' q (hsubf.subset hq)
    · have heq : queueObjs s2 τ' = queueObjs s τ' := by
        unfold queueObjs
        rw [hs2queues, if_neg hτ, hs2tasks]
      rw [heq] at hq
      exact hInv.logLtQueue τ' l hl' q hq
  · -- queueLtLen
    intro τ' q hq
    rw [hs2len]
    by_cases hτ : τ' = τ
    · subst hτ
      have heq : queueObjs s2 τ' = List.filterMap (dictGet s.tasks) e := by
        unfold queueObjs
        rw [hs2queues, if_pos rfl, hs2tasks]
      rw [heq] at hq
      have hsubf : List.Sublist (List.filterMap (dictGet s.tasks) e) (queueObjs s τ') :=
        hsub.filterMap (dictGet s.tasks)
      exact hInv.queueLtLen τ' q (hsubf.subset hq)
    · have heq : queueObjs s2 τ' = queueObjs s τ' := by
        unfold queueObjs
        rw [hs2queues, if_neg hτ, hs2tasks]
      rw [heq] at hq
      exact hInv.queueLtLen τ' q hq
  · -- logLtLen
    intro τ' l hl
    rw [hs2len]
    have hl' : l ∈ s.startLog τ' := by rwa [hs2log] at hl
    exact hInv.logLtLen τ' l hl'

/-- Failing the excepted (queued, dequeued) object restores the full
invariant. -/
theorem inv_failExcepted {s : TMState} {o : Nat} {t : Task} (hX : InvExcept s o)
    (hget : s.objs.get? o = some t) (hq : t.status = .queued)
    (hnqueue : ∀ τ', t.task_id ∉ s.task_queues τ') (e : String) (c : Nat) :
    Inv (updateObj s o fun u =>
      { u with status := .failed, error := some e, completed_at := some c }) := by
  set f : Task → Task :=
    fun u => { u with status := .failed, error := some e, completed_at := some c } with hf
  have hoget : ∀ {m t'}, (updateObj s o f).objs.get? m = some t' →
      (o ≠ m ∧ s.objs.get? m = some t') ∨ (o = m ∧ t' = f t) := by
    intro m t' h
    rcases updateObj_get_cases f h with h1 | ⟨he2, u, hu, hv⟩
    · exact Or.inl h1
    · subst he2
      rw [hget] at hu
      injection hu with hu
      subst hu
      exact Or.inr ⟨rfl, hv⟩
  have hnewget : (updateObj s o f).objs.get? o = some (f t) := by
    rw [updateObj_objs_get, if_pos rfl, hget, Option.map_some']
  obtain ⟨h1q, _, _, _, _⟩ := hX.objInv t (List.get?_mem hget)
  obtain ⟨hr, herr, hco, hph, hcn⟩ := h1q hq
  refine ⟨?_, hX.keysNodup, ?_, ?_, ?_, hX.runningBound, hX.runningNodup, ?_, ?_,
    hX.queueSorted, hX.logSorted, hX.logLtQueue, ?_, ?_⟩
  · -- dictValid
    intro p hp
    obtain ⟨u, hu, hidp⟩ := hX.dictValid p hp
    by_cases ho : o = p.2
    · subst ho
      rw [hget] at hu
      injection hu with hu
      subst hu
      exact ⟨f t, hnewget, hidp⟩
    · refine ⟨u, ?_, hidp⟩
      rw [updateObj_objs_get, if_neg ho]
      exact hu
  · -- idUnique
    intro i j ti tj hi hj hij
    rcases hoget hi with ⟨_, hgi⟩ | ⟨ho1, hv1⟩ <;> rcases hoget hj with ⟨_, hgj⟩ | ⟨ho2, hv2⟩
    · exact hX.idUnique i j ti tj hgi hgj hij
    · subst ho2
      refine hX.idUnique i o ti t hgi hget ?_
      rw [hij, hv2]
    · subst ho1
      refine hX.idUnique o j t tj hget hgj ?_
      rw [← hij, hv1]
    · rw [← ho1, ← ho2]
  · -- objInv
    intro u hu
    rcases mem_modifyNth hu with hm | ⟨b, hb, hbe⟩
    · exact hX.objInv u hm
    · rw [hget] at hb
      injection hb with hb
      subst hb
      subst hbe
      refine ⟨?_, ?_, ?_, ?_, fun _ => ⟨hr, ⟨e, rfl⟩, ⟨c, rfl⟩, Or.inl hph⟩⟩ <;>
        · intro hcon
          exact nomatch hcon
  · -- prInRunning
    intro p hp u hu hpr
    rcases hoget hu with ⟨_, hgu⟩ | ⟨ho, hv⟩
    · exact hX.prInRunning p hp u hgu hpr
    · subst hv
      rcases hpr with hcon | hcon <;> exact nomatch hcon
  · -- queueValid
    intro τ' i id' hi
    obtain ⟨o', t', hd', hg', hst', hty', hp'⟩ := hX.queueValid τ' i id' hi
    have ho' : o ≠ o' := by
      intro hcon
      subst hcon
      rw [hget] at hg'
      injection hg' with hg'
      have : id' = t.task_id := by
        obtain ⟨tt, htt, hidt⟩ := hX.dictValid _ (dictGet_eq_some_mem hd')
        have htt2 : s.objs.get? o = some tt := htt
        rw [hget] at htt2
        injection htt2 with htt2
        have hidt2 : tt.task_id = id' := hidt
        rw [← hidt2, htt2]
      subst this
      exact hnqueue τ' (List.get?_mem hi)
    refine ⟨o', t', hd', ?_, hst', hty', hp'⟩
    rw [updateObj_objs_get, if_neg ho']
    exact hg'
  · -- queuedInQueue (now full)
    intro p hp u hu hqu
    rcases hoget hu with ⟨hne, hgu⟩ | ⟨ho, hv⟩
    · rcases hX.queuedInQueue p hp u hgu hqu with hin | ho2
      · exact hin
      · exact absurd ho2.symm hne
    · subst hv
      exact absurd hqu (fun hcon => nomatch hcon)
  · -- queueLtLen
    intro τ' q hq
    rw [updateObj_objs_length]
    exact hX.queueLtLen τ' q hq
  · -- logLtLen
    intro τ' l hl
    rw [updateObj_objs_length]
    exact hX.logLtLen τ' l hl

/-- `cancel_task` preserves the invariant. -/
theorem inv_cancelTask {s : TMState} (hInv : Inv s) (id : String) :
    Inv (cancelTask s id).2 := by
  cases hd : dictGet s.tasks id with
  | none =>
    simp only [cancelTask, hd]
    exact hInv
  | some o =>
    cases hg : s.objs.get? o with
    | none =>
      simp only [cancelTask, hd, hg]
      exact hInv
    | some t =>
      by_cases hq : t.status = .queued
      · by_cases hmem : id ∈ s.task_queues t.task_type
        · simp only [cancelTask, hd, hg, if_pos hq, if_pos hmem]
          have hX := invExcept_afterErase hInv hmem hd hg
          set e := (s.task_queues t.task_type).erase id with he
          have hqarg : (setQueue s t.task_type e).task_queues t.task_type = e := by
            rw [setQueue_queues, Function.update_same]
          rw [hqarg]
          set s2 := renumberFrom (setQueue s t.task_type e) e 0 with hs2
          obtain ⟨hfr_tasks, hfr_queues, _, _, _, _⟩ :=
            renumberFrom_frame e 0 (setQueue s t.task_type e)
          have htid : t.task_id = id := by
            obtain ⟨tt, htt, hidt⟩ := hInv.dictValid _ (dictGet_eq_some_mem hd)
            have htt2 : s.objs.get? o = some tt := htt
            rw [hg] at htt2
            injection htt2 with htt2
            rw [htt2]
            exact hidt
          have hqnodup := hInv.queueNodup t.task_type
          have honotres : ∀ id' ∈ e, dictGet (setQueue s t.task_type e).tasks id' ≠ some o := by
            intro id' hm hcon
            have hide : id' = id := hInv.dictInj hcon hd
            subst hide
            exact hqnodup.not_mem_erase hm
          have hget2 : s2.objs.get? o = some t := by
            rw [hs2, renumberFrom_get_notin e 0 _ o honotres]
            exact hg
          have hnq2 : ∀ τ', t.task_id ∉ s2.task_queues τ' := by
            intro τ' hm
            rw [hfr_queues] at hm
            by_cases hτ : τ' = t.task_type
            · subst hτ
              have hm2 : t.task_id ∈ e := by
                rwa [show (setQueue s t.task_type e).task_queues t.task_type = e by
                  rw [setQueue_queues, Function.update_same]] at hm
              rw [htid] at hm2
              exact hqnodup.not_mem_erase hm2
            · have hm2 : t.task_id ∈ s.task_queues τ' := by
                rwa [show (setQueue s t.task_type e).task_queues τ' = s.task_queues τ' by
                  rw [setQueue_queues, Function.update_noteq hτ]] at hm
              rcases List.mem_iff_get?.mp hm2 with ⟨j, hj⟩
              obtain ⟨o3, t3, hd3, hg3, _, hty3, _⟩ := hInv.queueValid τ' j t.task_id hj
              rw [htid, hd] at hd3
              injection hd3 with hd3
              subst hd3
              rw [hg] at hg3
              injection hg3 with hg3
              subst hg3
              exact hτ hty3.symm
          exact inv_failExcepted hX hget2 hq hnq2 _ _
        · simp only [cancelTask, hd, hg, if_pos hq, if_neg hmem]
          exact hInv
      · by_cases hrun : t.runPhase ≠ 0 ∧ t.runPhase ≠ 3 ∧ ¬ t.cancelled
        · simp only [cancelTask, hd, hg, if_neg hq, if_pos hrun]
          have hobj := hInv.objInv t (List.get?_mem hg)
          have hcf : t.cancelled = false := by
            cases hcc : t.cancelled
            · rfl
            · exact absurd hcc (by simpa using hrun.2.2)
          have hPR : t.status = .pending ∨ t.status = .running := by
            obtain ⟨h1, h2, h3, h4, h5⟩ := hobj
            cases hs0 : t.status
            · exact absurd hs0 hq
            · exact Or.inl rfl
            · exact Or.inr rfl
            · obtain ⟨_, _, _, hph, _⟩ := h4 hs0
              exact absurd hph hrun.2.1
            · obtain ⟨_, _, _, hph⟩ := h5 hs0
              rcases hph with hph | hph | hph
              · exact absurd hph hrun.1
              · exact absurd hph hrun.2.1
              · rw [hcf] at hph
                exact absurd hph (by decide)
          have hresnone : t.result = none ∧ t.error = none := by
            obtain ⟨_, h2, h3, _, _⟩ := hobj
            rcases hPR with hp2 | hp2
            · obtain ⟨hr2, he2, _, _, _⟩ := h2 hp2
              exact ⟨hr2, he2⟩
            · obtain ⟨hr2, he2, _, _, _⟩ := h3 hp2
              exact ⟨hr2, he2⟩
          have hInv1 : Inv (updateObj s o fun u =>
              { u with cancelled := true, status := .failed, error := some "Task was cancelled", completed_at := some s.time }) := by
            refine inv_updateObj_nonqueue hInv hg hq rfl rfl ?_
              (fun hcon => by rcases hcon with hcon | hcon <;> exact nomatch hcon)
              (fun hcon => nomatch hcon)
            refine ⟨?_, ?_, ?_, ?_,
              fun _ => ⟨hresnone.1, ⟨_, rfl⟩, ⟨_, rfl⟩, Or.inr (Or.inr rfl)⟩⟩ <;>
              · intro hcon
                exact nomatch hcon
          set s1 := updateObj s o fun u =>
            { u with cancelled := true, status := .failed, error := some "Task was cancelled", completed_at := some s.time } with hs1x
          by_cases hmem2 : id ∈ s1.running_tasks t.task_type
          · rw [if_pos hmem2]
            refine inv_removeRunning hInv1 t.task_type id ?_
            intro o' t' hd' hg'
            have hd'' : dictGet s.tasks id = some o' := hd'
            rw [hd] at hd''
            injection hd'' with hd''
            subst hd''
            have hg'' : s1.objs.get? o = some t' := hg'
            rw [hs1x, updateObj_objs_get, if_pos rfl, hg, Option.map_some'] at hg''
            injection hg'' with hg''
            subst hg''
            intro hcon
            rcases hcon with hcon | hcon <;> exact nomatch hcon
          · rw [if_neg hmem2]
            exact hInv1
        · simp only [cancelTask, hd, hg, if_neg hq, if_neg hrun]
          exact hInv

/-- `_cancel_queued_task`-style marking inside `cancel_all_tasks` touches only
the object store. -/
theorem failQueueEntry_frame (s : TMState) (id : String) :
    (failQueueEntry s id).tasks = s.tasks ∧
    (failQueueEntry s id).task_queues = s.task_queues ∧
    (failQueueEntry s id).running_tasks = s.running_tasks ∧
    (failQueueEntry s id).concurrency_limits = s.concurrency_limits ∧
    (failQueueEntry s id).startLog = s.startLog ∧
    (failQueueEntry s id).time = s.time ∧
    (failQueueEntry s id).objs.length = s.objs.length := by
  cases hd : dictGet s.tasks id with
  | none =>
    have he : failQueueEntry s id = s := by simp only [failQueueEntry, hd]
    rw [he]
    exact ⟨rfl, rfl, rfl, rfl, rfl, rfl, rfl⟩
  | some o =>
    have he : failQueueEntry s id = updateObj s o fun u => { u with status := .failed, error := some "Task was cancelled during shutdown", completed_at := some s.time } := by
      simp only [failQueueEntry, hd]
    rw [he]
    exact ⟨rfl, rfl, rfl, rfl, rfl, rfl, updateObj_objs_length s o _⟩

/-- Marking one queue entry failed leaves every object unchanged except the
entry's resolution, which is failed with the shutdown message. -/
theorem failQueueEntry_shape (s : TMState) (id : String) (m : Nat) :
    (failQueueEntry s id).objs.get? m = s.objs.get? m ∨
    ∃ t, s.objs.get? m = some t ∧ dictGet s.tasks id = some m ∧
      (failQueueEntry s id).objs.get? m = some { t with status := .failed, error := some "Task was cancelled during shutdown", completed_at := some s.time } := by
  cases hd : dictGet s.tasks id with
  | none =>
    simp only [failQueueEntry, hd]
    exact Or.inl trivial
  | some o =>
    simp only [failQueueEntry, hd]
    by_cases ho : o = m
    · subst ho
      cases hg : s.objs.get? o with
      | none =>
        left
        rw [updateObj_objs_get, if_pos rfl, hg]
        rfl
      | some t =>
        right
        refine ⟨t, rfl, rfl, ?_⟩
        rw [updateObj_objs_get, if_pos rfl, hg]
        rfl
    · left
      rw [updateObj_objs_get, if_neg ho]

/-- The marking fold of `cancel_all_tasks` touches only the object store. -/
theorem foldl_failQueue_frame : ∀ (l : List String) (s : TMState),
    (l.foldl failQueueEntry s).tasks = s.tasks ∧
    (l.foldl failQueueEntry s).task_queues = s.task_queues ∧
    (l.foldl failQueueEntry s).running_tasks = s.running_tasks ∧
    (l.foldl failQueueEntry s).concurrency_limits = s.concurrency_limits ∧
    (l.foldl failQueueEntry s).startLog = s.startLog ∧
    (l.foldl failQueueEntry s).time = s.time ∧
    (l.foldl failQueueEntry s).objs.length = s.objs.length := by
  intro l
  induction l with
  | nil =>
    intro s
    exact ⟨rfl, rfl, rfl, rfl, rfl, rfl, rfl⟩
  | cons x rest ih =>
    intro s
    rw [List.foldl_cons]
    obtain ⟨f1, f2, f3, f4, f5, f6, f7⟩ := failQueueEntry_frame s x
    obtain ⟨g1, g2, g3, g4, g5, g6, g7⟩ := ih (failQueueEntry s x)
    exact ⟨g1.trans f1, g2.trans f2, g3.trans f3, g4.trans f4, g5.trans f5,
      g6.trans f6, g7.trans f7⟩

/-- After the marking fold every object is either unchanged or the failed
version of a resolution of one of the folded ids. -/
theorem foldl_failQueue_shape : ∀ (l : List String) (s : TMState) (m : Nat),
    (l.foldl failQueueEntry s).objs.get? m = s.objs.get? m ∨
    ∃ t, s.objs.get? m = some t ∧ (∃ id ∈ l, dictGet s.tasks id = some m) ∧
      (l.foldl failQueueEntry s).objs.get? m = some { t with status := .failed, error := some "Task was cancelled during shutdown", completed_at := some s.time } := by
  intro l
  induction l with
  | nil =>
    intro s m
    exact Or.inl rfl
  | cons x rest ih =>
    intro s m
    rw [List.foldl_cons]
    obtain ⟨ftasks, _, _, _, _, ftime, _⟩ := failQueueEntry_frame s x
    rcases ih (failQueueEntry s x) m with h1 | ⟨t, ht, ⟨id0, hid0, hd0⟩, hfin⟩
    · rcases failQueueEntry_shape s x m with h2 | ⟨t2, ht2, hd2, hfin2⟩
      · exact Or.inl (h1.trans h2)
      · right
        refine ⟨t2, ht2, ⟨x, List.mem_cons_self _ _, hd2⟩, ?_⟩
        rw [h1, hfin2]
    · rw [ftime] at hfin
      rw [ftasks] at hd0
      rcases failQueueEntry_shape s x m with h2 | ⟨t2, ht2, hd2, hfin2⟩
      · rw [h2] at ht
        right
        exact ⟨t, ht, ⟨id0, List.mem_cons_of_mem _ hid0, hd0⟩, hfin⟩
      · right
        rw [hfin2] at ht
        injection ht with ht
        subst ht
        refine ⟨t2, ht2, ⟨id0, List.mem_cons_of_mem _ hid0, hd0⟩, ?_⟩
        rw [hfin]

/-- Every id covered by the marking fold resolves (if at all) to a failed
object afterwards. -/
theorem foldl_failQueue_marks : ∀ (l : List String) (s : TMState) (id : String) (o : Nat),
    id ∈ l → dictGet s.tasks id = some o →
    ∀ t', (l.foldl failQueueEntry s).objs.get? o = some t' → t'.status = .failed := by
  intro l
  induction l with
  | nil =>
    intro s id o hmem
    exact absurd hmem (List.not_mem_nil id)
  | cons x rest ih =>
    intro s id o hmem hd t' hget
    rw [List.foldl_cons] at hget
    rcases List.mem_cons.mp hmem with hx | hrest
    · subst hx
      have hupd : ∀ u, (failQueueEntry s id).objs.get? o = some u → u.status = .failed := by
        intro u hu
        simp only [failQueueEntry, hd] at hu
        rw [updateObj_objs_get, if_pos rfl] at hu
        cases hg : s.objs.get? o with
        | none =>
          rw [hg] at hu
          exact nomatch hu
        | some t0 =>
          rw [hg, Option.map_some'] at hu
          injection hu with hu
          rw [← hu]
      rcases foldl_failQueue_shape rest (failQueueEntry s id) o with h1 | ⟨t, ht, _, hfin⟩
      · rw [h1] at hget
        exact hupd t' hget
      · rw [hfin] at hget
        injection hget with hget
        rw [← hget]
    · refine ih (failQueueEntry s x) id o hrest ?_ t' hget
      obtain ⟨ftasks, _⟩ := failQueueEntry_frame s x
      rw [ftasks]
      exact hd

/-- The queue-clearing phase of `cancel_all_tasks` for one type preserves the
invariant: every entry of the type's queue is marked failed, then the queue is
cleared. -/
theorem inv_mark {s : TMState} (hInv : Inv s) (τ : TaskType) :
    Inv (setQueue ((s.task_queues τ).foldl failQueueEntry s) τ []) := by
  set S := (s.task_queues τ).foldl failQueueEntry s with hS
  obtain ⟨ftasks, fqueues, frunning, flimits, flog, ftime, flen⟩ :=
    foldl_failQueue_frame (s.task_queues τ) s
  have hqueues : ∀ τ', (setQueue S τ []).task_queues τ' =
      if τ' = τ then [] else s.task_queues τ' := by
    intro τ'
    rw [setQueue_queues]
    by_cases hτ : τ' = τ
    · rw [if_pos hτ, hτ, Function.update_same]
    · rw [if_neg hτ, Function.update_noteq hτ, fqueues]
  have hshape : ∀ m, S.objs.get? m = s.objs.get? m ∨
      ∃ t, s.objs.get? m = some t ∧ (∃ id ∈ s.task_queues τ, dictGet s.tasks id = some m) ∧
        S.objs.get? m = some { t with status := .failed, error := some "Task was cancelled during shutdown", completed_at := some s.time } :=
    fun m => foldl_failQueue_shape (s.task_queues τ) s m
  have hresq : ∀ {id m}, id ∈ s.task_queues τ → dictGet s.tasks id = some m →
      ∃ t, s.objs.get? m = some t ∧ t.status = .queued ∧ t.task_type = τ := by
    intro id m hmem hd
    rcases List.mem_iff_get?.mp hmem with ⟨i, hi⟩
    obtain ⟨o2, t2, hd2, hg2, hst2, hty2, _⟩ := hInv.queueValid τ i id hi
    rw [hd] at hd2
    injection hd2 with hd2
    subst hd2
    exact ⟨t2, hg2, hst2, hty2⟩
  have hids : ∀ {m tm}, S.objs.get? m = some tm →
      ∃ t0, s.objs.get? m = some t0 ∧ tm.task_id = t0.task_id := by
    intro m tm h
    rcases hshape m with h1 | ⟨t0, ht0, _, hfin⟩
    · rw [h1] at h
      exact ⟨tm, h, rfl⟩
    · rw [hfin] at h
      injection h with h
      subst h
      exact ⟨t0, ht0, rfl⟩
  have hqobjs : ∀ τ', queueObjs (setQueue S τ []) τ' =
      (if τ' = τ then [] else s.task_queues τ').filterMap (dictGet s.tasks) := by
    intro τ'
    unfold queueObjs
    rw [hqueues, setQueue_tasks, ftasks]
  refine ⟨?_, ?_, ?_, ?_, ?_, ?_, ?_, ?_, ?_, ?_, ?_, ?_, ?_, ?_⟩
  · -- dictValid
    intro p hp
    rw [setQueue_tasks, ftasks] at hp
    obtain ⟨t, hg, hid⟩ := hInv.dictValid p hp
    rw [setQueue_objs]
    rcases hshape p.2 with h1 | ⟨t0, ht0, _, hfin⟩
    · refine ⟨t, ?_, hid⟩
      rw [h1]
      exact hg
    · rw [hg] at ht0
      injection ht0 with ht0
      subst ht0
      exact ⟨_, hfin, hid⟩
  · -- keysNodup
    rw [setQueue_tasks, ftasks]
    exact hInv.keysNodup
  · -- idUnique
    intro i j ti tj hi hj hij
    rw [setQueue_objs] at hi hj
    obtain ⟨t0i, h0i, hidi⟩ := hids hi
    obtain ⟨t0j, h0j, hidj⟩ := hids hj
    exact hInv.idUnique i j t0i t0j h0i h0j (by rw [← hidi, ← hidj, hij])
  · -- objInv
    intro u hu
    rw [setQueue_objs] at hu
    rcases List.mem_iff_get?.mp hu with ⟨m, hm⟩
    rcases hshape m with h1 | ⟨t0, ht0, ⟨id0, hid0, hd0⟩, hfin⟩
    · rw [h1] at hm
      exact hInv.objInv u (List.get?_mem hm)
    · rw [hfin] at hm
      injection hm with hm
      subst hm
      obtain ⟨t1, hg1, hst1, _⟩ := hresq hid0 hd0
      rw [ht0] at hg1
      injection hg1 with hg1
      subst hg1
      obtain ⟨hq1, _, _, _, _⟩ := hInv.objInv t0 (List.get?_mem ht0)
      obtain ⟨hr0, _, _, hph0, _⟩ := hq1 hst1
      refine ⟨?_, ?_, ?_, ?_, fun _ => ⟨hr0, ⟨_, rfl⟩, ⟨_, rfl⟩, Or.inl hph0⟩⟩ <;>
        · intro hcon
          exact nomatch hcon
  · -- prInRunning
    intro p hp u hu hpr
    rw [setQueue_tasks, ftasks] at hp
    rw [setQueue_objs] at hu
    rw [setQueue_running, frunning]
    rcases hshape p.2 with h1 | ⟨t0, ht0, _, hfin⟩
    · rw [h1] at hu
      exact hInv.prInRunning p hp u hu hpr
    · rw [hfin] at hu
      injection hu with hu
      subst hu
      rcases hpr with hcon | hcon <;> exact nomatch hcon
  · -- runningBound
    intro τ'
    rw [setQueue_running, frunning, setQueue_limits, flimits]
    exact hInv.runningBound τ'
  · -- runningNodup
    intro τ'
    rw [setQueue_running, frunning]
    exact hInv.runningNodup τ'
  · -- queueValid
    intro τ' i id hi
    rw [hqueues] at hi
    by_cases hτ : τ' = τ
    · rw [if_pos hτ] at hi
      cases i <;> exact nomatch hi
    · rw [if_neg hτ] at hi
      obtain ⟨o, t, hd, hg, hst, hty, hp⟩ := hInv.queueValid τ' i id hi
      refine ⟨o, t, ?_, ?_, hst, hty, hp⟩
      · rw [setQueue_tasks, ftasks]
        exact hd
      · rw [setQueue_objs]
        rcases hshape o with h1 | ⟨t0, ht0, ⟨id0, hid0, hd0⟩, hfin⟩
        · rw [h1]
          exact hg
        · obtain ⟨t1, hg1, hst1, hty1⟩ := hresq hid0 hd0
          rw [ht0] at hg1
          injection hg1 with hg1
          subst hg1
          rw [hg] at ht0
          injection ht0 with ht0
          subst ht0
          rw [hty] at hty1
          exact absurd hty1 hτ
  · -- queuedInQueue
    intro p hp u hu hqu
    rw [setQueue_tasks, ftasks] at hp
    rw [setQueue_objs] at hu
    rcases hshape p.2 with h1 | ⟨t0, ht0, _, hfin⟩
    · have hu0 : s.objs.get? p.2 = some u := by
        rw [← h1]
        exact hu
      have hin := hInv.queuedInQueue p hp u hu0 hqu
      rw [hqueues]
      by_cases hτ : u.task_type = τ
      · rw [if_pos hτ]
        exfalso
        rw [hτ] at hin
        have hdp : dictGet s.tasks p.1 = some p.2 :=
          dictGet_of_mem_keysNodup hInv.keysNodup (by
            have hpp : p = (p.1, p.2) := rfl
            rw [← hpp]
            exact hp)
        have hfail := foldl_failQueue_marks (s.task_queues τ) s p.1 p.2 hin hdp u hu
        rw [hqu] at hfail
        exact nomatch hfail
      · rw [if_neg hτ]
        exact hin
    · rw [hfin] at hu
      injection hu with hu
      subst hu
      exact absurd hqu (fun hcon => nomatch hcon)
  · -- queueSorted
    intro τ'
    rw [hqobjs]
    by_cases hτ : τ' = τ
    · rw [if_pos hτ]
      exact List.Pairwise.nil
    · rw [if_neg hτ]
      exact hInv.queueSorted τ'
  · -- logSorted
    intro τ'
    rw [setQueue_startLog, flog]
    exact hInv.logSorted τ'
  · -- logLtQueue
    intro τ' l hl q hq
    rw [setQueue_startLog, flog] at hl
    rw [hqobjs] at hq
    by_cases hτ : τ' = τ
    · rw [if_pos hτ] at hq
      exact absurd hq (List.not_mem_nil q)
    · rw [if_neg hτ] at hq
      exact hInv.logLtQueue τ' l hl q hq
  · -- queueLtLen
    intro τ' q hq
    rw [setQueue_objs, flen]
    rw [hqobjs] at hq
    by_cases hτ : τ' = τ
    · rw [if_pos hτ] at hq
      exact absurd hq (List.not_mem_nil q)
    · rw [if_neg hτ] at hq
      exact hInv.queueLtLen τ' q hq
  · -- logLtLen
    intro τ' l hl
    rw [setQueue_startLog, flog] at hl
    rw [setQueue_objs, flen]
    exact hInv.logLtLen τ' l hl

/-- Cancelling a list of ids one after another preserves the invariant. -/
theorem inv_cancelFold : ∀ (l : List String) {s : TMState}, Inv s →
    Inv (l.foldl (fun st id => (cancelTask st id).2) s) := by
  intro l
  induction l with
  | nil =>
    intro s h
    exact h
  | cons x rest ih =>
    intro s h
    rw [List.foldl_cons]
    exact ih (inv_cancelTask h x)

/-- `cancel_all_tasks` preserves the invariant. -/
theorem inv_cancelAllTasks {s : TMState} (hInv : Inv s) : Inv (cancelAllTasks s) :=
  inv_cancelFold _ (inv_mark (inv_mark (inv_mark hInv .transcription) .report) .default)

/-- `_cleanup_old_tasks` preserves the invariant: only dictionary entries whose
task completed before the retention window are dropped, and queued entries
(whose `completed_at` is unset) all survive. -/
theorem inv_cleanupOldTasks {s : TMState} (hInv : Inv s) : Inv (cleanupOldTasks s) := by
  have hmemt : ∀ {p : String × Nat}, p ∈ (cleanupOldTasks s).tasks → p ∈ s.tasks :=
    fun hp => List.mem_of_mem_filter hp
  have hsurv : ∀ {id o t}, dictGet s.tasks id = some o → s.objs.get? o = some t →
      t.completed_at = none → dictGet (cleanupOldTasks s).tasks id = some o := by
    intro id o t hd hg hco
    refine dictGet_filter hd ?_
    simp only [hg, hco]
  have hqueues : (cleanupOldTasks s).task_queues = s.task_queues := rfl
  have hqobjs : ∀ τ, queueObjs (cleanupOldTasks s) τ = queueObjs s τ := by
    intro τ
    unfold queueObjs
    rw [hqueues]
    refine filterMap_congr' ?_
    intro id hid
    rcases List.mem_iff_get?.mp hid with ⟨i, hi⟩
    obtain ⟨o, t, hd, hg, hst, _, _⟩ := hInv.queueValid τ i id hi
    obtain ⟨hq1, _, _, _, _⟩ := hInv.objInv t (List.get?_mem hg)
    obtain ⟨_, _, hco, _, _⟩ := hq1 hst
    rw [hsurv hd hg hco, hd]
  refine ⟨?_, ?_, ?_, ?_, ?_, ?_, ?_, ?_, ?_, ?_, ?_, ?_, ?_, ?_⟩
  · intro p hp
    exact hInv.dictValid p (hmemt hp)
  · exact hInv.keysNodup.sublist ((List.filter_sublist _).map Prod.fst)
  · intro i j ti tj hi hj hij
    exact hInv.idUnique i j ti tj hi hj hij
  · exact hInv.objInv
  · intro p hp u hu hpr
    exact hInv.prInRunning p (hmemt hp) u hu hpr
  · exact hInv.runningBound
  · exact hInv.runningNodup
  · intro τ i id hi
    obtain ⟨o, t, hd, hg, hst, hty, hp⟩ := hInv.queueValid τ i id hi
    obtain ⟨hq1, _, _, _, _⟩ := hInv.objInv t (List.get?_mem hg)
    obtain ⟨_, _, hco, _, _⟩ := hq1 hst
    exact ⟨o, t, hsurv hd hg hco, hg, hst, hty, hp⟩
  · intro p hp u hu hqu
    exact hInv.queuedInQueue p (hmemt hp) u hu hqu
  · intro τ
    rw [hqobjs]
    exact hInv.queueSorted τ
  · exact hInv.logSorted
  · intro τ l hl q hq
    rw [hqobjs] at hq
    exact hInv.logLtQueue τ l hl q hq
  · intro τ q hq
    rw [hqobjs] at hq
    exact hInv.queueLtLen τ q hq
  · exact hInv.logLtLen

/-- The invariant does not mention the logical clock. -/
theorem inv_setTime {s : TMState} (hInv : Inv s) (c : Nat) : Inv { s with time := c } := by
  obtain ⟨h1, h2, h3, h4, h5, h6, h7, h8, h9, h10, h11, h12, h13, h14⟩ := hInv
  exact ⟨h1, h2, h3, h4, h5, h6, h7, h8, h9, h10, h11, h12, h13, h14⟩

/-- The freshly constructed manager satisfies the invariant. -/
theorem inv_init (L : TaskType → Nat) (R : Nat) : Inv (initTM L R) := by
  refine ⟨?_, ?_, ?_, ?_, ?_, ?_, ?_, ?_, ?_, ?_, ?_, ?_, ?_, ?_⟩
  · intro p hp
    exact absurd hp (List.not_mem_nil p)
  · exact List.nodup_nil
  · intro i j ti tj hi _ _
    cases i <;> exact nomatch hi
  · intro t ht
    exact absurd ht (List.not_mem_nil t)
  · intro p hp
    exact absurd hp (List.not_mem_nil p)
  · intro τ
    exact Nat.zero_le _
  · intro τ
    exact List.nodup_nil
  · intro τ i id hi
    cases i <;> exact nomatch hi
  · intro p hp
    exact absurd hp (List.not_mem_nil p)
  · intro τ
    exact List.Pairwise.nil
  · intro τ
    exact List.Pairwise.nil
  · intro τ l hl
    exact absurd hl (List.not_mem_nil l)
  · intro τ q hq
    exact absurd hq (List.not_mem_nil q)
  · intro τ l hl
    exact absurd hl (List.not_mem_nil l)

/-- Every atomic step under the unique-identity discipline preserves the
invariant. -/
theorem inv_stepAct {s : TMState} (hInv : Inv s) (a : Act) (hf : FreshOk s a) :
    Inv (stepAct s a) := by
  cases a with
  | addTask id τ => exact inv_setTime (inv_addTask_fresh hInv hf) _
  | beginRun o => exact inv_setTime (inv_beginRun hInv o) _
  | finishRun o out => exact inv_setTime (inv_finishRun hInv o out) _
  | handleCompletion o => exact inv_setTime (inv_handleTaskCompletion hInv o) _
  | poll τ => exact inv_setTime (inv_pollQueues hInv τ) _
  | cancelTask id => exact inv_setTime (inv_cancelTask hInv id) _
  | cancelAll => exact inv_setTime (inv_cancelAllTasks hInv) _
  | cleanup => exact inv_setTime (inv_cleanupOldTasks hInv) _

/-- Every state of the category-concurrency manager reachable under the
spec's unique-task-identity discipline satisfies the invariant. -/
theorem freshReach_inv {L : TaskType → Nat} {R : Nat} {s : TMState}
    (h : FreshReach L R s) : Inv s := by
  induction h with
  | init => exact inv_init L R
  | step a hf _ ih => exact inv_stepAct ih a hf

/-! ## The configured limits are never mutated -/

theorem startTask_limits (s : TMState) (o : Nat) :
    (startTask s o).concurrency_limits = s.concurrency_limits := by
  cases hg : s.objs.get? o with
  | none => simp only [startTask, hg]
  | some t => simp only [startTask, hg, setRunning_limits, updateObj_limits]

theorem addTask_limits (s : TMState) (id : String) (τ : TaskType) :
    (addTask s id τ).concurrency_limits = s.concurrency_limits := by
  simp only [addTask]
  by_cases hlt : ((addBase s id τ).running_tasks τ).length < (addBase s id τ).concurrency_limits τ
  · rw [if_pos hlt, startTask_limits]
    rfl
  · rw [if_neg hlt]
    rfl

theorem processQueueForType_limits (s : TMState) (τ : TaskType) :
    (processQueueForType s τ).concurrency_limits = s.concurrency_limits := by
  cases hq : s.task_queues τ with
  | nil => simp only [processQueueForType, hq]
  | cons next rest =>
    cases hd : dictGet (setQueue s τ rest).tasks next with
    | none =>
      simp only [processQueueForType, hq, hd]
      rfl
    | some o =>
      cases hg : (setQueue s τ rest).objs.get? o with
      | none =>
        simp only [processQueueForType, hq, hd, hg]
        rfl
      | some t =>
        by_cases hst : t.status = .queued
        · simp only [processQueueForType, hq, hd, hg, if_pos hst]
          show (pushLog (startTask (renumberFrom (setQueue s τ rest) rest 0) o) τ o).concurrency_limits = s.concurrency_limits
          have h1 : (pushLog (startTask (renumberFrom (setQueue s τ rest) rest 0) o) τ o).concurrency_limits = (startTask (renumberFrom (setQueue s τ rest) rest 0) o).concurrency_limits := rfl
          rw [h1, startTask_limits]
          obtain ⟨_, _, _, hlim, _, _⟩ := renumberFrom_frame rest 0 (setQueue s τ rest)
          rw [hlim]
          rfl
        · simp only [processQueueForType, hq, hd, hg, if_neg hst]
          rfl

theorem pollQueues_limits (s : TMState) (τ : TaskType) :
    (pollQueues s τ).concurrency_limits = s.concurrency_limits := by
  rw [pollQueues]
  by_cases hlt : (s.running_tasks τ).length < s.concurrency_limits τ
  · rw [if_pos hlt, processQueueForType_limits]
  · rw [if_neg hlt]

theorem handleTaskCompletion_limits (s : TMState) (o : Nat) :
    (handleTaskCompletion s o).concurrency_limits = s.concurrency_limits := by
  cases hg : s.objs.get? o with
  | none => simp only [handleTaskCompletion, hg]
  | some t =>
    by_cases hdone : t.runPhase = 3 ∨ t.cancelled
    · by_cases hmem : t.task_id ∈ s.running_tasks t.task_type
      · simp only [handleTaskCompletion, hg, if_pos hdone, if_pos hmem]
        rw [processQueueForType_limits]
        rfl
      · simp only [handleTaskCompletion, hg, if_pos hdone, if_neg hmem]
    · simp only [handleTaskCompletion, hg, if_neg hdone]

theorem beginRun_limits (s : TMState) (o : Nat) :
    (beginRun s o).concurrency_limits = s.concurrency_limits := by
  cases hg : s.objs.get? o with
  | none => simp only [beginRun, hg]
  | some t =>
    by_cases hc : t.runPhase = 1 ∧ ¬ t.cancelled
    · simp only [beginRun, hg, if_pos hc, updateObj_limits]
    · simp only [beginRun, hg, if_neg hc]

theorem finishRun_limits (s : TMState) (o : Nat) (out : Except String Nat) :
    (finishRun s o out).concurrency_limits = s.concurrency_limits := by
  cases hg : s.objs.get? o with
  | none => simp only [finishRun, hg]
  | some t =>
    by_cases hc : t.runPhase = 2 ∧ ¬ t.cancelled
    · cases out with
      | ok v => simp only [finishRun, hg, if_pos hc, updateObj_limits]
      | error e => simp only [finishRun, hg, if_pos hc, updateObj_limits]
    · simp only [finishRun, hg, if_neg hc]

theorem cancelTask_limits (s : TMState) (id : String) :
    ((cancelTask s id).2).concurrency_limits = s.concurrency_limits := by
  cases hd : dictGet s.tasks id with
  | none => simp only [cancelTask, hd]
  | some o =>
    cases hg : s.objs.get? o with
    | none => simp only [cancelTask, hd, hg]
    | some t =>
      by_cases hst : t.status = .queued
      · by_cases hmem : id ∈ s.task_queues t.task_type
        · simp only [cancelTask, hd, hg, if_pos hst, if_pos hmem]
          rw [updateObj_limits]
          obtain ⟨_, _, _, hlim, _, _⟩ := renumberFrom_frame
            ((setQueue s t.task_type ((s.task_queues t.task_type).erase id)).task_queues t.task_type) 0
            (setQueue s t.task_type ((s.task_queues t.task_type).erase id))
          rw [hlim]
          rfl
        · simp only [cancelTask, hd, hg, if_pos hst, if_neg hmem]
      · by_cases hrun : t.runPhase ≠ 0 ∧ t.runPhase ≠ 3 ∧ ¬ t.cancelled
        · simp only [cancelTask, hd, hg, if_neg hst, if_pos hrun]
          by_cases hmem2 : id ∈ (updateObj s o fun u => { u with cancelled := true, status := .failed, error := some "Task was cancelled", completed_at := some s.time }).running_tasks t.task_type
          · rw [if_pos hmem2]
            rfl
          · rw [if_neg hmem2]
            rfl
        · simp only [cancelTask, hd, hg, if_neg hst, if_neg hrun]

theorem cancelFold_limits : ∀ (l : List String) (s : TMState),
    ((l.foldl (fun st id => (cancelTask st id).2) s)).concurrency_limits = s.concurrency_limits := by
  intro l
  induction l with
  | nil => intro s; rfl
  | cons x rest ih =>
    intro s
    rw [List.foldl_cons, ih, cancelTask_limits]

theorem cancelAllTasks_limits (s : TMState) :
    (cancelAllTasks s).concurrency_limits = s.concurrency_limits := by
  show ((_ : List String).foldl (fun st id => (cancelTask st id).2) _).concurrency_limits = _
  rw [cancelFold_limits]
  rw [setQueue_limits]
  obtain ⟨_, _, _, hl3, _, _, _⟩ := foldl_failQueue_frame _
    (setQueue ((((setQueue (((s.task_queues .transcription).foldl failQueueEntry s)) .transcription []).task_queues .report).foldl failQueueEntry (setQueue (((s.task_queues .transcription).foldl failQueueEntry s)) .transcription []))) .report [])
  rw [hl3, setQueue_limits]
  obtain ⟨_, _, _, hl2, _, _, _⟩ := foldl_failQueue_frame _
    (setQueue (((s.task_queues .transcription).foldl failQueueEntry s)) .transcription [])
  rw [hl2, setQueue_limits]
  obtain ⟨_, _, _, hl1, _, _, _⟩ := foldl_failQueue_frame (s.task_queues .transcription) s
  rw [hl1]

theorem stepAct_limits (s : TMState) (a : Act) :
    (stepAct s a).concurrency_limits = s.concurrency_limits := by
  cases a with
  | addTask id τ => exact addTask_limits s id τ
  | beginRun o => exact beginRun_limits s o
  | finishRun o out => exact finishRun_limits s o out
  | handleCompletion o => exact handleTaskCompletion_limits s o
  | poll τ => exact pollQueues_limits s τ
  | cancelTask id => exact cancelTask_limits s id
  | cancelAll => exact cancelAllTasks_limits s
  | cleanup => rfl

/-- The configured per-type limits are those of `__init__`, forever. -/
theorem limits_of_freshReach {L : TaskType → Nat} {R : Nat} {s : TMState}
    (h : FreshReach L R s) : s.concurrency_limits = L := by
  induction h with
  | init => rfl
  | step a _ _ ih => rw [stepAct_limits]; exact ih

end Backend

namespace Backend

/-! ## Claims about the category-concurrency manager -/

/-- C1: for every category `τ` with configured concurrency limit `L τ`, at
every observable instant (every reachable state under the spec's unique-id
discipline) the number of stored tasks of that category in status `PENDING` or
`RUNNING` is at most `L τ`. -/
theorem C1_concurrency_ceiling {L : TaskType → Nat} {R : Nat} {s : TMState}
    (h : FreshReach L R s) (τ : TaskType) : prCount s τ ≤ L τ := by
  have hInv := freshReach_inv h
  have hlim := limits_of_freshReach h
  set P : String × Nat → Bool := fun p =>
    match s.objs.get? p.2 with
    | some t => decide (t.task_type = τ) &&
        (decide (t.status = .pending) || decide (t.status = .running))
    | none => false with hP
  have hcount : prCount s τ = ((s.tasks.filter P).map Prod.fst).length := by
    rw [List.length_map]
    rfl
  rw [hcount]
  have hsub : ∀ k ∈ (s.tasks.filter P).map Prod.fst, k ∈ s.running_tasks τ := by
    intro k hk
    rcases List.mem_map.mp hk with ⟨p, hpF, hpk⟩
    have hpmem : p ∈ s.tasks := List.mem_of_mem_filter hpF
    have hpP : P p = true := List.of_mem_filter hpF
    cases hg : s.objs.get? p.2 with
    | none =>
      simp only [hP, hg] at hpP
      exact nomatch hpP
    | some t =>
      simp only [hP, hg, Bool.and_eq_true, Bool.or_eq_true, decide_eq_true_eq] at hpP
      have hin := hInv.prInRunning p hpmem t hg hpP.2
      rw [hpP.1] at hin
      rw [← hpk]
      exact hin
  have hnd : ((s.tasks.filter P).map Prod.fst).Nodup :=
    hInv.keysNodup.sublist ((List.filter_sublist _).map Prod.fst)
  have hsp := List.Nodup.subperm hnd (fun {k} hk => hsub k hk)
  calc ((s.tasks.filter P).map Prod.fst).length
      ≤ (s.running_tasks τ).length := hsp.length_le
    _ ≤ s.concurrency_limits τ := hInv.runningBound τ
    _ = L τ := by rw [hlim]

/-- Witness for C1 on a concrete two-admission trace with limit 1. -/
theorem C1_concurrency_ceiling_witness :
    prCount (stepAct (stepAct (initTM (fun _ => 1) 5) (.addTask "a" .default))
      (.addTask "b" .default)) .default ≤ 1 :=
  C1_concurrency_ceiling
    (FreshReach.step (.addTask "b" .default) (by decide)
      (FreshReach.step (.addTask "a" .default) (by decide) FreshReach.init))
    .default

/-- C3: after any manager operation (in particular a queue-drain step and a
cancellation), every id remaining in a category's wait queue points at a task
whose `queue_position` equals its 1-based index in the remaining queue. -/
theorem C3_renumbering {L : TaskType → Nat} {R : Nat} {s : TMState}
    (h : FreshReach L R s) (a : Act) (hf : FreshOk s a) :
    ∀ τ i id, ((stepAct s a).task_queues τ).get? i = some id →
      ∃ o t, dictGet (stepAct s a).tasks id = some o ∧
        (stepAct s a).objs.get? o = some t ∧ t.queue_position = some (i + 1) := by
  have hInv := freshReach_inv (FreshReach.step a hf h)
  intro τ i id hi
  obtain ⟨o, t, hd, hg, _, _, hp⟩ := hInv.queueValid τ i id hi
  exact ⟨o, t, hd, hg, hp⟩

/-- Witness for C3: cancelling the middle queue entry of a three-task trace
leaves the remaining entry (head position, index 0) renumbered to position 1. -/
theorem C3_renumbering_witness :
    ∃ o t,
      dictGet (stepAct (stepAct (stepAct (stepAct (initTM (fun _ => 1) 5)
        (.addTask "a" .default)) (.addTask "b" .default)) (.addTask "c" .default))
        (.cancelTask "b")).tasks "c" = some o ∧
      (stepAct (stepAct (stepAct (stepAct (initTM (fun _ => 1) 5)
        (.addTask "a" .default)) (.addTask "b" .default)) (.addTask "c" .default))
        (.cancelTask "b")).objs.get? o = some t ∧
      t.queue_position = some (0 + 1) :=
  C3_renumbering
    (FreshReach.step (.addTask "c" .default) (by decide)
      (FreshReach.step (.addTask "b" .default) (by decide)
        (FreshReach.step (.addTask "a" .default) (by decide) FreshReach.init)))
    (.cancelTask "b") trivial .default 0 "c" rfl

/-- C4 (counterexample): a reachable state holds a task whose `queue_position`
is non-null although its status is no longer `QUEUED` — `_start_task` never
clears the position when the drain starts a queued task, so the "non-null iff
queued" direction fails. -/
theorem C4_counterexample :
    ∃ s, FreshReach (fun _ => 1) 5 s ∧ ∃ o t, s.objs.get? o = some t ∧
      t.status ≠ TaskStatus.queued ∧ t.queue_position ≠ none :=
  ⟨_, FreshReach.step (.handleCompletion 0) trivial
      (FreshReach.step (.finishRun 0 (.ok 7)) trivial
        (FreshReach.step (.beginRun 0) trivial
          (FreshReach.step (.addTask "b" .default) (by decide)
            (FreshReach.step (.addTask "a" .default) (by decide) FreshReach.init)))),
    1, _, rfl, by decide, by decide⟩

/-- C4 (amended): the true direction — every stored task in status `QUEUED`
has a non-null `queue_position` (namely its 1-based queue index); the converse
fails because started tasks can retain a stale position. -/
theorem C4_queued_has_position {L : TaskType → Nat} {R : Nat} {s : TMState}
    (h : FreshReach L R s) :
    ∀ p ∈ s.tasks, ∀ t, s.objs.get? p.2 = some t → t.status = .queued →
      t.queue_position ≠ none := by
  have hInv := freshReach_inv h
  intro p hp t hg hq
  have hin := hInv.queuedInQueue p hp t hg hq
  rcases List.mem_iff_get?.mp hin with ⟨i, hi⟩
  obtain ⟨o', t', hd', hg', _, _, hp'⟩ := hInv.queueValid _ i p.1 hi
  have hdp : dictGet s.tasks p.1 = some p.2 :=
    dictGet_of_mem_keysNodup hInv.keysNodup (by
      have hpp : p = (p.1, p.2) := rfl
      rw [← hpp]
      exact hp)
  rw [hdp] at hd'
  injection hd' with hd'
  subst hd'
  rw [hg] at hg'
  injection hg' with hg'
  subst hg'
  intro hcon
  rw [hp'] at hcon
  exact nomatch hcon

/-- Witness for the amended C4 direction: the queued task of a concrete trace
has the non-null position `some 1`. -/
theorem C4_queued_has_position_witness :
    (stepAct (stepAct (initTM (fun _ => 1) 5) (.addTask "a" .default))
      (.addTask "b" .default)).objs.get? 1 =
      some { task_id := "b", status := .queued, task_type := .default, result := none, error := none, created_at := 1, started_at := none, completed_at := none, queue_position := some 1, runPhase := 0, cancelled := false } ∧
    (some 1 : Option Nat) ≠ none :=
  ⟨rfl,
    @C4_queued_has_position (fun _ => 1) 5
      (stepAct (stepAct (initTM (fun _ => 1) 5) (.addTask "a" .default))
        (.addTask "b" .default))
      (FreshReach.step (.addTask "b" .default) (by decide)
        (FreshReach.step (.addTask "a" .default) (by decide) FreshReach.init))
      ("b", 1) (by decide)
      { task_id := "b", status := .queued, task_type := .default, result := none, error := none, created_at := 1, started_at := none, completed_at := none, queue_position := some 1, runPhase := 0, cancelled := false }
      rfl (by decide)⟩

/-- C5: `cancel_task` is `false` on unknown or already-terminal ids, and on a
`RUNNING` task it returns `true`, marks the task failed with the
"Task was cancelled" error and a set `completed_at`, records the asyncio
cancellation, and removes the id from its category's running set. -/
theorem C5_cancel_semantics {L : TaskType → Nat} {R : Nat} {s : TMState}
    (h : FreshReach L R s) (id : String) :
    (dictGet s.tasks id = none → (cancelTask s id).1 = false) ∧
    (∀ o t, dictGet s.tasks id = some o → s.objs.get? o = some t →
      t.status = .completed ∨ t.status = .failed → (cancelTask s id).1 = false) ∧
    (∀ o t, dictGet s.tasks id = some o → s.objs.get? o = some t →
      t.status = .running →
      (cancelTask s id).1 = true ∧
      ∃ t', ((cancelTask s id).2).objs.get? o = some t' ∧ t'.status = .failed ∧
        t'.error = some "Task was cancelled" ∧ t'.completed_at = some s.time ∧
        t'.cancelled = true ∧
        id ∉ ((cancelTask s id).2).running_tasks t.task_type) := by
  have hInv := freshReach_inv h
  refine ⟨?_, ?_, ?_⟩
  · intro hd
    simp only [cancelTask, hd]
  · intro o t hd hg hterm
    obtain ⟨_, _, _, h4, h5⟩ := hInv.objInv t (List.get?_mem hg)
    have hst : ¬ t.status = .queued := by
      rcases hterm with h0 | h0 <;>
        · rw [h0]
          intro hcon
          exact nomatch hcon
    have hrun : ¬(t.runPhase ≠ 0 ∧ t.runPhase ≠ 3 ∧ ¬ t.cancelled) := by
      rcases hterm with h0 | h0
      · obtain ⟨_, _, _, hph, _⟩ := h4 h0
        intro hcon
        exact hcon.2.1 hph
      · obtain ⟨_, _, _, hph⟩ := h5 h0
        intro hcon
        rcases hph with hp0 | hp0 | hp0
        · exact hcon.1 hp0
        · exact hcon.2.1 hp0
        · exact hcon.2.2 hp0
    simp only [cancelTask, hd, hg, if_neg hst, if_neg hrun]
  · intro o t hd hg hrun0
    obtain ⟨_, _, h3, _, _⟩ := hInv.objInv t (List.get?_mem hg)
    obtain ⟨hr, he, hc, hph, hcn⟩ := h3 hrun0
    have hst : ¬ t.status = .queued := by
      rw [hrun0]
      intro hcon
      exact nomatch hcon
    have hcond : t.runPhase ≠ 0 ∧ t.runPhase ≠ 3 ∧ ¬ t.cancelled := by
      refine ⟨?_, ?_, ?_⟩
      · rw [hph]
        decide
      · rw [hph]
        decide
      · rw [hcn]
        decide
    simp only [cancelTask, hd, hg, if_neg hst, if_pos hcond]
    refine ⟨trivial, ?_⟩
    set f : Task → Task := fun u => { u with cancelled := true, status := .failed, error := some "Task was cancelled", completed_at := some s.time } with hfdef
    have hget1 : (updateObj s o f).objs.get? o = some (f t) := by
      rw [updateObj_objs_get, if_pos rfl, hg, Option.map_some']
    by_cases hmem : id ∈ (updateObj s o f).running_tasks t.task_type
    · rw [if_pos hmem]
      refine ⟨f t, ?_, rfl, rfl, rfl, rfl, ?_⟩
      · rw [setRunning_objs]
        exact hget1
      · show id ∉ (setRunning (updateObj s o f) t.task_type
          (((updateObj s o f).running_tasks t.task_type).erase id)).running_tasks t.task_type
        rw [setRunning_running, Function.update_same]
        exact (hInv.runningNodup t.task_type).not_mem_erase
    · rw [if_neg hmem]
      exact ⟨f t, hget1, rfl, rfl, rfl, rfl, hmem⟩

/-- Witness for C5 on a trace whose only task is running. -/
theorem C5_cancel_semantics_witness :
    (dictGet (stepAct (stepAct (initTM (fun _ => 1) 5) (.addTask "a" .default))
        (.beginRun 0)).tasks "a" = none →
      (cancelTask (stepAct (stepAct (initTM (fun _ => 1) 5) (.addTask "a" .default))
        (.beginRun 0)) "a").1 = false) ∧
    (∀ o t, dictGet (stepAct (stepAct (initTM (fun _ => 1) 5) (.addTask "a" .default))
        (.beginRun 0)).tasks "a" = some o →
      (stepAct (stepAct (initTM (fun _ => 1) 5) (.addTask "a" .default))
        (.beginRun 0)).objs.get? o = some t →
      t.status = .completed ∨ t.status = .failed →
      (cancelTask (stepAct (stepAct (initTM (fun _ => 1) 5) (.addTask "a" .default))
        (.beginRun 0)) "a").1 = false) ∧
    (∀ o t, dictGet (stepAct (stepAct (initTM (fun _ => 1) 5) (.addTask "a" .default))
        (.beginRun 0)).tasks "a" = some o →
      (stepAct (stepAct (initTM (fun _ => 1) 5) (.addTask "a" .default))
        (.beginRun 0)).objs.get? o = some t →
      t.status = .running →
      (cancelTask (stepAct (stepAct (initTM (fun _ => 1) 5) (.addTask "a" .default))
        (.beginRun 0)) "a").1 = true ∧
      ∃ t', ((cancelTask (stepAct (stepAct (initTM (fun _ => 1) 5)
          (.addTask "a" .default)) (.beginRun 0)) "a").2).objs.get? o = some t' ∧
        t'.status = .failed ∧ t'.error = some "Task was cancelled" ∧
        t'.completed_at = some (stepAct (stepAct (initTM (fun _ => 1) 5)
          (.addTask "a" .default)) (.beginRun 0)).time ∧
        t'.cancelled = true ∧
        "a" ∉ ((cancelTask (stepAct (stepAct (initTM (fun _ => 1) 5)
          (.addTask "a" .default)) (.beginRun 0)) "a").2).running_tasks t.task_type) :=
  C5_cancel_semantics
    (FreshReach.step (.beginRun 0) trivial
      (FreshReach.step (.addTask "a" .default) (by decide) FreshReach.init))
    "a"

/-- C6: in every reachable state, a `COMPLETED` task has a non-null result and
null error, and a `FAILED` task has a non-null error and null result. -/
theorem C6_result_xor_error {L : TaskType → Nat} {R : Nat} {s : TMState}
    (h : FreshReach L R s) :
    ∀ t ∈ s.objs,
      (t.status = .completed → (∃ v, t.result = some v) ∧ t.error = none) ∧
      (t.status = .failed → t.result = none ∧ ∃ e, t.error = some e) := by
  have hInv := freshReach_inv h
  intro t ht
  obtain ⟨_, _, _, h4, h5⟩ := hInv.objInv t ht
  refine ⟨?_, ?_⟩
  · intro hc
    obtain ⟨hv, he, _, _, _⟩ := h4 hc
    exact ⟨hv, he⟩
  · intro hc
    obtain ⟨hr, he, _, _⟩ := h5 hc
    exact ⟨hr, he⟩

/-- Witness for C6: the completed task of a concrete trace, whose result is
`some 7` and whose error is null. -/
theorem C6_result_xor_error_witness :
    (TaskStatus.completed = TaskStatus.completed →
      (∃ v, (some 7 : Option Nat) = some v) ∧ (none : Option String) = none) ∧
    (TaskStatus.completed = TaskStatus.failed →
      (some 7 : Option Nat) = (none : Option Nat) ∧ ∃ e, (none : Option String) = some e) :=
  @C6_result_xor_error (fun _ => 1) 5
    (stepAct (stepAct (stepAct (initTM (fun _ => 1) 5) (.addTask "a" .default))
      (.beginRun 0)) (.finishRun 0 (.ok 7)))
    (FreshReach.step (.finishRun 0 (.ok 7)) trivial
      (FreshReach.step (.beginRun 0) trivial
        (FreshReach.step (.addTask "a" .default) (by decide) FreshReach.init)))
    { task_id := "a", status := .completed, task_type := .default, result := some 7, error := none, created_at := 0, started_at := some 1, completed_at := some 2, queue_position := none, runPhase := 3, cancelled := false }
    (by decide)

end Backend

namespace Bot

/-! ## Claims about the per-user single-flight manager -/

/-- C7: with queuing disabled, `queue_task` (single mode) returns the
distinguished rejection value `-1` and leaves the state untouched whenever a
not-done task is tracked for the user; otherwise it starts the work
immediately, returns `0`, queues nothing, and touches no other user's slot. -/
theorem C7_single_mode (b : BotState) (u : String) :
    (isActive b u = true → queueTaskSingleMode b u = (-1, b)) ∧
    (isActive b u = false →
      (queueTaskSingleMode b u).1 = 0 ∧
      ((queueTaskSingleMode b u).2).user_task_queues = b.user_task_queues ∧
      isActive ((queueTaskSingleMode b u).2) u = true ∧
      ∀ u', u' ≠ u →
        ((queueTaskSingleMode b u).2).user_running_tasks u' = b.user_running_tasks u') := by
  refine ⟨?_, ?_⟩
  · intro hact
    simp only [queueTaskSingleMode, hact, if_true]
  · intro hact
    simp only [queueTaskSingleMode, hact, Bool.false_eq_true, if_false]
    refine ⟨trivial, trivial, ?_, ?_⟩
    · simp only [isActive, Function.update_same]
      rfl
    · intro u' hne
      show Function.update b.user_running_tasks u (some ⟨b.nextAdm, false⟩) u' =
        b.user_running_tasks u'
      rw [Function.update_noteq hne]

/-- Witness for C7 after one started task for the user. -/
theorem C7_single_mode_witness :
    (isActive (bstep initBot (.singleTask "u")) "u" = true →
      queueTaskSingleMode (bstep initBot (.singleTask "u")) "u" =
        (-1, bstep initBot (.singleTask "u"))) ∧
    (isActive (bstep initBot (.singleTask "u")) "u" = false →
      (queueTaskSingleMode (bstep initBot (.singleTask "u")) "u").1 = 0 ∧
      ((queueTaskSingleMode (bstep initBot (.singleTask "u")) "u").2).user_task_queues =
        (bstep initBot (.singleTask "u")).user_task_queues ∧
      isActive ((queueTaskSingleMode (bstep initBot (.singleTask "u")) "u").2) "u" = true ∧
      ∀ u', u' ≠ "u" →
        ((queueTaskSingleMode (bstep initBot (.singleTask "u")) "u").2).user_running_tasks u' =
          (bstep initBot (.singleTask "u")).user_running_tasks u') :=
  C7_single_mode (bstep initBot (.singleTask "u")) "u"

end Bot

/-! ## The cross-manager FIFO claim -/

/-- C8: within one category of the backend manager, and within one user's
queue of the bot manager, queued tasks start execution in admission order: in
every reachable state both ghost start logs are strictly increasing in the
admission stamps. -/
theorem C8_fifo_starts {L : Backend.TaskType → Nat} {R : Nat} {s : Backend.TMState}
    {b : Bot.BotState} (hs : Backend.FreshReach L R s) (hb : Bot.BotReach b) :
    (∀ τ, (s.startLog τ).Pairwise (· < ·)) ∧
    (∀ u, (b.logU u).Pairwise (· < ·)) :=
  ⟨(Backend.freshReach_inv hs).logSorted, (Bot.botReach_botInv hb).logSorted⟩

/-- Witness for C8 on traces that each perform one queue-drain start. -/
theorem C8_fifo_starts_witness :
    (∀ τ, ((Backend.stepAct (Backend.stepAct (Backend.stepAct (Backend.stepAct
        (Backend.stepAct (Backend.initTM (fun _ => 1) 5)
          (.addTask "a" .default)) (.addTask "b" .default)) (.beginRun 0))
          (.finishRun 0 (.ok 7))) (.handleCompletion 0)).startLog τ).Pairwise (· < ·)) ∧
    (∀ u, ((Bot.bstep (Bot.bstep (Bot.bstep Bot.initBot (.queueTask "u"))
        (.queueTask "u")) (.finishTask "u")).logU u).Pairwise (· < ·)) :=
  C8_fifo_starts
    (Backend.FreshReach.step (.handleCompletion 0) trivial
      (Backend.FreshReach.step (.finishRun 0 (.ok 7)) trivial
        (Backend.FreshReach.step (.beginRun 0) trivial
          (Backend.FreshReach.step (.addTask "b" .default) (by decide)
            (Backend.FreshReach.step (.addTask "a" .default) (by decide)
              Backend.FreshReach.init)))))
    (Bot.BotReach.step (.finishTask "u")
      (Bot.BotReach.step (.queueTask "u")
        (Bot.BotReach.step (.queueTask "u") Bot.BotReach.init)))

namespace Webhook

/-! ## Claims about the webhook rendezvous -/

theorem applyUpdate_delivered_none (r : STTRecord) (u : UpdateData)
    (h : u.delivered_to_user = none) :
    (applyUpdate r u).delivered_to_user = r.delivered_to_user := by
  show (u.delivered_to_user.getD r.delivered_to_user) = r.delivered_to_user
  rw [h]
  rfl

theorem dbUpdate_self (db : Db) (id : String) (u : UpdateData) :
    dbUpdate db id u id = applyUpdate (db id) u := by
  show (if id = id then applyUpdate (db id) u else db id) = _
  rw [if_pos rfl]

/-- The error branch: no `delivered_to_user` key in its update, no metadata in
its (at most one) outbound payload, an OK response in both configurations. -/
theorem errorBranch_spec (cfg : Cfg) (db : Db) (t_id : String) (chatId : Int) :
    (errorBranch cfg db t_id chatId).db = dbUpdate db t_id { status := some "error", error := some "Transcription failed at AssemblyAI", processed_at := some cfg.now } ∧
    (∀ p ∈ (errorBranch cfg db t_id chatId).sends, p.metadata = none) ∧
    (errorBranch cfg db t_id chatId).resp = .okProcessed ∧
    (outboundConfigured cfg = true → (errorBranch cfg db t_id chatId).sends =
      [{ chat_id := chatId, message := "Sorry, there was an error processing your audio transcription." }]) := by
  by_cases hcfgd : outboundConfigured cfg = true
  · have hb : (!(outboundConfigured cfg)) = false := by
      rw [hcfgd]
      rfl
    refine ⟨?_, ?_, ?_, fun _ => ?_⟩
    · simp only [errorBranch, hb, Bool.false_eq_true, if_false]
    · intro p hp
      simp only [errorBranch, hb, Bool.false_eq_true, if_false] at hp
      rw [List.eq_of_mem_singleton hp]
    · simp only [errorBranch, hb, Bool.false_eq_true, if_false]
    · simp only [errorBranch, hb, Bool.false_eq_true, if_false]
  · have hcf : outboundConfigured cfg = false := by
      cases hx : outboundConfigured cfg
      · rfl
      · exact absurd hx hcfgd
    have hb : (!(outboundConfigured cfg)) = true := by
      rw [hcf]
      rfl
    refine ⟨?_, ?_, ?_, fun hcon => absurd hcon hcfgd⟩
    · simp only [errorBranch, hb, if_true]
    · intro p hp
      simp only [errorBranch, hb, if_true] at hp
      exact absurd hp (List.not_mem_nil p)
    · simp only [errorBranch, hb, if_true]

/-- Delivering a payload without metadata never touches the record store. -/
theorem sendMessageToUser_no_stt (tgOk : Bool) (data : SendPayload) (db : Db)
    (h : data.metadata = none) : (sendMessageToUser tgOk data db).2 = db := by
  rw [sendMessageToUser]
  by_cases h1 : data.chat_id = 0
  · rw [if_pos h1]
  · rw [if_neg h1]
    by_cases h2 : data.message = ""
    · rw [if_pos h2]
    · rw [if_neg h2]
      by_cases h3 : (!tgOk) = true
      · rw [if_pos h3]
      · rw [if_neg h3]
        rw [h]

theorem deliverSends_no_stt (tgOk : Bool) : ∀ (sends : List SendPayload) (db : Db),
    (∀ p ∈ sends, p.metadata = none) → deliverSends tgOk sends db = db := by
  intro sends
  induction sends with
  | nil =>
    intro db _
    rfl
  | cons x rest ih =>
    intro db hall
    show deliverSends tgOk rest (sendMessageToUser tgOk x db).2 = db
    rw [sendMessageToUser_no_stt tgOk x db (hall x (List.mem_cons_self _ _))]
    exact ih db fun p hp => hall p (List.mem_cons_of_mem _ hp)

/-- C2: for a request that reaches the delivered-flag check (auth and the
correlation parameters pass) on a record already marked delivered, the handler
answers the success acknowledgement with no provider fetch, no record update
and no outbound send: a duplicate completed-status webhook is a successful
no-op, and the check precedes every provider call. -/
theorem C2_duplicate_delivery_noop {cfg : Cfg} {req : WRequest} {db : Db}
    (hauth : authRejects cfg req = false)
    (ht : pyFalsyOpt req.t_id = false) (hc : pyFalsyOpt req.chat_id = false)
    (hth : pyFalsyOpt req.db_thread_id = false)
    {n : Int} (hparse : pyParseInt (req.chat_id.getD "") = some n)
    (hdel : (db (req.t_id.getD "")).delivered_to_user = true) :
    assemblyaiWebhook cfg req db =
      { resp := .okAlreadyDelivered, db := db, deliveryChecks := [req.t_id.getD ""], fetches := [], sends := [], agentMsgs := [] } := by
  simp only [assemblyaiWebhook, hauth, ht, hc, hth, Bool.false_eq_true, if_false, hparse,
    hdel, if_true]

/-- Witness for C2 on a concrete already-delivered record. -/
theorem C2_duplicate_delivery_noop_witness :
    assemblyaiWebhook
      { our_secret_token := some "sec", tagent_local_url := some "url", getTranscript := fun _ => { text := "hello" }, sendOk := true, now := 3 }
      { xWebhookSecret := some "sec", t_id := some "r1", chat_id := some "7", db_thread_id := some "th", bodyTranscriptId := some "tr1", bodyStatus := some "completed" }
      (fun _ => { status := "processing", transcript := none, error := none, processed_at := none, delivered_to_user := true, transcript_docx_path := none, model_used := none, detected_language := none }) =
      { resp := .okAlreadyDelivered,
        db := fun _ => { status := "processing", transcript := none, error := none, processed_at := none, delivered_to_user := true, transcript_docx_path := none, model_used := none, detected_language := none },
        deliveryChecks := ["r1"], fetches := [], sends := [], agentMsgs := [] } :=
  @C2_duplicate_delivery_noop _ _ _ (by decide) (by decide) (by decide) (by decide)
    7 (by decide) (by decide)

/-- C9: the handler answers 401 whenever the shared-secret check rejects, and
400 whenever it passes but a correlation identifier is missing or the chat id
does not parse as an integer; both rejections leave the store untouched and
perform no lookup, fetch or send. -/
theorem C9_auth_and_validation (cfg : Cfg) (req : WRequest) (db : Db) :
    (authRejects cfg req = true →
      assemblyaiWebhook cfg req db =
        { resp := .unauthorized, db := db, deliveryChecks := [], fetches := [], sends := [], agentMsgs := [] }) ∧
    (authRejects cfg req = false →
      (pyFalsyOpt req.t_id = true ∨ pyFalsyOpt req.chat_id = true ∨
        pyFalsyOpt req.db_thread_id = true ∨ pyParseInt (req.chat_id.getD "") = none) →
      ∃ m, assemblyaiWebhook cfg req db =
        { resp := .badRequest m, db := db, deliveryChecks := [], fetches := [], sends := [], agentMsgs := [] }) := by
  refine ⟨?_, ?_⟩
  · intro hauth
    simp only [assemblyaiWebhook, hauth, if_true]
  · intro hauth hbad
    by_cases h1 : pyFalsyOpt req.t_id = true
    · refine ⟨"Missing t_id parameter", ?_⟩
      simp only [assemblyaiWebhook, hauth, Bool.false_eq_true, if_false, h1, if_true]
    · have h1f : pyFalsyOpt req.t_id = false := by
        cases hx : pyFalsyOpt req.t_id
        · rfl
        · exact absurd hx h1
      by_cases h2 : pyFalsyOpt req.chat_id = true
      · refine ⟨"Missing chat_id parameter", ?_⟩
        simp only [assemblyaiWebhook, hauth, Bool.false_eq_true, if_false, h1f, h2, if_true]
      · have h2f : pyFalsyOpt req.chat_id = false := by
          cases hx : pyFalsyOpt req.chat_id
          · rfl
          · exact absurd hx h2
        by_cases h3 : pyFalsyOpt req.db_thread_id = true
        · refine ⟨"Missing db_thread_id parameter", ?_⟩
          simp only [assemblyaiWebhook, hauth, Bool.false_eq_true, if_false, h1f, h2f, h3,
            if_true]
        · have h3f : pyFalsyOpt req.db_thread_id = false := by
            cases hx : pyFalsyOpt req.db_thread_id
            · rfl
            · exact absurd hx h3
          have h4 : pyParseInt (req.chat_id.getD "") = none := by
            rcases hbad with hx | hx | hx | hx
            · exact absurd hx h1
            · exact absurd hx h2
            · exact absurd hx h3
            · exact hx
          refine ⟨"Invalid chat_id format", ?_⟩
          simp only [assemblyaiWebhook, hauth, Bool.false_eq_true, if_false, h1f, h2f, h3f, h4]

/-- Witness for C9 on a concrete missing-header request. -/
theorem C9_auth_and_validation_witness :
    (authRejects { our_secret_token := some "sec", tagent_local_url := none, getTranscript := fun _ => { text := "" }, sendOk := false, now := 0 } { t_id := some "r1" } = true →
      assemblyaiWebhook { our_secret_token := some "sec", tagent_local_url := none, getTranscript := fun _ => { text := "" }, sendOk := false, now := 0 } { t_id := some "r1" }
        (fun _ => { status := "", transcript := none, error := none, processed_at := none, delivered_to_user := false, transcript_docx_path := none, model_used := none, detected_language := none }) =
        { resp := .unauthorized,
          db := fun _ => { status := "", transcript := none, error := none, processed_at := none, delivered_to_user := false, transcript_docx_path := none, model_used := none, detected_language := none },
          deliveryChecks := [], fetches := [], sends := [], agentMsgs := [] }) ∧
    (authRejects { our_secret_token := some "sec", tagent_local_url := none, getTranscript := fun _ => { text := "" }, sendOk := false, now := 0 } { t_id := some "r1" } = false →
      (pyFalsyOpt (WRequest.t_id { t_id := some "r1" }) = true ∨
        pyFalsyOpt (WRequest.chat_id { t_id := some "r1" }) = true ∨
        pyFalsyOpt (WRequest.db_thread_id { t_id := some "r1" }) = true ∨
        pyParseInt ((WRequest.chat_id { t_id := some "r1" }).getD "") = none) →
      ∃ m, assemblyaiWebhook { our_secret_token := some "sec", tagent_local_url := none, getTranscript := fun _ => { text := "" }, sendOk := false, now := 0 } { t_id := some "r1" }
        (fun _ => { status := "", transcript := none, error := none, processed_at := none, delivered_to_user := false, transcript_docx_path := none, model_used := none, detected_language := none }) =
        { resp := .badRequest m,
          db := fun _ => { status := "", transcript := none, error := none, processed_at := none, delivered_to_user := false, transcript_docx_path := none, model_used := none, detected_language := none },
          deliveryChecks := [], fetches := [], sends := [], agentMsgs := [] }) :=
  C9_auth_and_validation
    { our_secret_token := some "sec", tagent_local_url := none, getTranscript := fun _ => { text := "" }, sendOk := false, now := 0 }
    { t_id := some "r1" }
    (fun _ => { status := "", transcript := none, error := none, processed_at := none, delivered_to_user := false, transcript_docx_path := none, model_used := none, detected_language := none })

/-- C10: an error-status webhook that passes the checks takes the error
branch, whose update carries no `delivered_to_user` key and whose failure
notice carries no metadata — so delivering it cannot mark the record
delivered, and a retried error webhook reprocesses and re-sends instead of
short-circuiting. -/
theorem C10_error_branch_no_delivery {cfg : Cfg} {req : WRequest} {db : Db} (tgOk : Bool)
    (hauth : authRejects cfg req = false)
    (ht : pyFalsyOpt req.t_id = false) (hc : pyFalsyOpt req.chat_id = false)
    (hth : pyFalsyOpt req.db_thread_id = false)
    {chatId : Int} (hparse : pyParseInt (req.chat_id.getD "") = some chatId)
    (hdel : (db (req.t_id.getD "")).delivered_to_user = false)
    (hbody : req.bodyOk = true)
    (htr : pyFalsyOpt req.bodyTranscriptId = false) (hstp : pyFalsyOpt req.bodyStatus = false)
    (herr : req.bodyStatus = some "error") :
    assemblyaiWebhook cfg req db = errorBranch cfg db (req.t_id.getD "") chatId ∧
    (∀ p ∈ (assemblyaiWebhook cfg req db).sends, p.metadata = none) ∧
    ((assemblyaiWebhook cfg req db).db (req.t_id.getD "")).delivered_to_user = false ∧
    deliverSends tgOk (assemblyaiWebhook cfg req db).sends (assemblyaiWebhook cfg req db).db =
      (assemblyaiWebhook cfg req db).db ∧
    assemblyaiWebhook cfg req ((assemblyaiWebhook cfg req db).db) =
      errorBranch cfg ((assemblyaiWebhook cfg req db).db) (req.t_id.getD "") chatId ∧
    (assemblyaiWebhook cfg req ((assemblyaiWebhook cfg req db).db)).resp = .okProcessed ∧
    (outboundConfigured cfg = true →
      (errorBranch cfg db (req.t_id.getD "") chatId).sends =
        [{ chat_id := chatId, message := "Sorry, there was an error processing your audio transcription." }]) := by
  have hne : ¬ req.bodyStatus = some "completed" := by
    rw [herr]
    decide
  have hb2 : (!req.bodyOk) = false := by
    rw [hbody]
    rfl
  have hor : (pyFalsyOpt req.bodyTranscriptId || pyFalsyOpt req.bodyStatus) = false := by
    rw [htr, hstp]
    rfl
  have hmain : assemblyaiWebhook cfg req db = errorBranch cfg db (req.t_id.getD "") chatId := by
    simp only [assemblyaiWebhook, hauth, ht, hc, hth, Bool.false_eq_true, if_false, hparse,
      hdel, hb2, hor, if_neg hne, if_pos herr]
  obtain ⟨hdbE, hmetaE, _, hcfgE⟩ := errorBranch_spec cfg db (req.t_id.getD "") chatId
  have hdel1 : ((errorBranch cfg db (req.t_id.getD "") chatId).db (req.t_id.getD "")).delivered_to_user = false := by
    rw [hdbE, dbUpdate_self, applyUpdate_delivered_none _ _ rfl]
    exact hdel
  have hretry : assemblyaiWebhook cfg req ((errorBranch cfg db (req.t_id.getD "") chatId).db) =
      errorBranch cfg ((errorBranch cfg db (req.t_id.getD "") chatId).db) (req.t_id.getD "") chatId := by
    simp only [assemblyaiWebhook, hauth, ht, hc, hth, Bool.false_eq_true, if_false, hparse,
      hdel1, hb2, hor, if_neg hne, if_pos herr]
  obtain ⟨_, _, hresp2, _⟩ := errorBranch_spec cfg ((errorBranch cfg db (req.t_id.getD "") chatId).db) (req.t_id.getD "") chatId
  refine ⟨hmain, ?_, ?_, ?_, ?_, ?_, hcfgE⟩
  · rw [hmain]
    exact hmetaE
  · rw [hmain]
    exact hdel1
  · rw [hmain]
    exact deliverSends_no_stt tgOk _ _ hmetaE
  · rw [hmain]
    exact hretry
  · rw [hmain, hretry]
    exact hresp2

/-- Witness for C10: the delivered flag stays false after a concrete error
webhook. -/
theorem C10_error_branch_no_delivery_witness :
    ((assemblyaiWebhook
      { our_secret_token := some "sec", tagent_local_url := some "url", getTranscript := fun _ => { text := "hello" }, sendOk := true, now := 3 }
      { xWebhookSecret := some "sec", t_id := some "r1", chat_id := some "7", db_thread_id := some "th", bodyTranscriptId := some "tr1", bodyStatus := some "error" }
      (fun _ => { status := "processing", transcript := none, error := none, processed_at := none, delivered_to_user := false, transcript_docx_path := none, model_used := none, detected_language := none })).db "r1").delivered_to_user = false :=
  (@C10_error_branch_no_delivery _ _ _ true (by decide) (by decide) (by decide) (by decide)
    7 (by decide) (by decide) (by decide) (by decide) (by decide) (by decide)).2.2.1

end Webhook

end TgAgent
